import Mathlib

/-!
CommonC `Path.c`: tokenizer, path container and string cache

A shallow embedding of `CommonC/Path.c`.

Conventions of the embedding.

* A C string is the list of the characters stored in front of its terminator.  The scanning loop
  of `FSPathConvertPathToComponents` reads the list character by character and leaves the loop at
  the first `'\0'`, or at the end of the list (where the terminator sits).
* A pointer pair `Start .. Path` into the input is kept as the text of that span.
* The `int` counters of the tokenizer are 32 bits wide.  They are held as `Int` values and every
  increment goes through `wrapInt32`: past `INT_MAX` a counter continues at `INT_MIN`, as the
  compiled code does.  `size_t` lengths are `Nat`.
* A call that does not return normally (a `NULL` handed to `strlen` or `%s`, element 0 of an empty
  collection, unbounded recursion) yields `none`.
* Allocation is assumed to succeed.
-/

namespace CommonC

/-! ## Data model -/

/-- Modelled from the spec: the component tag set of `Path.h`, which is not part of the sources read
here (spec section 3, "Component type"). -/
inductive FSPathComponentType where
  | Invalid
  | Volume
  | Root
  | RelativeRoot
  | Directory
  | RelativeParentDirectory
  | File
  | Extension
  deriving DecidableEq, Repr

/-- Modelled from the spec: a component of `Path.h` is a type with an optional owned text
(spec section 3, "Component"); `string = none` is the `NULL` payload. -/
structure FSPathComponent where
  type : FSPathComponentType
  string : Option (List Char)
  deriving DecidableEq, Repr

/-- Modelled from the spec: `FSPathComponentCreate` of `Path.h` pairs the type with a copy of the
text. -/
def FSPathComponentCreate (Ty : FSPathComponentType) (String : Option (List Char)) :
    FSPathComponent :=
  ⟨Ty, String⟩

/-- Modelled from the spec: `FSPathComponentGetType` of `Path.h`. -/
def FSPathComponentGetType (Component : FSPathComponent) : FSPathComponentType :=
  Component.type

/-- Modelled from the spec: `FSPathComponentGetString` of `Path.h`. -/
def FSPathComponentGetString (Component : FSPathComponent) : Option (List Char) :=
  Component.string

/-- The value `(FSPathComponent)FSPathComponentTypeInvalid` returned by `FSPathGetVolume`. -/
def FSPathComponentInvalid : FSPathComponent :=
  ⟨.Invalid, none⟩

/-! ## Classifier (`Path.c` lines 35-83) -/

/-- `FSPathFoundComponentTypeFromInputs`: `some t` when the function returns `TRUE` with
`*Type = t`, `none` when it returns `FALSE`. -/
def FSPathFoundComponentTypeFromInputs (CurrentCharacter FirstCharacter : Char)
    (SlashCount DotCount CharacterCount : Int) : Option FSPathComponentType :=
  if FirstCharacter = '/' then
    if (CurrentCharacter = '\x00' ∨ CurrentCharacter = '/') ∧ SlashCount = 2 ∧ DotCount = 0
        ∧ CharacterCount ≠ 0 then
      some .Volume
    else if (CurrentCharacter = '\x00' ∨ CurrentCharacter ≠ '/') ∧ SlashCount = 1 ∧ DotCount = 0
        ∧ CharacterCount = 0 then
      some .Root
    else none
  else if FirstCharacter = '.' then
    if SlashCount ≠ 0 ∧ DotCount = 2 ∧ CharacterCount = 0 then
      some .RelativeParentDirectory
    else if (CurrentCharacter = '\x00' ∨ CurrentCharacter = '.') ∧ SlashCount = 0 ∧ DotCount = 1
        ∧ CharacterCount ≠ 0 then
      some .Extension
    else none
  else
    if SlashCount ≠ 0 ∧ DotCount = 0 ∧ CharacterCount ≠ 0 then
      some .Directory
    else if (CurrentCharacter = '\x00' ∨ CurrentCharacter = '.') ∧ SlashCount = 0 ∧ DotCount = 0
        ∧ CharacterCount ≠ 0 then
      some .File
    else none

/-! ## Component factory (`Path.c` lines 85-128) -/

/-- `FSPathCopyString`: the first `Length` characters of `String` (`strncpy` followed by the
terminator). -/
def FSPathCopyString (String : List Char) (Length : Nat) : List Char :=
  String.take Length

/-- `FSPathCreateComponent`: `String` is the span handed over, `Length` its length.  The
subtractions are exact for every span the tokenizer produces (a volume span has at least three
characters, a directory or extension span at least two). -/
def FSPathCreateComponent (Ty : FSPathComponentType) (String : List Char) (Length : Nat) :
    FSPathComponent :=
  match Ty with
  | .Volume => FSPathComponentCreate Ty (some (FSPathCopyString (String.drop 2) (Length - 2)))
  | .Directory => FSPathComponentCreate Ty (some (FSPathCopyString String (Length - 1)))
  | .File => FSPathComponentCreate Ty (some (FSPathCopyString String Length))
  | .Extension => FSPathComponentCreate Ty (some (FSPathCopyString (String.drop 1) (Length - 1)))
  | _ => FSPathComponentCreate Ty none

/-! ## Tokenizer (`Path.c` lines 135-199) -/

/-- The value a 32-bit `int` holds for the arithmetic result `x`: the residue of `x` in
`[-2147483648, 2147483647]`. -/
def wrapInt32 (x : Int) : Int :=
  (x + 2147483648) % 4294967296 - 2147483648

/-- The local variables of `FSPathConvertPathToComponents`.  `Start` holds the characters from
`Start` up to (not including) `Path`.  The three counters are the `int` variables of line 141;
they start at 0 and are changed by `wrapInt32` only, so they stay in the range of an `int`. -/
structure ScanState where
  Start : List Char
  SlashCount : Int
  DotCount : Int
  CharacterCount : Int
  HasFile : Bool
  Components : List FSPathComponent
  deriving DecidableEq, Repr

/-- The value of `*Start` when the character under `Path` is `c`: the first character of the pending
span, or `c` itself when the span is empty (`Start == Path`). -/
def ScanState.first (st : ScanState) (c : Char) : Char :=
  match st.Start with
  | [] => c
  | FirstCharacter :: _ => FirstCharacter

/-- One iteration of the `for` loop (lines 145-180) on the character `c`.  The increments of
lines 167-180 are increments of an `int`. -/
def scanStep (c : Char) (st : ScanState) : ScanState :=
  let st1 : ScanState :=
    match FSPathFoundComponentTypeFromInputs c (st.first c) st.SlashCount st.DotCount
        st.CharacterCount with
    | some Ty =>
      let promoted : FSPathComponentType × Bool :=
        if !st.HasFile then
          if Ty = .File then (Ty, true)
          else if Ty = .Extension then (.File, true)
          else (Ty, st.HasFile)
        else (Ty, st.HasFile)
      { Start := []
        SlashCount := 0
        DotCount := 0
        CharacterCount := 0
        HasFile := promoted.2
        Components := st.Components ++ [FSPathCreateComponent promoted.1 st.Start st.Start.length] }
    | none => st
  if c = '/' then
    { st1 with Start := st1.Start ++ [c], SlashCount := wrapInt32 (st1.SlashCount + 1) }
  else if c = '.' then
    { st1 with Start := st1.Start ++ [c], DotCount := wrapInt32 (st1.DotCount + 1) }
  else { st1 with Start := st1.Start ++ [c], CharacterCount := wrapInt32 (st1.CharacterCount + 1) }

/-- The `for` loop (lines 143-181): it ends at the terminator. -/
def scanLoop : List Char → ScanState → ScanState
  | [], st => st
  | c :: rest, st => if c = '\x00' then st else scanLoop rest (scanStep c st)

/-- The classification made after the loop against the terminator (lines 184-187). -/
def scanFlush (st : ScanState) : List FSPathComponent :=
  match FSPathFoundComponentTypeFromInputs '\x00' (st.first '\x00') st.SlashCount st.DotCount
      st.CharacterCount with
  | some Ty => st.Components ++ [FSPathCreateComponent Ty st.Start st.Start.length]
  | none => st.Components

/-- The state in front of the loop (lines 137-142). -/
def scanInit : ScanState :=
  { Start := [], SlashCount := 0, DotCount := 0, CharacterCount := 0, HasFile := false,
    Components := [] }

/-- `FSPathConvertPathToComponents`. -/
def FSPathConvertPathToComponents (Path : List Char) (CompletePath : Bool) :
    List FSPathComponent :=
  let Components := scanFlush (scanLoop Path scanInit)
  match CompletePath, Components with
  | true, first :: _ =>
    if FSPathComponentGetType first ≠ .Volume ∧ FSPathComponentGetType first ≠ .Root then
      FSPathComponentCreate .RelativeRoot none :: Components
    else Components
  | _, _ => Components

/-! ## Path container (`Path.c` lines 213-347) -/

/-- The buffer behind `completeRep`: `size` is the number of bytes requested from the allocator
(line 396), `text` the characters written in front of the terminator.  Writes are not bounded by
`size` in this embedding; `size` is recorded so that the bound can be stated. -/
structure CacheBuffer where
  size : Nat
  text : List Char
  deriving DecidableEq, Repr

/-- Modelled from the spec: `FSPathInfo` of `Path.h` (spec section 3, "Path" and "CachedStrings").
`pathRep` and `filenameRep` are positions inside the buffer of `completeRep`.  `allocations` is a
ghost counter of the buffers allocated for this path (line 396): together with an offset it
identifies a pointer into the cache. -/
structure FSPathInfo where
  components : List FSPathComponent
  completeRep : Option CacheBuffer
  filenameRep : Option Nat
  pathRep : Option Nat
  allocations : Nat
  deriving DecidableEq, Repr

/-- The outcome of an operation of the mutation interface.  `assertFailed` is a `CCAssertLog` whose
condition is false and carries the state reached when the check ran; `outOfRange` is an index the
ordered collection rejects. -/
inductive FSPathResult where
  | ok (Path : FSPathInfo)
  | assertFailed (Path : FSPathInfo)
  | outOfRange
  deriving DecidableEq, Repr

/-- `FSPathCreate`. -/
def FSPathCreate (Path : List Char) : FSPathInfo :=
  { components := FSPathConvertPathToComponents Path true
    completeRep := none
    filenameRep := none
    pathRep := none
    allocations := 0 }

/-- `FSPathClearPathStringCache`.  Modelled from the spec: `CC_SAFE_Free` of `MemoryAllocation.h`
releases the buffer and leaves the pointer absent (spec section 3). -/
def FSPathClearPathStringCache (Path : FSPathInfo) : FSPathInfo :=
  { Path with completeRep := none, filenameRep := none, pathRep := none }

/-- `FSPathMutated`; `isCurrent` is `Path == FSPathCurrent()`. -/
def FSPathMutated (isCurrent : Bool) (Path : FSPathInfo) : FSPathResult :=
  if isCurrent then .assertFailed Path else .ok (FSPathClearPathStringCache Path)

/-- `FSPathGetComponentCount`. -/
def FSPathGetComponentCount (Path : FSPathInfo) : Nat :=
  Path.components.length

/-- `FSPathSetComponentAtIndex`.  Modelled from the spec: the ordered collection replaces the
element at an index within `[0, count)` (spec sections 4.4 and 6). -/
def FSPathSetComponentAtIndex (isCurrent : Bool) (Path : FSPathInfo) (Component : FSPathComponent)
    (Index : Nat) : FSPathResult :=
  if Index < Path.components.length then
    FSPathMutated isCurrent { Path with components := Path.components.set Index Component }
  else .outOfRange

/-- `FSPathInsertComponentAtIndex`.  Modelled from the spec: the ordered collection inserts at an
index within `[0, count]`. -/
def FSPathInsertComponentAtIndex (isCurrent : Bool) (Path : FSPathInfo)
    (Component : FSPathComponent) (Index : Nat) : FSPathResult :=
  if Index ≤ Path.components.length then
    FSPathMutated isCurrent
      { Path with components := Path.components.take Index ++ Component :: Path.components.drop Index }
  else .outOfRange

/-- `FSPathAppendComponent`. -/
def FSPathAppendComponent (isCurrent : Bool) (Path : FSPathInfo) (Component : FSPathComponent) :
    FSPathResult :=
  FSPathMutated isCurrent { Path with components := Path.components ++ [Component] }

/-- `FSPathPrependComponent`. -/
def FSPathPrependComponent (isCurrent : Bool) (Path : FSPathInfo) (Component : FSPathComponent) :
    FSPathResult :=
  FSPathMutated isCurrent { Path with components := Component :: Path.components }

/-- `FSPathRemoveComponentIndex`.  Modelled from the spec: the ordered collection removes the
element at an index within `[0, count)`. -/
def FSPathRemoveComponentIndex (isCurrent : Bool) (Path : FSPathInfo) (Index : Nat) :
    FSPathResult :=
  if Index < Path.components.length then
    FSPathMutated isCurrent { Path with components := Path.components.eraseIdx Index }
  else .outOfRange

/-- `FSPathRemoveComponentLast`.  Modelled from the spec: the ordered collection removes its last
element, which has to exist. -/
def FSPathRemoveComponentLast (isCurrent : Bool) (Path : FSPathInfo) : FSPathResult :=
  if 0 < Path.components.length then
    FSPathMutated isCurrent { Path with components := Path.components.dropLast }
  else .outOfRange

/-! ## Volume lookup (`Path.c` lines 475-489) -/

/-- `FSPathGetVolume` on the components of `Path`; `Current` are the components of
`FSPathCurrent()` and `isCurrent` is `Path == FSPathCurrent()`.  The recursive call is made on the
current path itself, so it is written out with `Path == FSPathCurrent()` true. -/
def FSPathGetVolume (Current : List FSPathComponent) (isCurrent : Bool)
    (Path : List FSPathComponent) : Option FSPathComponent :=
  match Path with
  | [] => none
  | Component :: _ =>
    if FSPathComponentGetType Component = .Volume then some Component
    else if !isCurrent then
      match Current with
      | [] => none
      | CurrentComponent :: _ =>
        if FSPathComponentGetType CurrentComponent = .Volume then some CurrentComponent
        else some FSPathComponentInvalid
    else some FSPathComponentInvalid

/-! ## String cache (`Path.c` lines 349-473) -/

/-- The variables of the first loop of `FSPathCreatePathStringCache` (lines 353-384). -/
structure MeasureState where
  RequiresVolume : Bool
  Length : Nat
  deriving DecidableEq, Repr

/-- One iteration of the first loop (lines 357-383).  `CurrentFull` is what
`FSPathGetFullPathString(FSPathCurrent())` returns: `none` when the call does not return,
`some none` for `NULL`. -/
def measureComponent (CurrentFull : Option (Option (List Char))) (st : MeasureState)
    (Component : FSPathComponent) : Option MeasureState :=
  let Length : Nat :=
    match FSPathComponentGetString Component with
    | some ComponentString => st.Length + ComponentString.length
    | none => st.Length
  match FSPathComponentGetType Component with
  | .Volume => some { RequiresVolume := false, Length := Length + 2 }
  | .Root => some { RequiresVolume := st.RequiresVolume, Length := Length + 2 }
  | .RelativeRoot =>
    match CurrentFull with
    | some (some Full) => some { RequiresVolume := false, Length := Length + Full.length }
    | _ => none
  | .Directory => some { RequiresVolume := st.RequiresVolume, Length := Length + 1 }
  | .Extension => some { RequiresVolume := st.RequiresVolume, Length := Length + 1 }
  | .RelativeParentDirectory => some { RequiresVolume := st.RequiresVolume, Length := Length + 3 }
  | _ => some { RequiresVolume := st.RequiresVolume, Length := Length }

/-- The first loop (lines 355-384). -/
def measurePass (CurrentFull : Option (Option (List Char))) :
    List FSPathComponent → MeasureState → Option MeasureState
  | [], st => some st
  | Component :: rest, st =>
    match measureComponent CurrentFull st Component with
    | some st1 => measurePass CurrentFull rest st1
    | none => none

/-- The variables of the second loop (lines 401-448): `buffer` holds the characters written so far,
so `Current` is at offset `buffer.length`. -/
structure RenderState where
  buffer : List Char
  pathRep : Option Nat
  filenameRep : Option Nat
  deriving DecidableEq, Repr

/-- The statement `if (!rep) rep = Current;`. -/
def markAt (rep : Option Nat) (Current : Nat) : Option Nat :=
  match rep with
  | none => some Current
  | some offset => some offset

/-- One iteration of the second loop (lines 409-447). -/
def renderComponent (CurrentFull : Option (Option (List Char))) (st : RenderState)
    (Component : FSPathComponent) : Option RenderState :=
  match FSPathComponentGetType Component with
  | .Volume =>
    match FSPathComponentGetString Component with
    | some text =>
      some { st with pathRep := markAt st.pathRep st.buffer.length
                     buffer := st.buffer ++ ['/', '/'] ++ text }
    | none => none
  | .Root =>
    some { st with pathRep := markAt st.pathRep st.buffer.length, buffer := st.buffer ++ ['/'] }
  | .RelativeRoot =>
    match CurrentFull with
    | some (some Full) => some { st with buffer := st.buffer ++ Full }
    | _ => none
  | .Directory =>
    match FSPathComponentGetString Component with
    | some text =>
      some { st with pathRep := markAt st.pathRep st.buffer.length
                     buffer := st.buffer ++ text ++ ['/'] }
    | none => none
  | .RelativeParentDirectory =>
    some { st with pathRep := markAt st.pathRep st.buffer.length
                   buffer := st.buffer ++ ['.', '.', '/'] }
  | .File =>
    match FSPathComponentGetString Component with
    | some text =>
      some { st with filenameRep := markAt st.filenameRep st.buffer.length
                     buffer := st.buffer ++ text }
    | none => none
  | .Extension =>
    match FSPathComponentGetString Component with
    | some text =>
      some { st with filenameRep := markAt st.filenameRep st.buffer.length
                     buffer := st.buffer ++ ['.'] ++ text }
    | none => none
  | _ => some st

/-- The second loop (lines 407-448). -/
def renderPass (CurrentFull : Option (Option (List Char))) :
    List FSPathComponent → RenderState → Option RenderState
  | [], st => some st
  | Component :: rest, st =>
    match renderComponent CurrentFull st Component with
    | some st1 => renderPass CurrentFull rest st1
    | none => none

/-- The body of `FSPathCreatePathStringCache`, with the results of the two calls that leave it
passed in: `CurrentFull` for `FSPathGetFullPathString(FSPathCurrent())` and `PathVolume` for
`FSPathGetVolume(Path)`.  Either is consulted only where the source makes the call. -/
def FSPathCreatePathStringCacheWith (CurrentFull : Option (Option (List Char)))
    (PathVolume : Option FSPathComponent) (Path : FSPathInfo) : Option FSPathInfo :=
  let Path := if Path.completeRep.isSome then FSPathClearPathStringCache Path else Path
  match measurePass CurrentFull Path.components { RequiresVolume := true, Length := 0 } with
  | none => none
  | some measured =>
    if measured.Length ≠ 0 then
      let Volume : Option (Option (List Char)) :=
        if measured.RequiresVolume then
          match PathVolume with
          | some Component =>
            match FSPathComponentGetString Component with
            | some text => some (some text)
            | none => none
          | none => none
        else some none
      match Volume with
      | none => none
      | some Volume =>
        let Length : Nat :=
          match Volume with
          | some text => measured.Length + (2 + text.length)
          | none => measured.Length
        let written : List Char :=
          match Volume with
          | some text => ['/', '/'] ++ text
          | none => []
        match renderPass CurrentFull Path.components
            { buffer := written, pathRep := Path.pathRep, filenameRep := Path.filenameRep } with
        | none => none
        | some rendered =>
          some { Path with
            completeRep := some { size := Length + 1, text := rendered.buffer }
            filenameRep := rendered.filenameRep
            pathRep := match rendered.pathRep with
              | none => rendered.filenameRep
              | some offset => some offset
            allocations := Path.allocations + 1 }
    else some Path

/-- `FSPathGetFullPathString(FSPathCurrent())` as seen from another path: the current path is never
mutated, so what it returns is what a build from its components produces.  Inside that build a
`RelativeRoot` asks for the string being built, which does not return. -/
def FSPathCurrentFullPathString (Current : List FSPathComponent) : Option (Option (List Char)) :=
  match FSPathCreatePathStringCacheWith none (FSPathGetVolume Current true Current)
      { components := Current, completeRep := none, filenameRep := none, pathRep := none,
        allocations := 0 } with
  | some Built => some (Built.completeRep.map CacheBuffer.text)
  | none => none

/-- `FSPathCreatePathStringCache` for a path with `Path == FSPathCurrent()` equal to `isCurrent`
and the current path made of the components `Current`. -/
def FSPathCreatePathStringCache (Current : List FSPathComponent) (isCurrent : Bool)
    (Path : FSPathInfo) : Option FSPathInfo :=
  FSPathCreatePathStringCacheWith
    (if isCurrent then none else FSPathCurrentFullPathString Current)
    (FSPathGetVolume Current isCurrent Path.components) Path

/-- The C string a view pointer designates: the text of the buffer from the offset on. -/
def FSPathStringAt (Path : FSPathInfo) (rep : Option Nat) : Option (List Char) :=
  match rep, Path.completeRep with
  | some offset, some Buffer => some (Buffer.text.drop offset)
  | _, _ => none

/-- `FSPathGetFullPathString`: the path after the call and the string returned (`none` is
`NULL`). -/
def FSPathGetFullPathString (Current : List FSPathComponent) (isCurrent : Bool)
    (Path : FSPathInfo) : Option (FSPathInfo × Option (List Char)) :=
  match (if Path.completeRep.isNone then FSPathCreatePathStringCache Current isCurrent Path
      else some Path) with
  | some Path1 => some (Path1, Path1.completeRep.map CacheBuffer.text)
  | none => none

/-- `FSPathGetPathString`. -/
def FSPathGetPathString (Current : List FSPathComponent) (isCurrent : Bool)
    (Path : FSPathInfo) : Option (FSPathInfo × Option (List Char)) :=
  match (if Path.pathRep.isNone then FSPathCreatePathStringCache Current isCurrent Path
      else some Path) with
  | some Path1 => some (Path1, FSPathStringAt Path1 Path1.pathRep)
  | none => none

/-- `FSPathGetFilenameString`. -/
def FSPathGetFilenameString (Current : List FSPathComponent) (isCurrent : Bool)
    (Path : FSPathInfo) : Option (FSPathInfo × Option (List Char)) :=
  match (if Path.filenameRep.isNone then FSPathCreatePathStringCache Current isCurrent Path
      else some Path) with
  | some Path1 => some (Path1, FSPathStringAt Path1 Path1.filenameRep)
  | none => none

/-- `FSPathIsFile`; the last element of an empty collection does not exist. -/
def FSPathIsFile (Path : FSPathInfo) : Option Bool :=
  match Path.components.getLast? with
  | some Component =>
    some (FSPathComponentGetType Component = .Extension ∨ FSPathComponentGetType Component = .File)
  | none => none

/-- `FSPathIsDirectory`. -/
def FSPathIsDirectory (Path : FSPathInfo) : Option Bool :=
  (FSPathIsFile Path).map (fun b => !b)

/-- `FSPathIsRelativePath`. -/
def FSPathIsRelativePath (Path : FSPathInfo) : Option Bool :=
  match Path.components.getLast? with
  | some Component => some (FSPathComponentGetType Component = .RelativeRoot)
  | none => none

/-! ## Inputs of the canonical shapes -/

/-- A character that is neither the separator, nor the dot, nor the terminator. -/
def IsPlain (c : Char) : Prop :=
  c ≠ '/' ∧ c ≠ '.' ∧ c ≠ '\x00'

instance (c : Char) : Decidable (IsPlain c) := by
  unfold IsPlain; infer_instance

/-- A segment name: non-empty and made of plain characters. -/
def IsName (n : List Char) : Prop :=
  n ≠ [] ∧ ∀ c ∈ n, IsPlain c

instance (n : List Char) : Decidable (IsName n) := by
  unfold IsName; infer_instance

/-- The text `d1 "/" ... dn "/"` of a list of directory names. -/
def dirsText : List (List Char) → List Char
  | [] => []
  | d :: ds => d ++ '/' :: dirsText ds

/-- The root-anchored string `"/" d1 "/" ... dn "/" f`. -/
def rootAnchored (ds : List (List Char)) (f : List Char) : List Char :=
  '/' :: (dirsText ds ++ f)

/-- The volume-anchored string `"//" v "/" d1 "/" ... dn "/" f "." e`. -/
def volumeAnchored (v : List Char) (ds : List (List Char)) (f e : List Char) : List Char :=
  '/' :: '/' :: (v ++ '/' :: (dirsText ds ++ (f ++ '.' :: e)))

/-- The components `Directory(d1), ..., Directory(dn)`. -/
def dirComponents (ds : List (List Char)) : List FSPathComponent :=
  ds.map (fun d => ⟨.Directory, some d⟩)

/-- A pending span on which no plain character completes a component: first character `a`,
`sl` separators and `dt` dots seen. -/
def StaysPending (a : Char) (sl dt : Int) : Prop :=
  ∀ (c : Char) (k : Int), IsPlain c → FSPathFoundComponentTypeFromInputs c a sl dt k = none

/-- The component a pending span `p "/"` turns into: `Root` for the bare separator, `Directory(p)`
for a name. -/
def sepComponent (p : List Char) : FSPathComponent :=
  if p = [] then ⟨.Root, none⟩ else ⟨.Directory, some p⟩

/-- A scan state from which the tokenizer is bound to return a component: one has been emitted
already, or the pending span starts with an ordinary character and holds no dot. -/
def Emits (st : ScanState) : Prop :=
  st.Components ≠ [] ∨
    ∃ a p, st.Start = a :: p ∧ a ≠ '/' ∧ a ≠ '.' ∧ st.DotCount = 0 ∧ 0 < st.CharacterCount
      ∧ 0 ≤ st.SlashCount

/-- A path that owns the components `cs` and has no cache, as `FSPathCreate` and `FSPathCopy`
leave it (lines 223-228 and 270-275). -/
def FSPathFresh (cs : List FSPathComponent) : FSPathInfo :=
  { components := cs, completeRep := none, filenameRep := none, pathRep := none,
    allocations := 0 }

/-- The state of a path right after a mutation, as claim C9 describes it: the three cached views
are absent and each string accessor returns what it returns on a fresh path with the same
components. -/
def Invalidated (Current : List FSPathComponent) (Path : FSPathInfo) : Prop :=
  Path.completeRep = none ∧ Path.pathRep = none ∧ Path.filenameRep = none
    ∧ (FSPathGetFullPathString Current false Path).map Prod.snd
        = (FSPathGetFullPathString Current false (FSPathFresh Path.components)).map Prod.snd
    ∧ (FSPathGetPathString Current false Path).map Prod.snd
        = (FSPathGetPathString Current false (FSPathFresh Path.components)).map Prod.snd
    ∧ (FSPathGetFilenameString Current false Path).map Prod.snd
        = (FSPathGetFilenameString Current false (FSPathFresh Path.components)).map Prod.snd

/-- The cache invariant the interface maintains: the two views are absent whenever the buffer
is. -/
def WellFormed (Path : FSPathInfo) : Prop :=
  Path.completeRep = none → Path.pathRep = none ∧ Path.filenameRep = none

instance (Path : FSPathInfo) : Decidable (WellFormed Path) := by
  unfold WellFormed; infer_instance

/-- The path `Path` with `m` more buffers counted. -/
def bump (m : Nat) (Path : FSPathInfo) : FSPathInfo :=
  { Path with allocations := Path.allocations + m }

/-- The common shape of the three string accessors: `absent` is the test in front of the rebuild,
`view` the pointer returned. -/
def accessWith (absent : FSPathInfo → Bool) (view : FSPathInfo → Option (List Char))
    (Current : List FSPathComponent) (isCurrent : Bool) (Path : FSPathInfo) :
    Option (FSPathInfo × Option (List Char)) :=
  match (if absent Path then FSPathCreatePathStringCache Current isCurrent Path else some Path) with
  | some Path1 => some (Path1, view Path1)
  | none => none

/-- The hypothesis of the amended claim C7: every separator of `s` beyond its first two
characters directly follows a character that is neither a separator nor a dot. -/
def SeparatorsFollowNames (s : List Char) : Prop :=
  ∀ i, i < s.length → 2 ≤ i → s[i]? = some '/' → s[i - 1]? ≠ some '/' ∧ s[i - 1]? ≠ some '.'

instance (s : List Char) : Decidable (SeparatorsFollowNames s) := by
  unfold SeparatorsFollowNames; infer_instance

/-- The same condition on the input still to be read, `pos` characters having been read, the last
of them `prev`. -/
def sepOK : Nat → Char → List Char → Prop
  | _, _, [] => True
  | pos, prev, c :: rest => (c = '/' → 2 ≤ pos → prev ≠ '/' ∧ prev ≠ '.') ∧ sepOK (pos + 1) c rest

/-- Where the anchors of a component sequence sit: a `Volume` only at index 0, a `Root` only at
index 0 or at index 1 behind a `Volume`. -/
def Anchored (cs : List FSPathComponent) : Prop :=
  ∀ i c, cs[i]? = some c →
    (c.type = .Volume → i = 0)
    ∧ (c.type = .Root → i = 0 ∨ (i = 1 ∧ ∃ v, cs[0]? = some v ∧ v.type = .Volume))

/-- The exact counts after the character `c` has been counted (lines 167-180), no wrap applied. -/
def bumpCounts (c : Char) (sl dt k : Int) : Int × Int × Int :=
  if c = '/' then (sl + 1, dt, k) else if c = '.' then (sl, dt + 1, k) else (sl, dt, k + 1)

/-- The invariant of the scanning loop with exact counters behind the amended claim C7; `pos`
characters have been read and `prev` is the last of them. -/
def ScanInv (pos : Nat) (prev : Char) (st : ScanState) : Prop :=
  0 ≤ st.SlashCount ∧ 0 ≤ st.DotCount ∧ 0 ≤ st.CharacterCount
  ∧ st.SlashCount + st.DotCount + st.CharacterCount = st.Start.length
  ∧ st.Start.length ≤ pos
  ∧ (st.Start ≠ [] → st.Start.getLast? = some prev)
  ∧ (∀ a p, st.Start = a :: p → a ≠ '/' → a ≠ '.' → 0 < st.CharacterCount)
  ∧ (∀ a p, st.Start = a :: p → a ≠ '/' → a ≠ '.' → st.SlashCount ≠ 0 → st.DotCount = 0 →
      prev = '/')
  ∧ (st.Start ≠ [] → prev ≠ '/' → prev ≠ '.' → 0 < st.CharacterCount)
  ∧ (st.Start = [] → st.Components = [])
  ∧ ((∃ p, st.Start = '/' :: p ∧ st.Components = [])
    ∨ (st.Start = ['/'] ∧ st.SlashCount = 1 ∧ st.DotCount = 0 ∧ st.CharacterCount = 0 ∧ 2 ≤ pos
        ∧ ∃ v, st.Components = [⟨.Volume, v⟩])
    ∨ ((∀ p, st.Start ≠ '/' :: p) ∧ Anchored st.Components))

/-- The text of `k` parent-directory segments, `k` copies of `"../"`. -/
def parentsText : Nat → List Char
  | 0 => []
  | k + 1 => '.' :: '.' :: '/' :: parentsText k

/-- `FSPathDestroy` (lines 280-287); `isCurrent` is `Path == FSPathCurrent()`.  The check comes
first; `ok` carries what is left once the collection and the cache are released. -/
def FSPathDestroy (isCurrent : Bool) (Path : FSPathInfo) : FSPathResult :=
  if isCurrent then .assertFailed Path
  else .ok { FSPathClearPathStringCache Path with components := [] }

/-- `FSPathGetVolume` (lines 475-489) with its recursion kept, bounded by `fuel` calls: `none`
when the calls run out.  The recursive call is made on `FSPathCurrent()`, for which
`Path == FSPathCurrent()` holds. -/
def FSPathGetVolumeRec (Current : List FSPathComponent) :
    Nat → Bool → List FSPathComponent → Option FSPathComponent
  | 0, _, _ => none
  | fuel + 1, isCurrent, Path =>
    match Path with
    | [] => none
    | Component :: _ =>
      if FSPathComponentGetType Component = .Volume then some Component
      else if !isCurrent then FSPathGetVolumeRec Current fuel true Current
      else some FSPathComponentInvalid

/-- The payload convention of claim C16: `Volume`, `Directory`, `File` and `Extension` carry
text, the other types carry none. -/
def TextConvention (c : FSPathComponent) : Prop :=
  match c.type with
  | .Volume => c.string ≠ none
  | .Directory => c.string ≠ none
  | .File => c.string ≠ none
  | .Extension => c.string ≠ none
  | _ => c.string = none

instance (c : FSPathComponent) : Decidable (TextConvention c) := by
  unfold TextConvention; split <;> infer_instance

/-- The number of `Root` components of a sequence. -/
def countRoot (cs : List FSPathComponent) : Nat :=
  cs.countP (fun c => decide (c.type = .Root))

/-- The rule of claim C18 for a span that starts with a separator, in the words of the claim:
`Volume` for a terminator that is end-of-input or `'/'`, exactly 2 separators, 0 dots and at
least 1 other character; otherwise `Root` for exactly 1 separator, 0 dots and 0 other
characters, whatever the terminator; otherwise no match. -/
def separatorRuleAsClaimed (CurrentCharacter : Char) (SlashCount DotCount CharacterCount : Int) :
    Option FSPathComponentType :=
  if (CurrentCharacter = '\x00' ∨ CurrentCharacter = '/') ∧ SlashCount = 2 ∧ DotCount = 0
      ∧ 1 ≤ CharacterCount then
    some .Volume
  else if SlashCount = 1 ∧ DotCount = 0 ∧ CharacterCount = 0 then some .Root
  else none

/-- A call `FSPathCreateComponent(Type, Start, Path - Start)` of the tokenizer, kept as the type
and the span handed over. -/
structure Emission where
  type : FSPathComponentType
  span : List Char
  deriving DecidableEq, Repr

/-- The call made by an iteration of the loop on the character `c` (lines 145-157), if any: the
type is the one left by the promotion. -/
def stepEmission (c : Char) (st : ScanState) : Option Emission :=
  match FSPathFoundComponentTypeFromInputs c (st.first c) st.SlashCount st.DotCount
      st.CharacterCount with
  | some Ty =>
    some ⟨(if !st.HasFile then
        if Ty = .File then (Ty, true)
        else if Ty = .Extension then (.File, true)
        else (Ty, st.HasFile)
      else (Ty, st.HasFile)).1, st.Start⟩
  | none => none

/-- The call made behind the loop (lines 184-187), if any. -/
def flushEmission (st : ScanState) : Option Emission :=
  match FSPathFoundComponentTypeFromInputs '\x00' (st.first '\x00') st.SlashCount st.DotCount
      st.CharacterCount with
  | some Ty => some ⟨Ty, st.Start⟩
  | none => none

/-- The calls of `FSPathCreateComponent` the tokenizer makes on the input from the state `st`
on, in order. -/
def scanEmissions : List Char → ScanState → List Emission
  | [], st => (flushEmission st).toList
  | c :: rest, st =>
    if c = '\x00' then (flushEmission st).toList
    else (stepEmission c st).toList ++ scanEmissions rest (scanStep c st)

/-- The component a call of `FSPathCreateComponent` returns. -/
def Emission.component (e : Emission) : FSPathComponent :=
  FSPathCreateComponent e.type e.span e.span.length

/-- The counters of a scan state are the exact character counts of the pending span. -/
def CountsMatch (st : ScanState) : Prop :=
  st.SlashCount = (st.Start.count '/' : Nat)
  ∧ st.DotCount = (st.Start.count '.' : Nat)
  ∧ st.CharacterCount = ((st.Start.filter (fun x => decide (x ≠ '/' ∧ x ≠ '.'))).length : Nat)

/-- What the counters guarantee of a span emitted as `RelativeParentDirectory`: it starts with a
dot and consists of exactly two dots and at least one separator. -/
def ParentSpan (span : List Char) : Prop :=
  span.head? = some '.' ∧ span.count '.' = 2 ∧ 1 ≤ span.count '/'
    ∧ ∀ x ∈ span, x = '.' ∨ x = '/'

instance (span : List Char) : Decidable (ParentSpan span) := by
  unfold ParentSpan; infer_instance

/-- The hypothesis of claim C22 on a component: a `Volume`, `Directory`, `File` or `Extension`
has text; nothing is asked of the other types. -/
def HasPayloadText (c : FSPathComponent) : Prop :=
  match c.type with
  | .Volume => c.string ≠ none
  | .Directory => c.string ≠ none
  | .File => c.string ≠ none
  | .Extension => c.string ≠ none
  | _ => True

instance (c : FSPathComponent) : Decidable (HasPayloadText c) := by
  unfold HasPayloadText; split <;> infer_instance

/-- What claim C23 says of a call `FSPathCreateComponent(Type, Start, Path - Start)`: the span
is non-empty, a `Volume` span has at least 3 characters and starts with `"//"`, a `Directory`
span has at least 2 and ends with `'/'`, an `Extension` span has at least 2 and starts with
`'.'`, a `File` span has at least 1. -/
def SpanFits (e : Emission) : Prop :=
  e.span ≠ []
  ∧ (e.type = .Volume → 3 ≤ e.span.length ∧ e.span.take 2 = ['/', '/'])
  ∧ (e.type = .Directory → 2 ≤ e.span.length ∧ e.span.getLast? = some '/')
  ∧ (e.type = .Extension → 2 ≤ e.span.length ∧ e.span.head? = some '.')
  ∧ (e.type = .File → 1 ≤ e.span.length)

instance (e : Emission) : Decidable (SpanFits e) := by
  unfold SpanFits; infer_instance

/-- The invariant of the scanning loop with exact counters behind claim C23: the counters agree
with the pending span, a pending span that starts with a separator is `"/"` or starts with `"//"`, and a pending
span that starts with an ordinary character and holds a separator and no dot ends with that
separator. -/
def SpanInv (st : ScanState) : Prop :=
  CountsMatch st
  ∧ (∀ p, st.Start = '/' :: p → p = [] ∨ p.head? = some '/')
  ∧ (∀ a p, st.Start = a :: p → a ≠ '/' → a ≠ '.' → st.SlashCount ≠ 0 → st.DotCount = 0 →
      st.Start.getLast? = some '/')

/-! ## The scanning loop with exact counters

A device of the proofs, not a part of the program: the iteration of `scanStep` with counters that
never wrap.  The program's loop agrees with it on every input of at most 2147483647 (`INT_MAX`)
characters (`scanLoop_eq_unbounded`); the invariants `Emits`, `ScanInv`, `CountsMatch` and
`SpanInv` are invariants of this loop, and reach the program through that agreement only. -/

/-- The iteration `scanStep` with the three increments made in `Int`, without the wrap. -/
def scanStepUnbounded (c : Char) (st : ScanState) : ScanState :=
  let st1 : ScanState :=
    match FSPathFoundComponentTypeFromInputs c (st.first c) st.SlashCount st.DotCount
        st.CharacterCount with
    | some Ty =>
      let promoted : FSPathComponentType × Bool :=
        if !st.HasFile then
          if Ty = .File then (Ty, true)
          else if Ty = .Extension then (.File, true)
          else (Ty, st.HasFile)
        else (Ty, st.HasFile)
      { Start := []
        SlashCount := 0
        DotCount := 0
        CharacterCount := 0
        HasFile := promoted.2
        Components := st.Components ++ [FSPathCreateComponent promoted.1 st.Start st.Start.length] }
    | none => st
  if c = '/' then { st1 with Start := st1.Start ++ [c], SlashCount := st1.SlashCount + 1 }
  else if c = '.' then { st1 with Start := st1.Start ++ [c], DotCount := st1.DotCount + 1 }
  else { st1 with Start := st1.Start ++ [c], CharacterCount := st1.CharacterCount + 1 }

/-- The loop `scanLoop` over `scanStepUnbounded`. -/
def scanLoopUnbounded : List Char → ScanState → ScanState
  | [], st => st
  | c :: rest, st => if c = '\x00' then st else scanLoopUnbounded rest (scanStepUnbounded c st)

/-- The function `FSPathConvertPathToComponents` over `scanLoopUnbounded`. -/
def FSPathConvertPathToComponentsUnbounded (Path : List Char) (CompletePath : Bool) :
    List FSPathComponent :=
  let Components := scanFlush (scanLoopUnbounded Path scanInit)
  match CompletePath, Components with
  | true, first :: _ =>
    if FSPathComponentGetType first ≠ .Volume ∧ FSPathComponentGetType first ≠ .Root then
      FSPathComponentCreate .RelativeRoot none :: Components
    else Components
  | _, _ => Components

/-- The function `FSPathCreate` over `FSPathConvertPathToComponentsUnbounded`. -/
def FSPathCreateUnbounded (Path : List Char) : FSPathInfo :=
  { components := FSPathConvertPathToComponentsUnbounded Path true
    completeRep := none
    filenameRep := none
    pathRep := none
    allocations := 0 }

/-- The list `scanEmissions` over `scanStepUnbounded`. -/
def scanEmissionsUnbounded : List Char → ScanState → List Emission
  | [], st => (flushEmission st).toList
  | c :: rest, st =>
    if c = '\x00' then (flushEmission st).toList
    else (stepEmission c st).toList ++ scanEmissionsUnbounded rest (scanStepUnbounded c st)

/-- The counters of a scan state are non-negative and add up to at most `n`: the state of a loop
that has read `n` characters without a wrap. -/
def CountersBelow (n : Nat) (st : ScanState) : Prop :=
  0 ≤ st.SlashCount ∧ 0 ≤ st.DotCount ∧ 0 ≤ st.CharacterCount
    ∧ st.SlashCount + st.DotCount + st.CharacterCount ≤ n

/-- The input length the `int` counters can count: at most `INT_MAX` = 2147483647 characters. -/
def FitsInt (s : List Char) : Prop :=
  s.length ≤ 2147483647

instance (s : List Char) : Decidable (FitsInt s) := by
  unfold FitsInt; infer_instance

/-- A name of 4294967296 = 2^32 characters: one for each value of an `int` counter. -/
def overlongName : List Char :=
  'a' :: List.replicate 4294967295 'a'

/-! ## The program's loop and the loop with exact counters -/

theorem wrapInt32_small (x : Int) (h0 : -2147483648 ≤ x) (h1 : x ≤ 2147483647) :
    wrapInt32 x = x := by
  unfold wrapInt32
  omega

theorem wrapInt32_idem (x : Int) : wrapInt32 (wrapInt32 x) = wrapInt32 x := by
  unfold wrapInt32
  omega

theorem wrapInt32_succ (x y : Int) : wrapInt32 (wrapInt32 x + y) = wrapInt32 (x + y) := by
  unfold wrapInt32
  omega

theorem countersBelow_init : CountersBelow 0 scanInit := by
  simp [CountersBelow, scanInit]

/-- While no counter has reached `INT_MAX`, an iteration of the program's loop is the iteration
with exact counters. -/
theorem scanStep_eq_unbounded (c : Char) (st : ScanState) (n : Nat) (h : CountersBelow n st)
    (hn : n < 2147483647) : scanStep c st = scanStepUnbounded c st := by
  obtain ⟨h1, h2, h3, h4⟩ := h
  have e1 : wrapInt32 (st.SlashCount + 1) = st.SlashCount + 1 :=
    wrapInt32_small _ (by omega) (by omega)
  have e2 : wrapInt32 (st.DotCount + 1) = st.DotCount + 1 :=
    wrapInt32_small _ (by omega) (by omega)
  have e3 : wrapInt32 (st.CharacterCount + 1) = st.CharacterCount + 1 :=
    wrapInt32_small _ (by omega) (by omega)
  have z : wrapInt32 ((0 : Int) + 1) = 0 + 1 := by decide
  unfold scanStep scanStepUnbounded
  cases FSPathFoundComponentTypeFromInputs c (st.first c) st.SlashCount st.DotCount
      st.CharacterCount with
  | none => simp only [e1, e2, e3]
  | some Ty => simp only [z]

theorem countersBelow_step (c : Char) (st : ScanState) (n : Nat) (h : CountersBelow n st) :
    CountersBelow (n + 1) (scanStepUnbounded c st) := by
  obtain ⟨h1, h2, h3, h4⟩ := h
  unfold scanStepUnbounded CountersBelow
  cases FSPathFoundComponentTypeFromInputs c (st.first c) st.SlashCount st.DotCount
      st.CharacterCount with
  | none =>
    simp only
    split_ifs <;> simp only [Nat.cast_add, Nat.cast_one] <;> refine ⟨?_, ?_, ?_, ?_⟩ <;> omega
  | some Ty =>
    simp only
    split_ifs <;> simp only [Nat.cast_add, Nat.cast_one] <;> refine ⟨?_, ?_, ?_, ?_⟩ <;> omega

/-- On an input the `int` counters can count, the program's loop is the loop with exact
counters. -/
theorem scanLoop_eq_unbounded (s : List Char) (st : ScanState) (n : Nat)
    (h : CountersBelow n st) (hn : n + s.length ≤ 2147483647) :
    scanLoop s st = scanLoopUnbounded s st := by
  induction s generalizing st n with
  | nil => rfl
  | cons c s ih =>
    simp only [List.length_cons] at hn
    unfold scanLoop scanLoopUnbounded
    split_ifs
    · rfl
    · rw [scanStep_eq_unbounded c st n h (by omega)]
      exact ih _ (n + 1) (countersBelow_step c st n h) (by omega)

theorem scanEmissions_eq_unbounded (s : List Char) (st : ScanState) (n : Nat)
    (h : CountersBelow n st) (hn : n + s.length ≤ 2147483647) :
    scanEmissions s st = scanEmissionsUnbounded s st := by
  induction s generalizing st n with
  | nil => rfl
  | cons c s ih =>
    simp only [List.length_cons] at hn
    unfold scanEmissions scanEmissionsUnbounded
    split_ifs
    · rfl
    · rw [scanStep_eq_unbounded c st n h (by omega)]
      rw [ih _ (n + 1) (countersBelow_step c st n h) (by omega)]

theorem convert_eq_unbounded (s : List Char) (CompletePath : Bool) (h : FitsInt s) :
    FSPathConvertPathToComponents s CompletePath
      = FSPathConvertPathToComponentsUnbounded s CompletePath := by
  unfold FSPathConvertPathToComponents FSPathConvertPathToComponentsUnbounded
  rw [scanLoop_eq_unbounded s scanInit 0 countersBelow_init (by unfold FitsInt at h; omega)]

theorem create_eq_unbounded (s : List Char) (h : FitsInt s) :
    FSPathCreate s = FSPathCreateUnbounded s := by
  unfold FSPathCreate FSPathCreateUnbounded
  rw [convert_eq_unbounded s true h]

theorem emissions_eq_unbounded (s : List Char) (h : FitsInt s) :
    scanEmissions s scanInit = scanEmissionsUnbounded s scanInit :=
  scanEmissions_eq_unbounded s scanInit 0 countersBelow_init (by unfold FitsInt at h; omega)

/-! ## The program's loop on a name too long for the counters -/

theorem scanLoop_split (xs ys : List Char) (st : ScanState) (h : ∀ c ∈ xs, c ≠ '\x00') :
    scanLoop (xs ++ ys) st = scanLoop ys (scanLoop xs st) := by
  induction xs generalizing st with
  | nil => rfl
  | cons c xs ih =>
    have hc : c ≠ '\x00' := h c (by simp)
    simp only [List.cons_append, scanLoop, hc, if_false]
    exact ih _ (fun x hx => h x (by simp [hx]))

/-- An ordinary character read while the pending span cannot complete: it is appended and
counted, the count being an `int`. -/
theorem scanStep_pending (a : Char) (ha : IsPlain a) (st : ScanState) (f : Char)
    (p : List Char) (hs : st.Start = f :: p)
    (hp : StaysPending f st.SlashCount st.DotCount) :
    scanStep a st
      = { st with Start := st.Start ++ [a]
                  CharacterCount := wrapInt32 (st.CharacterCount + 1) } := by
  have hcl := hp a st.CharacterCount ha
  obtain ⟨h1, h2, -⟩ := ha
  have hfirst : st.first a = f := by simp [ScanState.first, hs]
  unfold scanStep
  rw [hfirst, hcl]
  simp only [h1, h2, if_false]

/-- A run of `n` ordinary characters read while the pending span cannot complete: the count of
ordinary characters ends at the `int` value of `CharacterCount + n`. -/
theorem scanLoop_run (a : Char) (ha : IsPlain a) (n : Nat) (st : ScanState) (f : Char)
    (p : List Char) (hs : st.Start = f :: p)
    (hp : StaysPending f st.SlashCount st.DotCount)
    (hk : wrapInt32 st.CharacterCount = st.CharacterCount) :
    scanLoop (List.replicate n a) st
      = { st with Start := st.Start ++ List.replicate n a
                  CharacterCount := wrapInt32 (st.CharacterCount + n) } := by
  induction n generalizing st p with
  | zero =>
    simp only [List.replicate_zero, scanLoop, List.append_nil, Nat.cast_zero, add_zero, hk]
  | succ n ih =>
    have hnul : a ≠ '\x00' := ha.2.2
    rw [List.replicate_succ]
    simp only [scanLoop, hnul, if_false]
    rw [scanStep_pending a ha st f p hs hp]
    rw [ih { st with Start := st.Start ++ [a]
                     CharacterCount := wrapInt32 (st.CharacterCount + 1) }
      (p ++ [a]) (by simp [hs]) hp (wrapInt32_idem _)]
    simp only [wrapInt32_succ, List.append_assoc, List.singleton_append, Nat.cast_add,
      Nat.cast_one]
    congr 2
    omega

/-! ## The loop with exact counters on the segments of a canonical input -/

theorem scanLoop_append (xs ys : List Char) (st : ScanState) (h : ∀ c ∈ xs, c ≠ '\x00') :
    scanLoopUnbounded (xs ++ ys) st = scanLoopUnbounded ys (scanLoopUnbounded xs st) := by
  induction xs generalizing st with
  | nil => rfl
  | cons c xs ih =>
    have hc : c ≠ '\x00' := h c (by simp)
    have hxs : ∀ c ∈ xs, c ≠ '\x00' := fun d hd => h d (by simp [hd])
    simp [scanLoopUnbounded, hc, ih _ hxs]

theorem staysPending_name (a : Char) (ha : IsPlain a) : StaysPending a 0 0 := by
  intro c k hc
  obtain ⟨ha1, ha2, -⟩ := ha
  obtain ⟨hc1, hc2, hc3⟩ := hc
  simp [FSPathFoundComponentTypeFromInputs, ha1, ha2, hc1, hc2, hc3]

theorem staysPending_volume : StaysPending '/' 2 0 := by
  intro c k hc
  obtain ⟨hc1, hc2, hc3⟩ := hc
  simp [FSPathFoundComponentTypeFromInputs, hc1, hc2, hc3]

theorem staysPending_extension : StaysPending '.' 0 1 := by
  intro c k hc
  obtain ⟨hc1, hc2, hc3⟩ := hc
  simp [FSPathFoundComponentTypeFromInputs, hc1, hc2, hc3]

theorem scanStep_plain (a c : Char) (p : List Char) (sl dt k : Int) (hf : Bool)
    (cs : List FSPathComponent) (ha : StaysPending a sl dt) (hc : IsPlain c) :
    scanStepUnbounded c ⟨a :: p, sl, dt, k, hf, cs⟩ = ⟨a :: p ++ [c], sl, dt, k + 1, hf, cs⟩ := by
  have hq := ha c k hc
  obtain ⟨hc1, hc2, hc3⟩ := hc
  simp [scanStepUnbounded, ScanState.first, hq, hc1, hc2]

theorem scanLoop_plain (n : List Char) (hn : ∀ c ∈ n, IsPlain c) (a : Char) (p : List Char)
    (sl dt k : Int) (hf : Bool) (cs : List FSPathComponent) (ha : StaysPending a sl dt) :
    scanLoopUnbounded n ⟨a :: p, sl, dt, k, hf, cs⟩ = ⟨a :: p ++ n, sl, dt, k + n.length, hf, cs⟩ := by
  induction n generalizing p k with
  | nil => simp [scanLoopUnbounded]
  | cons c n ih =>
    have hc : IsPlain c := hn c (by simp)
    have hn1 : ∀ c ∈ n, IsPlain c := fun d hd => hn d (by simp [hd])
    have := ih hn1 (p ++ [c]) (k + 1)
    simp only [List.cons_append] at this
    simp [scanLoopUnbounded, hc.2.2, scanStep_plain a c p sl dt k hf cs ha hc, this]
    omega

theorem scanStep_boundary (p : List Char) (hp : p = [] ∨ IsName p) (c : Char) (hc : IsPlain c)
    (hf : Bool) (cs : List FSPathComponent) :
    scanStepUnbounded c ⟨p ++ ['/'], 1, 0, p.length, hf, cs⟩
      = ⟨[c], 0, 0, 1, hf, cs ++ [sepComponent p]⟩ := by
  obtain ⟨hc1, hc2, hc3⟩ := hc
  rcases hp with rfl | ⟨hne, hp⟩
  · cases hf <;>
    simp [scanStepUnbounded, ScanState.first, FSPathFoundComponentTypeFromInputs, sepComponent,
      FSPathCreateComponent, FSPathComponentCreate, hc1, hc2, hc3]
  · cases p with
    | nil => exact absurd rfl hne
    | cons a p =>
      obtain ⟨ha1, ha2, -⟩ := hp a (by simp)
      have hlen : ((p.length : Int) + 1 = 0) ↔ False := by
        constructor
        · intro h; omega
        · exact False.elim
      cases hf <;>
      simp [scanStepUnbounded, ScanState.first, FSPathFoundComponentTypeFromInputs, sepComponent,
        FSPathCreateComponent, FSPathComponentCreate, FSPathCopyString, hc1, hc2, hc3, ha1, ha2,
        hlen]

theorem scanStep_name_slash (a : Char) (p : List Char) (k : Int) (ha : IsPlain a) (hf : Bool)
    (cs : List FSPathComponent) :
    scanStepUnbounded '/' ⟨a :: p, 0, 0, k, hf, cs⟩ = ⟨(a :: p) ++ ['/'], 1, 0, k, hf, cs⟩ := by
  obtain ⟨ha1, ha2, -⟩ := ha
  simp [scanStepUnbounded, ScanState.first, FSPathFoundComponentTypeFromInputs, ha1, ha2]

/-- From a pending `p "/"`, the loop over `d1 "/" ... dn "/" f` emits the component of `p`, then
the directories, and leaves `f` pending. -/
theorem scanLoop_dirs (ds : List (List Char)) (hds : ∀ d ∈ ds, IsName d) (f : List Char)
    (hfn : IsName f) (p : List Char) (hp : p = [] ∨ IsName p) (hf : Bool)
    (cs : List FSPathComponent) :
    scanLoopUnbounded (dirsText ds ++ f) ⟨p ++ ['/'], 1, 0, p.length, hf, cs⟩
      = ⟨f, 0, 0, f.length, hf, cs ++ sepComponent p :: dirComponents ds⟩ := by
  induction ds generalizing p cs with
  | nil =>
    obtain ⟨hne, hpl⟩ := hfn
    cases f with
    | nil => exact absurd rfl hne
    | cons a f =>
      have ha : IsPlain a := hpl a (by simp)
      have hrest : ∀ c ∈ f, IsPlain c := fun c hc => hpl c (by simp [hc])
      simp only [dirsText, List.nil_append, scanLoopUnbounded, ha.2.2, if_false,
        scanStep_boundary p hp a ha hf cs]
      rw [scanLoop_plain f hrest a [] 0 0 1 hf _ (staysPending_name a ha)]
      simp [dirComponents]
      omega
  | cons d ds ih =>
    have hd : IsName d := hds d (by simp)
    have hds1 : ∀ d ∈ ds, IsName d := fun e he => hds e (by simp [he])
    obtain ⟨hne, hpl⟩ := hd
    cases d with
    | nil => exact absurd rfl hne
    | cons a d =>
      have ha : IsPlain a := hpl a (by simp)
      have hrest : ∀ c ∈ d, IsPlain c := fun c hc => hpl c (by simp [hc])
      have hnul : ∀ c ∈ d, c ≠ '\x00' := fun c hc => (hrest c hc).2.2
      have e1 : dirsText ((a :: d) :: ds) ++ f = a :: (d ++ ('/' :: (dirsText ds ++ f))) := by
        simp [dirsText]
      rw [e1]
      simp only [scanLoopUnbounded, ha.2.2, if_false, scanStep_boundary p hp a ha hf cs]
      rw [scanLoop_append d _ _ hnul,
        scanLoop_plain d hrest a [] 0 0 1 hf _ (staysPending_name a ha)]
      have hslash : ('/' : Char) ≠ '\x00' := by decide
      simp only [scanLoopUnbounded, hslash, if_false, List.append_nil, List.cons_append, List.nil_append,
        scanStep_name_slash a d _ ha hf]
      have hk : (1 : Int) + (d.length : Int) = ((a :: d).length : Int) := by
        simp; omega
      have step := ih hds1 (a :: d) (Or.inr ⟨hne, hpl⟩) (cs ++ [sepComponent p])
      simp only [List.cons_append] at step
      rw [hk, step]
      simp [dirComponents, sepComponent]

theorem scanLoop_cons (c : Char) (rest : List Char) (st : ScanState) (hc : c ≠ '\x00') :
    scanLoopUnbounded (c :: rest) st = scanLoopUnbounded rest (scanStepUnbounded c st) := by
  simp [scanLoopUnbounded, hc]

theorem length_cast_ne_zero (p : List Char) : (p.length : Int) + 1 ≠ 0 := by
  omega

theorem scanFlush_name (f : List Char) (hfn : IsName f) (hf : Bool)
    (cs : List FSPathComponent) :
    scanFlush ⟨f, 0, 0, f.length, hf, cs⟩ = cs ++ [⟨.File, some f⟩] := by
  obtain ⟨hne, hpl⟩ := hfn
  cases f with
  | nil => exact absurd rfl hne
  | cons a p =>
    obtain ⟨ha1, ha2, -⟩ := hpl a (by simp)
    have hlen := length_cast_ne_zero p
    simp [scanFlush, ScanState.first, FSPathFoundComponentTypeFromInputs, FSPathCreateComponent,
      FSPathComponentCreate, FSPathCopyString, ha1, ha2, hlen]

theorem scanStep_init_slash (hf : Bool) (cs : List FSPathComponent) :
    scanStepUnbounded '/' ⟨[], 0, 0, 0, hf, cs⟩ = ⟨[] ++ ['/'], 1, 0, ([] : List Char).length, hf, cs⟩ := by
  simp [scanStepUnbounded, ScanState.first, FSPathFoundComponentTypeFromInputs]

theorem scanStep_root_slash (hf : Bool) (cs : List FSPathComponent) :
    scanStepUnbounded '/' ⟨[] ++ ['/'], 1, 0, ([] : List Char).length, hf, cs⟩
      = ⟨['/', '/'], 2, 0, 0, hf, cs⟩ := by
  simp [scanStepUnbounded, ScanState.first, FSPathFoundComponentTypeFromInputs]

theorem scanStep_volume_slash (v : List Char) (hv : IsName v) (hf : Bool)
    (cs : List FSPathComponent) :
    scanStepUnbounded '/' ⟨'/' :: '/' :: v, 2, 0, v.length, hf, cs⟩
      = ⟨[] ++ ['/'], 1, 0, ([] : List Char).length, hf, cs ++ [⟨.Volume, some v⟩]⟩ := by
  obtain ⟨hne, -⟩ := hv
  cases v with
  | nil => exact absurd rfl hne
  | cons a v =>
    have hlen := length_cast_ne_zero v
    cases hf <;>
    simp [scanStepUnbounded, ScanState.first, FSPathFoundComponentTypeFromInputs, FSPathCreateComponent,
      FSPathComponentCreate, FSPathCopyString, hlen]

theorem scanStep_name_dot (f : List Char) (hfn : IsName f) (hf : Bool)
    (cs : List FSPathComponent) :
    scanStepUnbounded '.' ⟨f, 0, 0, f.length, hf, cs⟩
      = ⟨['.'], 0, 1, 0, true, cs ++ [⟨.File, some f⟩]⟩ := by
  obtain ⟨hne, hpl⟩ := hfn
  cases f with
  | nil => exact absurd rfl hne
  | cons a p =>
    obtain ⟨ha1, ha2, -⟩ := hpl a (by simp)
    have hlen := length_cast_ne_zero p
    cases hf <;>
    simp [scanStepUnbounded, ScanState.first, FSPathFoundComponentTypeFromInputs, FSPathCreateComponent,
      FSPathComponentCreate, FSPathCopyString, ha1, ha2, hlen]

theorem scanFlush_extension (e : List Char) (he : IsName e) (hf : Bool)
    (cs : List FSPathComponent) :
    scanFlush ⟨'.' :: e, 0, 1, e.length, hf, cs⟩ = cs ++ [⟨.Extension, some e⟩] := by
  obtain ⟨hne, -⟩ := he
  cases e with
  | nil => exact absurd rfl hne
  | cons a e =>
    have hlen := length_cast_ne_zero e
    simp [scanFlush, ScanState.first, FSPathFoundComponentTypeFromInputs, FSPathCreateComponent,
      FSPathComponentCreate, FSPathCopyString, hlen]

theorem dirsText_ne_nul (ds : List (List Char)) (hds : ∀ d ∈ ds, IsName d) :
    ∀ c ∈ dirsText ds, c ≠ '\x00' := by
  induction ds with
  | nil => simp [dirsText]
  | cons d ds ih =>
    intro c hc
    simp only [dirsText, List.mem_append, List.mem_cons] at hc
    rcases hc with h | h | h
    · exact ((hds d (by simp)).2 c h).2.2
    · rw [h]; decide
    · exact ih (fun d' hd' => hds d' (by simp [hd'])) c h

/-- The loop over a root-anchored input leaves the file name pending behind `Root` and the
directories. -/
theorem scanLoop_rootAnchored (ds : List (List Char)) (f : List Char)
    (hds : ∀ d ∈ ds, IsName d) (hfn : IsName f) :
    scanLoopUnbounded (rootAnchored ds f) scanInit
      = ⟨f, 0, 0, f.length, false, ⟨.Root, none⟩ :: dirComponents ds⟩ := by
  have hslash : ('/' : Char) ≠ '\x00' := by decide
  rw [rootAnchored, scanInit, scanLoop_cons _ _ _ hslash, scanStep_init_slash,
    scanLoop_dirs ds hds f hfn [] (Or.inl rfl)]
  simp [sepComponent]

theorem convert_rootAnchored (ds : List (List Char)) (f : List Char)
    (hds : ∀ d ∈ ds, IsName d) (hfn : IsName f) (CompletePath : Bool) :
    FSPathConvertPathToComponentsUnbounded (rootAnchored ds f) CompletePath
      = ⟨.Root, none⟩ :: (dirComponents ds ++ [⟨.File, some f⟩]) := by
  simp only [FSPathConvertPathToComponentsUnbounded, scanLoop_rootAnchored ds f hds hfn,
    scanFlush_name f hfn]
  cases CompletePath <;> simp [FSPathComponentGetType]

/-- The loop over `"//" v "/" d1 "/" ... dn "/" f` leaves `f` pending behind the volume, a `Root`
for the separator that follows the volume name, and the directories. -/
theorem scanLoop_volumeDirs (v : List Char) (ds : List (List Char)) (f : List Char)
    (hv : IsName v) (hds : ∀ d ∈ ds, IsName d) (hfn : IsName f) :
    scanLoopUnbounded ('/' :: '/' :: (v ++ '/' :: (dirsText ds ++ f))) scanInit
      = ⟨f, 0, 0, f.length, false,
          ⟨.Volume, some v⟩ :: ⟨.Root, none⟩ :: dirComponents ds⟩ := by
  have hslash : ('/' : Char) ≠ '\x00' := by decide
  have hvnul : ∀ c ∈ v, c ≠ '\x00' := fun c hc => (hv.2 c hc).2.2
  rw [scanInit, scanLoop_cons _ _ _ hslash, scanStep_init_slash, scanLoop_cons _ _ _ hslash,
    scanStep_root_slash, scanLoop_append _ _ _ hvnul,
    scanLoop_plain v hv.2 '/' ['/'] 2 0 0 false [] staysPending_volume,
    scanLoop_cons _ _ _ hslash]
  have hk : (0 : Int) + (v.length : Int) = (v.length : Int) := by simp
  rw [hk]
  have hst : ('/' :: ['/'] ++ v) = '/' :: '/' :: v := rfl
  rw [hst, scanStep_volume_slash v hv, scanLoop_dirs ds hds f hfn [] (Or.inl rfl)]
  simp [sepComponent]

/-- The components of a volume-anchored input: the separator behind the volume name is a `Root`
component of its own. -/
theorem convert_volumeAnchored (v : List Char) (ds : List (List Char)) (f e : List Char)
    (hv : IsName v) (hds : ∀ d ∈ ds, IsName d) (hfn : IsName f) (he : IsName e)
    (CompletePath : Bool) :
    FSPathConvertPathToComponentsUnbounded (volumeAnchored v ds f e) CompletePath
      = ⟨.Volume, some v⟩ :: ⟨.Root, none⟩
          :: (dirComponents ds ++ [⟨.File, some f⟩, ⟨.Extension, some e⟩]) := by
  have hslash : ('/' : Char) ≠ '\x00' := by decide
  have hdot : ('.' : Char) ≠ '\x00' := by decide
  have hnul : ∀ c ∈ '/' :: '/' :: (v ++ '/' :: (dirsText ds ++ f)), c ≠ '\x00' := by
    intro c hc
    simp only [List.mem_cons, List.mem_append] at hc
    rcases hc with h | h | h | h | h | h
    · rw [h]; exact hslash
    · rw [h]; exact hslash
    · exact (hv.2 c h).2.2
    · rw [h]; exact hslash
    · exact dirsText_ne_nul ds hds c h
    · exact (hfn.2 c h).2.2
  have henul : ∀ c ∈ e, c ≠ '\x00' := fun c hc => (he.2 c hc).2.2
  have e1 : volumeAnchored v ds f e
      = ('/' :: '/' :: (v ++ '/' :: (dirsText ds ++ f))) ++ '.' :: e := by
    simp [volumeAnchored]
  have hk : (0 : Int) + (e.length : Int) = (e.length : Int) := by simp
  have e2 : scanLoopUnbounded e ⟨['.'], 0, 1, 0, true,
      (⟨.Volume, some v⟩ :: ⟨.Root, none⟩ :: dirComponents ds) ++ [⟨.File, some f⟩]⟩
      = ⟨'.' :: e, 0, 1, e.length, true,
      (⟨.Volume, some v⟩ :: ⟨.Root, none⟩ :: dirComponents ds) ++ [⟨.File, some f⟩]⟩ := by
    rw [scanLoop_plain e he.2 '.' [] 0 1 0 true _ staysPending_extension, hk]
    rfl
  have hscan : scanFlush (scanLoopUnbounded (volumeAnchored v ds f e) scanInit)
      = ⟨.Volume, some v⟩ :: ⟨.Root, none⟩
          :: (dirComponents ds ++ [⟨.File, some f⟩, ⟨.Extension, some e⟩]) := by
    rw [e1, scanLoop_append _ _ _ hnul, scanLoop_volumeDirs v ds f hv hds hfn,
      scanLoop_cons _ _ _ hdot, scanStep_name_dot f hfn, e2, scanFlush_extension e he]
    simp
  simp only [FSPathConvertPathToComponentsUnbounded, hscan]
  cases CompletePath <;> simp [FSPathComponentGetType]

/-! ## Names too long for the counters -/

theorem isName_run (n : Nat) : IsName ('a' :: List.replicate n 'a') := by
  refine ⟨List.cons_ne_nil _ _, fun c hc => ?_⟩
  have hca : c = 'a' := by
    rcases List.mem_cons.1 hc with h | h
    · exact h
    · exact List.eq_of_mem_replicate h
  rw [hca]
  decide

theorem overlongName_isName : IsName overlongName :=
  isName_run 4294967295

/-- A run of `n` copies of `a` that brings the count of ordinary characters back to 0, on a
pending span that needs such a character to complete: nothing is made of the span when the
input ends behind the run. -/
theorem scanFlush_run_zero (n : Nat) (st : ScanState) (f : Char) (p : List Char)
    (hs : st.Start = f :: p) (hp : StaysPending f st.SlashCount st.DotCount)
    (hk : wrapInt32 st.CharacterCount = st.CharacterCount)
    (h0 : wrapInt32 (st.CharacterCount + n) = 0)
    (hflush : FSPathFoundComponentTypeFromInputs '\x00' f st.SlashCount st.DotCount 0 = none) :
    scanFlush (scanLoop (List.replicate n 'a') st) = st.Components := by
  rw [scanLoop_run 'a' (by decide) n st f p hs hp hk, h0]
  unfold scanFlush
  have hfirst : ScanState.first
      { st with Start := st.Start ++ List.replicate n 'a', CharacterCount := 0 } '\x00' = f := by
    simp only [ScanState.first, hs, List.cons_append]
  rw [hfirst]
  simp only [hflush]

/-- The components returned once the result of the scan is known. -/
theorem convert_of_flush (s : List Char) (CompletePath : Bool) (cs : List FSPathComponent) :
    scanFlush (scanLoop s scanInit) = cs →
    FSPathConvertPathToComponents s CompletePath
      = (if CompletePath then
          match cs with
          | [] => []
          | first :: tail =>
            if first.type = .Volume ∨ first.type = .Root then first :: tail
            else ⟨.RelativeRoot, none⟩ :: first :: tail
        else cs) := by
  intro h
  subst h
  unfold FSPathConvertPathToComponents
  cases CompletePath with
  | false => simp
  | true =>
    cases scanFlush (scanLoop s scanInit) with
    | nil => rfl
    | cons first tail =>
      simp only [FSPathComponentGetType, FSPathComponentCreate, if_true]
      by_cases h1 : first.type = .Volume
      · simp [h1]
      · by_cases h2 : first.type = .Root
        · simp [h2]
        · simp [h1, h2]

/-- The scan of `"/" f` for a name `f` of `n + 1` copies of `a`, where the `int` count of `n + 1`
characters is 0. -/
theorem flush_root_run (n : Nat) (h0 : wrapInt32 (1 + n) = 0) :
    scanFlush (scanLoop (['/', 'a'] ++ List.replicate n 'a') scanInit) = [⟨.Root, none⟩] := by
  rw [scanLoop_split ['/', 'a'] _ _ (by decide)]
  have hpre : scanLoop ['/', 'a'] scanInit = ⟨['a'], 0, 0, 1, false, [⟨.Root, none⟩]⟩ := by
    decide
  rw [hpre]
  exact scanFlush_run_zero n _ 'a' [] rfl (staysPending_name 'a' (by decide)) (by decide) h0
    (by decide)

/-- The scan of `"//v/" d "/f." e` for `d` absent or `"d"` and an extension `e` of `n + 1` copies
of `a`, where the `int` count of `n + 1` characters is 0. -/
theorem flush_extension_run (n : Nat) (h0 : wrapInt32 (1 + n) = 0) :
    scanFlush (scanLoop (['/', '/', 'v', '/', 'd', '/', 'f', '.', 'a'] ++ List.replicate n 'a')
        scanInit)
      = [⟨.Volume, some ['v']⟩, ⟨.Root, none⟩, ⟨.Directory, some ['d']⟩, ⟨.File, some ['f']⟩]
    ∧ scanFlush (scanLoop (['/', '/', 'v', '/', 'f', '.', 'a'] ++ List.replicate n 'a')
        scanInit)
      = [⟨.Volume, some ['v']⟩, ⟨.Root, none⟩, ⟨.File, some ['f']⟩] := by
  constructor
  · rw [scanLoop_split ['/', '/', 'v', '/', 'd', '/', 'f', '.', 'a'] _ _ (by decide)]
    have hpre : scanLoop ['/', '/', 'v', '/', 'd', '/', 'f', '.', 'a'] scanInit
        = ⟨['.', 'a'], 0, 1, 1, true,
            [⟨.Volume, some ['v']⟩, ⟨.Root, none⟩, ⟨.Directory, some ['d']⟩,
              ⟨.File, some ['f']⟩]⟩ := by
      decide
    rw [hpre]
    exact scanFlush_run_zero n _ '.' ['a'] rfl staysPending_extension (by decide) h0 (by decide)
  · rw [scanLoop_split ['/', '/', 'v', '/', 'f', '.', 'a'] _ _ (by decide)]
    have hpre : scanLoop ['/', '/', 'v', '/', 'f', '.', 'a'] scanInit
        = ⟨['.', 'a'], 0, 1, 1, true,
            [⟨.Volume, some ['v']⟩, ⟨.Root, none⟩, ⟨.File, some ['f']⟩]⟩ := by
      decide
    rw [hpre]
    exact scanFlush_run_zero n _ '.' ['a'] rfl staysPending_extension (by decide) h0 (by decide)

/-- The scan of `"../" f` for a name `f` of `n + 1` copies of `a`, where the `int` count of
`n + 1` characters is 0. -/
theorem flush_parent_run (n : Nat) (h0 : wrapInt32 (1 + n) = 0) :
    scanFlush (scanLoop (['.', '.', '/', 'a'] ++ List.replicate n 'a') scanInit)
      = [⟨.RelativeParentDirectory, none⟩] := by
  rw [scanLoop_split ['.', '.', '/', 'a'] _ _ (by decide)]
  have hpre : scanLoop ['.', '.', '/', 'a'] scanInit
      = ⟨['a'], 0, 0, 1, false, [⟨.RelativeParentDirectory, none⟩]⟩ := by
    decide
  rw [hpre]
  exact scanFlush_run_zero n _ 'a' [] rfl (staysPending_name 'a' (by decide)) (by decide) h0
    (by decide)

theorem wrapInt32_overlong : wrapInt32 (1 + ((4294967295 : Nat) : Int)) = 0 := by
  unfold wrapInt32
  omega

/-! ## Claim C2: the components of a root-anchored input -/

/-- The scan of `"/" f` for a name `f` of `n + 1` copies of `a` whose `int` count is 0: the
tokenizer returns `[Root]` alone and the created path is not a file. -/
theorem rootAnchored_run (n : Nat) (h0 : wrapInt32 (1 + n) = 0) :
    FSPathConvertPathToComponents (rootAnchored [] ('a' :: List.replicate n 'a')) true
        = [⟨.Root, none⟩]
    ∧ FSPathConvertPathToComponents (rootAnchored [] ('a' :: List.replicate n 'a')) true
        ≠ ⟨.Root, none⟩ :: (dirComponents [] ++ [⟨.File, some ('a' :: List.replicate n 'a')⟩])
    ∧ FSPathIsFile (FSPathCreate (rootAnchored [] ('a' :: List.replicate n 'a')))
        = some false := by
  have h5 : FSPathIsFile ⟨[⟨.Root, none⟩], none, none, none, 0⟩ = some false := by decide
  have hne : ∀ f : List Char, ([⟨.Root, none⟩] : List FSPathComponent)
      ≠ ⟨.Root, none⟩ :: (dirComponents [] ++ [⟨.File, some f⟩]) := by
    intro f
    simp [dirComponents]
  have hc : FSPathConvertPathToComponents (rootAnchored [] ('a' :: List.replicate n 'a')) true
      = [⟨.Root, none⟩] :=
    (convert_of_flush (rootAnchored [] ('a' :: List.replicate n 'a')) true [⟨.Root, none⟩]
      (flush_root_run n h0)).trans rfl
  refine ⟨hc, ?_, ?_⟩
  · rw [hc]
    exact hne _
  · unfold FSPathCreate
    rw [hc]
    exact h5

/-- C2, as stated, fails: the name `f` of 4294967296 copies of `a` is non-empty and holds no `'/'`
and no `'.'`, yet for `"/" f` the `int` count of its characters is back at 0 when the input
ends, so no `File` is made: the tokenizer returns `[Root]` alone, not `[Root, File(f)]`, and the
created path is not a file. -/
theorem C2_counterexample :
    IsName overlongName
    ∧ FSPathConvertPathToComponents (rootAnchored [] overlongName) true = [⟨.Root, none⟩]
    ∧ FSPathConvertPathToComponents (rootAnchored [] overlongName) true
        ≠ ⟨.Root, none⟩ :: (dirComponents [] ++ [⟨.File, some overlongName⟩])
    ∧ FSPathIsFile (FSPathCreate (rootAnchored [] overlongName)) = some false :=
  ⟨overlongName_isName, rootAnchored_run 4294967295 wrapInt32_overlong⟩

/-- C2, amended: for a root-anchored input `"/" d1 "/" ... dn "/" f` of at most 2147483647
(`INT_MAX`) characters the tokenizer, asked for a complete path, returns exactly
`[Root, Directory(d1), ..., Directory(dn), File(f)]` (no `RelativeRoot` in front), and the
created path is a file and not a directory. -/
theorem C2_rootAnchored_components (ds : List (List Char)) (f : List Char)
    (hds : ∀ d ∈ ds, IsName d) (hfn : IsName f) (hlen : FitsInt (rootAnchored ds f)) :
    FSPathConvertPathToComponents (rootAnchored ds f) true
        = ⟨.Root, none⟩ :: (dirComponents ds ++ [⟨.File, some f⟩])
      ∧ FSPathIsFile (FSPathCreate (rootAnchored ds f)) = some true
      ∧ FSPathIsDirectory (FSPathCreate (rootAnchored ds f)) = some false := by
  have h : FSPathConvertPathToComponents (rootAnchored ds f) true
      = ⟨.Root, none⟩ :: (dirComponents ds ++ [⟨.File, some f⟩]) := by
    rw [convert_eq_unbounded _ _ hlen]
    exact convert_rootAnchored ds f hds hfn true
  refine ⟨h, ?_, ?_⟩
  · simp only [FSPathIsFile, FSPathCreate, h]
    rw [← List.cons_append, List.getLast?_append]
    simp [FSPathComponentGetType]
  · simp only [FSPathIsDirectory, FSPathIsFile, FSPathCreate, h]
    rw [← List.cons_append, List.getLast?_append]
    simp [FSPathComponentGetType]

/-- C2 (amended) at `"/usr/local/bin/tool"`. -/
theorem C2_rootAnchored_components_witness :
    (∀ d ∈ [['u', 's', 'r'], ['l', 'o', 'c', 'a', 'l'], ['b', 'i', 'n']], IsName d)
      ∧ IsName ['t', 'o', 'o', 'l']
      ∧ FitsInt (rootAnchored [['u', 's', 'r'], ['l', 'o', 'c', 'a', 'l'], ['b', 'i', 'n']]
          ['t', 'o', 'o', 'l'])
      ∧ rootAnchored [['u', 's', 'r'], ['l', 'o', 'c', 'a', 'l'], ['b', 'i', 'n']]
          ['t', 'o', 'o', 'l'] = "/usr/local/bin/tool".toList
      ∧ FSPathConvertPathToComponents
          (rootAnchored [['u', 's', 'r'], ['l', 'o', 'c', 'a', 'l'], ['b', 'i', 'n']]
            ['t', 'o', 'o', 'l']) true
          = ⟨.Root, none⟩ :: (dirComponents [['u', 's', 'r'], ['l', 'o', 'c', 'a', 'l'],
              ['b', 'i', 'n']] ++ [⟨.File, some ['t', 'o', 'o', 'l']⟩]) :=
  ⟨by decide, by decide, by decide, by decide,
    (C2_rootAnchored_components [['u', 's', 'r'], ['l', 'o', 'c', 'a', 'l'], ['b', 'i', 'n']]
      ['t', 'o', 'o', 'l'] (by decide) (by decide) (by decide)).1⟩

/-! ## The two passes of the cache builder on directory components -/

theorem measurePass_dirs (CurrentFull : Option (Option (List Char))) (ds : List (List Char))
    (rest : List FSPathComponent) (rv : Bool) (n : Nat) :
    measurePass CurrentFull (dirComponents ds ++ rest) ⟨rv, n⟩
      = measurePass CurrentFull rest ⟨rv, n + (dirsText ds).length⟩ := by
  induction ds generalizing n with
  | nil => simp [dirComponents, dirsText]
  | cons d ds ih =>
    show measurePass CurrentFull (⟨.Directory, some d⟩ :: (dirComponents ds ++ rest)) ⟨rv, n⟩ = _
    have hn : n + d.length + 1 + (dirsText ds).length
        = n + (d ++ '/' :: dirsText ds).length := by
      simp only [List.length_append, List.length_cons]
      omega
    rw [measurePass]
    simp only [measureComponent, FSPathComponentGetString, FSPathComponentGetType]
    rw [ih, hn, dirsText]

theorem renderPass_dirs (CurrentFull : Option (Option (List Char))) (ds : List (List Char))
    (rest : List FSPathComponent) (buffer : List Char) (offset : Nat) (fr : Option Nat) :
    renderPass CurrentFull (dirComponents ds ++ rest) ⟨buffer, some offset, fr⟩
      = renderPass CurrentFull rest ⟨buffer ++ dirsText ds, some offset, fr⟩ := by
  induction ds generalizing buffer with
  | nil => simp [dirComponents, dirsText]
  | cons d ds ih =>
    show renderPass CurrentFull (⟨.Directory, some d⟩ :: (dirComponents ds ++ rest))
      ⟨buffer, some offset, fr⟩ = _
    have hb : buffer ++ d ++ ['/'] ++ dirsText ds = buffer ++ (d ++ '/' :: dirsText ds) := by
      simp
    rw [renderPass]
    simp only [renderComponent, FSPathComponentGetString, FSPathComponentGetType, markAt]
    rw [ih, hb, dirsText]

/-- The cache built for the components of a root-anchored input when the volume lookup yields a
volume named `vol`: the implicit volume is written in front. -/
theorem build_rootAnchored (CurrentFull : Option (Option (List Char))) (vol : List Char)
    (ds : List (List Char)) (f : List Char) (n : Nat) :
    FSPathCreatePathStringCacheWith CurrentFull (some ⟨.Volume, some vol⟩)
        ⟨⟨.Root, none⟩ :: (dirComponents ds ++ [⟨.File, some f⟩]), none, none, none, n⟩
      = some ⟨⟨.Root, none⟩ :: (dirComponents ds ++ [⟨.File, some f⟩]),
          some ⟨2 + (dirsText ds).length + f.length + (2 + vol.length) + 1,
            ['/', '/'] ++ vol ++ rootAnchored ds f⟩,
          some (2 + vol.length + 1 + (dirsText ds).length), some (2 + vol.length), n + 1⟩ := by
  simp only [FSPathCreatePathStringCacheWith, Option.isSome_none, Bool.false_eq_true, if_false,
    measurePass, measureComponent, FSPathComponentGetString, FSPathComponentGetType,
    measurePass_dirs, renderPass, renderComponent, markAt, renderPass_dirs]
  simp [rootAnchored]
  omega

/-- The cache built for the components of a volume-anchored input: neither lookup is consulted,
the directory view starts at offset 0 and the file-name view at the file component. -/
theorem build_volumeAnchored (CurrentFull : Option (Option (List Char)))
    (PathVolume : Option FSPathComponent) (v : List Char) (ds : List (List Char))
    (f e : List Char) (n : Nat) :
    FSPathCreatePathStringCacheWith CurrentFull PathVolume
        ⟨⟨.Volume, some v⟩ :: ⟨.Root, none⟩
          :: (dirComponents ds ++ [⟨.File, some f⟩, ⟨.Extension, some e⟩]), none, none, none, n⟩
      = some ⟨⟨.Volume, some v⟩ :: ⟨.Root, none⟩
          :: (dirComponents ds ++ [⟨.File, some f⟩, ⟨.Extension, some e⟩]),
          some ⟨v.length + 2 + 2 + (dirsText ds).length + f.length + e.length + 1 + 1,
            volumeAnchored v ds f e⟩,
          some (2 + v.length + 1 + (dirsText ds).length), some 0, n + 1⟩ := by
  simp only [FSPathCreatePathStringCacheWith, Option.isSome_none, Bool.false_eq_true, if_false,
    measurePass, measureComponent, FSPathComponentGetString, FSPathComponentGetType,
    measurePass_dirs, renderPass, renderComponent, markAt, renderPass_dirs]
  simp [volumeAnchored]
  omega

/-! ## Claims C1 to C5: canonical inputs -/

theorem fullPath_rootAnchored (ds : List (List Char)) (f : List Char)
    (hds : ∀ d ∈ ds, IsName d) (hfn : IsName f) (vol : List Char)
    (rest : List FSPathComponent) :
    (FSPathGetFullPathString (⟨.Volume, some vol⟩ :: rest) false
        (FSPathCreateUnbounded (rootAnchored ds f))).map Prod.snd
      = some (some (['/', '/'] ++ vol ++ rootAnchored ds f)) := by
  have h := convert_rootAnchored ds f hds hfn true
  simp only [FSPathGetFullPathString, FSPathCreateUnbounded, FSPathCreatePathStringCache, h,
    FSPathGetVolume, FSPathComponentGetType]
  simp only [Option.isNone_none, if_true, Bool.not_false]
  simp only [reduceCtorEq, if_false, if_true]
  rw [build_rootAnchored]
  rfl

theorem fitsInt_tool : FitsInt "/usr/local/bin/tool".toList := by
  decide

theorem fitsInt_doc : FitsInt "//MyDisk/Users/doc.txt".toList := by
  decide

/-- C1, as stated, fails: with the current path `//Disk/home/` the full path string of
`FSPathCreate("/usr/local/bin/tool")` is `"//Disk/usr/local/bin/tool"`, not the input. -/
theorem C1_counterexample :
    (FSPathGetFullPathString
        [⟨.Volume, some "Disk".toList⟩, ⟨.Root, none⟩, ⟨.Directory, some "home".toList⟩] false
        (FSPathCreate "/usr/local/bin/tool".toList)).map Prod.snd
      = some (some "//Disk/usr/local/bin/tool".toList)
    ∧ "//Disk/usr/local/bin/tool".toList ≠ "/usr/local/bin/tool".toList := by
  rw [create_eq_unbounded _ fitsInt_tool]
  exact ⟨fullPath_rootAnchored ["usr".toList, "local".toList, "bin".toList] "tool".toList
      (by decide) (by decide) "Disk".toList [⟨.Root, none⟩, ⟨.Directory, some "home".toList⟩],
    by decide⟩

/-- C1, amended: for a root-anchored input `s = "/" d1 "/" ... dn "/" f` of at most 2147483647
(`INT_MAX`) characters and a current path whose first component is a volume named `vol`, the
full path string of `FSPathCreate(s)` is `"//" vol` followed by `s`: `Root` does not clear
`RequiresVolume`, so the volume of the current path is written in front. -/
theorem C1_rootAnchored_fullPath (ds : List (List Char)) (f : List Char)
    (hds : ∀ d ∈ ds, IsName d) (hfn : IsName f) (hlen : FitsInt (rootAnchored ds f))
    (vol : List Char) (rest : List FSPathComponent) :
    (FSPathGetFullPathString (⟨.Volume, some vol⟩ :: rest) false
        (FSPathCreate (rootAnchored ds f))).map Prod.snd
      = some (some (['/', '/'] ++ vol ++ rootAnchored ds f)) := by
  rw [create_eq_unbounded _ hlen]
  exact fullPath_rootAnchored ds f hds hfn vol rest

/-- C1 (amended) at `"/usr/local/bin/tool"` with the current path `//Disk/`. -/
theorem C1_rootAnchored_fullPath_witness :
    (∀ d ∈ ["usr".toList, "local".toList, "bin".toList], IsName d) ∧ IsName "tool".toList
    ∧ FitsInt (rootAnchored ["usr".toList, "local".toList, "bin".toList] "tool".toList)
    ∧ (FSPathGetFullPathString [⟨.Volume, some "Disk".toList⟩, ⟨.Root, none⟩] false
        (FSPathCreate "/usr/local/bin/tool".toList)).map Prod.snd
      = some (some "//Disk/usr/local/bin/tool".toList) :=
  ⟨by decide, by decide, by decide,
    C1_rootAnchored_fullPath ["usr".toList, "local".toList, "bin".toList] "tool".toList
      (by decide) (by decide) (by decide) "Disk".toList [⟨.Root, none⟩]⟩

theorem cache_volumeAnchored (Current : List FSPathComponent) (v : List Char)
    (ds : List (List Char)) (f e : List Char) (hv : IsName v) (hds : ∀ d ∈ ds, IsName d)
    (hfn : IsName f) (he : IsName e) :
    FSPathCreatePathStringCache Current false (FSPathCreateUnbounded (volumeAnchored v ds f e))
      = some ⟨⟨.Volume, some v⟩ :: ⟨.Root, none⟩
          :: (dirComponents ds ++ [⟨.File, some f⟩, ⟨.Extension, some e⟩]),
          some ⟨v.length + 2 + 2 + (dirsText ds).length + f.length + e.length + 1 + 1,
            volumeAnchored v ds f e⟩,
          some (2 + v.length + 1 + (dirsText ds).length), some 0, 1⟩ := by
  have h := convert_volumeAnchored v ds f e hv hds hfn he true
  simp only [FSPathCreatePathStringCache, FSPathCreateUnbounded, h]
  rw [build_volumeAnchored]

theorem pathString_volumeAnchored (Current : List FSPathComponent) (v : List Char)
    (ds : List (List Char)) (f e : List Char) (hv : IsName v) (hds : ∀ d ∈ ds, IsName d)
    (hfn : IsName f) (he : IsName e) :
    (FSPathGetPathString Current false (FSPathCreateUnbounded (volumeAnchored v ds f e))).map Prod.snd
      = some (some (volumeAnchored v ds f e)) := by
  have h := cache_volumeAnchored Current v ds f e hv hds hfn he
  have hc : (FSPathCreateUnbounded (volumeAnchored v ds f e)).pathRep = none := rfl
  simp only [FSPathGetPathString, hc, Option.isNone_none, if_true, h]
  simp [FSPathStringAt]

theorem filenameString_volumeAnchored (Current : List FSPathComponent) (v : List Char)
    (ds : List (List Char)) (f e : List Char) (hv : IsName v) (hds : ∀ d ∈ ds, IsName d)
    (hfn : IsName f) (he : IsName e) :
    (FSPathGetFilenameString Current false (FSPathCreateUnbounded (volumeAnchored v ds f e))).map Prod.snd
      = some (some (f ++ '.' :: e)) := by
  have h := cache_volumeAnchored Current v ds f e hv hds hfn he
  have hc : (FSPathCreateUnbounded (volumeAnchored v ds f e)).filenameRep = none := rfl
  simp only [FSPathGetFilenameString, hc, Option.isNone_none, if_true, h]
  have hd : volumeAnchored v ds f e = ('/' :: '/' :: (v ++ '/' :: dirsText ds)) ++ (f ++ '.' :: e) := by
    simp [volumeAnchored]
  have hl : 2 + v.length + 1 + (dirsText ds).length
      = ('/' :: '/' :: (v ++ '/' :: dirsText ds)).length := by
    simp only [List.length_cons, List.length_append]
    omega
  simp only [FSPathStringAt, Option.map_some', hd, hl, List.drop_left]

/-- C3, as stated, fails: `FSPathCreate("//MyDisk/Users/doc.txt")` has five components, the
separator behind the volume name being a `Root`, not the four of the claim. -/
theorem C3_counterexample :
    (FSPathCreate "//MyDisk/Users/doc.txt".toList).components
      = [⟨.Volume, some "MyDisk".toList⟩, ⟨.Root, none⟩, ⟨.Directory, some "Users".toList⟩,
          ⟨.File, some "doc".toList⟩, ⟨.Extension, some "txt".toList⟩]
    ∧ (FSPathCreate "//MyDisk/Users/doc.txt".toList).components
      ≠ [⟨.Volume, some "MyDisk".toList⟩, ⟨.Directory, some "Users".toList⟩,
          ⟨.File, some "doc".toList⟩, ⟨.Extension, some "txt".toList⟩] := by
  have hs : volumeAnchored "MyDisk".toList ["Users".toList] "doc".toList "txt".toList
      = "//MyDisk/Users/doc.txt".toList := by decide
  have h := convert_volumeAnchored "MyDisk".toList ["Users".toList] "doc".toList "txt".toList
    (by decide) (by decide) (by decide) (by decide) true
  rw [hs] at h
  rw [create_eq_unbounded _ fitsInt_doc]
  simp only [FSPathCreateUnbounded, h]
  exact ⟨by simp [dirComponents], by simp [dirComponents]⟩

/-- C3, amended: for a volume-anchored input `"//" v "/" d "/" f "." e` of at most 2147483647
(`INT_MAX`) characters the created path has exactly the five components
`[Volume(v), Root, Directory(d), File(f), Extension(e)]`. -/
theorem C3_volumeAnchored_components (v d f e : List Char) (hv : IsName v) (hd : IsName d)
    (hfn : IsName f) (he : IsName e) (hlen : FitsInt (volumeAnchored v [d] f e)) :
    (FSPathCreate (volumeAnchored v [d] f e)).components
      = [⟨.Volume, some v⟩, ⟨.Root, none⟩, ⟨.Directory, some d⟩, ⟨.File, some f⟩,
          ⟨.Extension, some e⟩] := by
  rw [create_eq_unbounded _ hlen]
  exact convert_volumeAnchored v [d] f e hv (by simpa using hd) hfn he true

/-- C3 (amended) at `"//MyDisk/Users/doc.txt"`. -/
theorem C3_volumeAnchored_components_witness :
    IsName "MyDisk".toList ∧ IsName "Users".toList ∧ IsName "doc".toList ∧ IsName "txt".toList
    ∧ FitsInt (volumeAnchored "MyDisk".toList ["Users".toList] "doc".toList "txt".toList)
    ∧ (FSPathCreate "//MyDisk/Users/doc.txt".toList).components
      = [⟨.Volume, some "MyDisk".toList⟩, ⟨.Root, none⟩, ⟨.Directory, some "Users".toList⟩,
          ⟨.File, some "doc".toList⟩, ⟨.Extension, some "txt".toList⟩] :=
  ⟨by decide, by decide, by decide, by decide, by decide,
    C3_volumeAnchored_components "MyDisk".toList "Users".toList "doc".toList "txt".toList
      (by decide) (by decide) (by decide) (by decide) (by decide)⟩

/-- C4, as stated, fails: the path string of `FSPathCreate("//MyDisk/Users/doc.txt")` is the
cache text from the volume up to the terminator, `"//MyDisk/Users/doc.txt"`, and not the
directory-only `"//MyDisk/Users/"`. -/
theorem C4_counterexample :
    (FSPathGetPathString [⟨.Volume, some "Disk".toList⟩, ⟨.Root, none⟩] false
        (FSPathCreate "//MyDisk/Users/doc.txt".toList)).map Prod.snd
      = some (some "//MyDisk/Users/doc.txt".toList)
    ∧ "//MyDisk/Users/doc.txt".toList ≠ "//MyDisk/Users/".toList := by
  rw [create_eq_unbounded _ fitsInt_doc]
  exact ⟨pathString_volumeAnchored [⟨.Volume, some "Disk".toList⟩, ⟨.Root, none⟩]
      "MyDisk".toList ["Users".toList] "doc".toList "txt".toList (by decide) (by decide)
      (by decide) (by decide),
    by decide⟩

/-- C4, amended: for a volume-anchored input `s = "//" v "/" d "/" f "." e` of at most 2147483647
(`INT_MAX`) characters and every current path, `FSPathGetPathString(FSPathCreate(s))` is the
whole of `s`: the view starts at the volume, the first component written, and runs to the
terminator of the buffer, file name included. -/
theorem C4_volumeAnchored_pathString (Current : List FSPathComponent) (v d f e : List Char)
    (hv : IsName v) (hd : IsName d) (hfn : IsName f) (he : IsName e)
    (hlen : FitsInt (volumeAnchored v [d] f e)) :
    (FSPathGetPathString Current false (FSPathCreate (volumeAnchored v [d] f e))).map Prod.snd
      = some (some (volumeAnchored v [d] f e)) := by
  rw [create_eq_unbounded _ hlen]
  exact pathString_volumeAnchored Current v [d] f e hv (by simpa using hd) hfn he

/-- C4 (amended) at `"//MyDisk/Users/doc.txt"`. -/
theorem C4_volumeAnchored_pathString_witness :
    IsName "MyDisk".toList ∧ IsName "Users".toList ∧ IsName "doc".toList ∧ IsName "txt".toList
    ∧ FitsInt (volumeAnchored "MyDisk".toList ["Users".toList] "doc".toList "txt".toList)
    ∧ (FSPathGetPathString [] false (FSPathCreate "//MyDisk/Users/doc.txt".toList)).map Prod.snd
      = some (some "//MyDisk/Users/doc.txt".toList) :=
  ⟨by decide, by decide, by decide, by decide, by decide,
    C4_volumeAnchored_pathString [] "MyDisk".toList "Users".toList "doc".toList "txt".toList
      (by decide) (by decide) (by decide) (by decide) (by decide)⟩

/-- The path created from `"//v/d/f." e` for an extension `e` of `n + 1` copies of `a` whose
`int` count is 0: no `Extension` is made and the file-name string is `"f"`. -/
theorem filename_run (n : Nat) (h0 : wrapInt32 (1 + n) = 0) :
    (FSPathCreate (volumeAnchored ['v'] [['d']] ['f'] ('a' :: List.replicate n 'a'))).components
        = [⟨.Volume, some ['v']⟩, ⟨.Root, none⟩, ⟨.Directory, some ['d']⟩, ⟨.File, some ['f']⟩]
    ∧ (FSPathGetFilenameString [] false
          (FSPathCreate (volumeAnchored ['v'] [['d']] ['f'] ('a' :: List.replicate n 'a')))).map
        Prod.snd = some (some ['f'])
    ∧ ['f'] ≠ ['f'] ++ '.' :: ('a' :: List.replicate n 'a') := by
  have h5 : (FSPathGetFilenameString [] false
      ⟨[⟨.Volume, some ['v']⟩, ⟨.Root, none⟩, ⟨.Directory, some ['d']⟩, ⟨.File, some ['f']⟩],
        none, none, none, 0⟩).map Prod.snd = some (some ['f']) := by
    decide
  have hne : ∀ e : List Char, ['f'] ≠ ['f'] ++ '.' :: e := by
    intro e
    simp
  have hc : FSPathConvertPathToComponents
      (volumeAnchored ['v'] [['d']] ['f'] ('a' :: List.replicate n 'a')) true
      = [⟨.Volume, some ['v']⟩, ⟨.Root, none⟩, ⟨.Directory, some ['d']⟩,
          ⟨.File, some ['f']⟩] :=
    (convert_of_flush (volumeAnchored ['v'] [['d']] ['f'] ('a' :: List.replicate n 'a')) true _
      (flush_extension_run n h0).1).trans rfl
  refine ⟨?_, ?_, hne _⟩
  · unfold FSPathCreate
    rw [hc]
  · unfold FSPathCreate
    rw [hc]
    exact h5

/-- C5, as stated, fails: the extension `e` of 4294967296 copies of `a` is non-empty and holds no
`'/'` and no `'.'`, yet for `"//v/d/f." e` the `int` count of its characters is back at 0 when
the input ends, so no `Extension` is made and the file-name string is `"f"`, not
`f "." e`. -/
theorem C5_counterexample :
    IsName ['v'] ∧ IsName ['d'] ∧ IsName ['f'] ∧ IsName overlongName
    ∧ (FSPathCreate (volumeAnchored ['v'] [['d']] ['f'] overlongName)).components
        = [⟨.Volume, some ['v']⟩, ⟨.Root, none⟩, ⟨.Directory, some ['d']⟩, ⟨.File, some ['f']⟩]
    ∧ (FSPathGetFilenameString [] false
          (FSPathCreate (volumeAnchored ['v'] [['d']] ['f'] overlongName))).map Prod.snd
        = some (some ['f'])
    ∧ ['f'] ≠ ['f'] ++ '.' :: overlongName :=
  ⟨by decide, by decide, by decide, overlongName_isName,
    filename_run 4294967295 wrapInt32_overlong⟩

/-- C5, amended: for a volume-anchored input `"//" v "/" d "/" f "." e` of at most 2147483647
(`INT_MAX`) characters and every current path, `FSPathGetFilenameString(FSPathCreate(s))` is
`f "." e`. -/
theorem C5_volumeAnchored_filenameString (Current : List FSPathComponent) (v d f e : List Char)
    (hv : IsName v) (hd : IsName d) (hfn : IsName f) (he : IsName e)
    (hlen : FitsInt (volumeAnchored v [d] f e)) :
    (FSPathGetFilenameString Current false
        (FSPathCreate (volumeAnchored v [d] f e))).map Prod.snd
      = some (some (f ++ '.' :: e)) := by
  rw [create_eq_unbounded _ hlen]
  exact filenameString_volumeAnchored Current v [d] f e hv (by simpa using hd) hfn he

/-- C5 (amended) at `"//MyDisk/Users/doc.txt"`. -/
theorem C5_volumeAnchored_filenameString_witness :
    IsName "MyDisk".toList ∧ IsName "Users".toList ∧ IsName "doc".toList ∧ IsName "txt".toList
    ∧ FitsInt (volumeAnchored "MyDisk".toList ["Users".toList] "doc".toList "txt".toList)
    ∧ (FSPathGetFilenameString [] false
        (FSPathCreate "//MyDisk/Users/doc.txt".toList)).map Prod.snd
      = some (some "doc.txt".toList) :=
  ⟨by decide, by decide, by decide, by decide, by decide,
    C5_volumeAnchored_filenameString [] "MyDisk".toList "Users".toList "doc".toList "txt".toList
      (by decide) (by decide) (by decide) (by decide) (by decide)⟩

/-! ## Claim C6: a leading dot -/

theorem scanStep_init_dot (hf : Bool) (cs : List FSPathComponent) :
    scanStepUnbounded '.' ⟨[], 0, 0, 0, hf, cs⟩ = ⟨['.'], 0, 1, 0, hf, cs⟩ := by
  simp [scanStepUnbounded, ScanState.first, FSPathFoundComponentTypeFromInputs]

theorem scanLoop_dotName (n : List Char) (hn : IsName n) :
    scanLoopUnbounded ('.' :: n) scanInit = ⟨'.' :: n, 0, 1, n.length, false, []⟩ := by
  have hdot : ('.' : Char) ≠ '\x00' := by decide
  have hk : (0 : Int) + (n.length : Int) = (n.length : Int) := by simp
  rw [scanInit, scanLoop_cons _ _ _ hdot, scanStep_init_dot,
    scanLoop_plain n hn.2 '.' [] 0 1 0 false [] staysPending_extension, hk]
  rfl

/-- The promotion inside the loop: an extension span met while no file has been emitted becomes a
`File` that keeps the whole span, dot included. -/
theorem scanStep_extension_dot (n : List Char) (hn : IsName n) (cs : List FSPathComponent) :
    scanStepUnbounded '.' ⟨'.' :: n, 0, 1, n.length, false, cs⟩
      = ⟨['.'], 0, 1, 0, true, cs ++ [⟨.File, some ('.' :: n)⟩]⟩ := by
  obtain ⟨hne, -⟩ := hn
  cases n with
  | nil => exact absurd rfl hne
  | cons a n =>
    have hlen := length_cast_ne_zero n
    simp [scanStepUnbounded, ScanState.first, FSPathFoundComponentTypeFromInputs, FSPathCreateComponent,
      FSPathComponentCreate, FSPathCopyString, hlen]

theorem convert_dotName (n : List Char) (hn : IsName n) :
    FSPathConvertPathToComponentsUnbounded ('.' :: n) false = [⟨.Extension, some n⟩] := by
  simp only [FSPathConvertPathToComponentsUnbounded, scanLoop_dotName n hn, scanFlush_extension n hn]
  rfl

theorem convert_dotName_extension (n e : List Char) (hn : IsName n) (he : IsName e) :
    FSPathConvertPathToComponentsUnbounded ('.' :: (n ++ '.' :: e)) false
      = [⟨.File, some ('.' :: n)⟩, ⟨.Extension, some e⟩] := by
  have hdot : ('.' : Char) ≠ '\x00' := by decide
  have hnul : ∀ c ∈ '.' :: n, c ≠ '\x00' := by
    intro c hc
    rcases List.mem_cons.1 hc with h | h
    · rw [h]; exact hdot
    · exact (hn.2 c h).2.2
  have hk : (0 : Int) + (e.length : Int) = (e.length : Int) := by simp
  have hscan : scanFlush (scanLoopUnbounded ('.' :: (n ++ '.' :: e)) scanInit)
      = [⟨.File, some ('.' :: n)⟩, ⟨.Extension, some e⟩] := by
    have e1 : '.' :: (n ++ '.' :: e) = ('.' :: n) ++ '.' :: e := rfl
    rw [e1, scanLoop_append _ _ _ hnul, scanLoop_dotName n hn, scanLoop_cons _ _ _ hdot,
      scanStep_extension_dot n hn,
      scanLoop_plain e he.2 '.' [] 0 1 0 true _ staysPending_extension, hk]
    exact scanFlush_extension e he true _
  simp only [FSPathConvertPathToComponentsUnbounded, hscan]

/-- C6, as stated, fails: `FSPathConvertPathToComponents(".hidden", FALSE)` is
`[Extension("hidden")]`, classified after the loop where no promotion is made, and not
`[File("hidden")]`. -/
theorem C6_counterexample :
    FSPathConvertPathToComponents ".hidden".toList false = [⟨.Extension, some "hidden".toList⟩]
    ∧ FSPathConvertPathToComponents ".hidden".toList false ≠ [⟨.File, some "hidden".toList⟩] := by
  have h := convert_dotName "hidden".toList (by decide)
  have hs : '.' :: "hidden".toList = ".hidden".toList := by decide
  rw [hs] at h
  rw [convert_eq_unbounded _ _ (by decide), h]
  exact ⟨rfl, by simp⟩

/-- C6, amended: for names `n` and `e` with `"." n "." e` of at most 2147483647 (`INT_MAX`)
characters, the sole segment `"." n` parses to exactly one component and that component is of a
file type (`File` or `Extension`); where the promotion of the loop applies, in `"." n "." e`,
the first file-type component is forced to `File` and keeps its whole span, dot included: the
result is `[File("." n), Extension(e)]`. -/
theorem C6_leadingDot (n e : List Char) (hn : IsName n) (he : IsName e)
    (hlen : FitsInt ('.' :: (n ++ '.' :: e))) :
    (∃ c, FSPathConvertPathToComponents ('.' :: n) false = [c]
        ∧ (c.type = .File ∨ c.type = .Extension))
    ∧ FSPathConvertPathToComponents ('.' :: (n ++ '.' :: e)) false
        = [⟨.File, some ('.' :: n)⟩, ⟨.Extension, some e⟩] := by
  have hlen1 : FitsInt ('.' :: n) := by
    unfold FitsInt at hlen ⊢
    simp only [List.length_cons, List.length_append] at hlen ⊢
    omega
  rw [convert_eq_unbounded _ _ hlen1, convert_eq_unbounded _ _ hlen]
  exact ⟨⟨_, convert_dotName n hn, Or.inr rfl⟩, convert_dotName_extension n e hn he⟩

/-- C6 (amended) at `".hidden"` and `".hidden.txt"`. -/
theorem C6_leadingDot_witness :
    IsName "hidden".toList ∧ IsName "txt".toList
    ∧ FitsInt ('.' :: ("hidden".toList ++ '.' :: "txt".toList))
    ∧ (∃ c, FSPathConvertPathToComponents ".hidden".toList false = [c]
        ∧ (c.type = .File ∨ c.type = .Extension))
    ∧ FSPathConvertPathToComponents ".hidden.txt".toList false
        = [⟨.File, some ".hidden".toList⟩, ⟨.Extension, some "txt".toList⟩] :=
  ⟨by decide, by decide, by decide,
    C6_leadingDot "hidden".toList "txt".toList (by decide) (by decide) (by decide)⟩

/-! ## Claim C8: non-empty component sequences -/

theorem scanStep_components (c : Char) (st : ScanState) :
    ∃ extra, (scanStepUnbounded c st).Components = st.Components ++ extra := by
  unfold scanStepUnbounded
  split
  · split_ifs <;> exact ⟨[_], rfl⟩
  · split_ifs <;> exact ⟨[], by simp⟩

theorem scanLoop_components (s : List Char) (st : ScanState) :
    ∃ extra, (scanLoopUnbounded s st).Components = st.Components ++ extra := by
  induction s generalizing st with
  | nil => exact ⟨[], by simp [scanLoopUnbounded]⟩
  | cons c s ih =>
    unfold scanLoopUnbounded
    split_ifs
    · exact ⟨[], by simp⟩
    · obtain ⟨e1, h1⟩ := scanStep_components c st
      obtain ⟨e2, h2⟩ := ih (scanStepUnbounded c st)
      exact ⟨e1 ++ e2, by rw [h2, h1, List.append_assoc]⟩

theorem scanFlush_components (st : ScanState) :
    ∃ extra, scanFlush st = st.Components ++ extra := by
  unfold scanFlush
  split
  · exact ⟨[_], rfl⟩
  · exact ⟨[], by simp⟩

theorem emits_scanStep (c : Char) (st : ScanState) (h : Emits st) : Emits (scanStepUnbounded c st) := by
  rcases h with h | ⟨a, p, hs, ha1, ha2, hd, hk, hsl⟩
  · left
    obtain ⟨e, he⟩ := scanStep_components c st
    rw [he]
    simp [h]
  · by_cases hem : FSPathFoundComponentTypeFromInputs c (st.first c) st.SlashCount st.DotCount
        st.CharacterCount = none
    · right
      have hk0 : st.CharacterCount ≠ 0 := by omega
      simp only [FSPathFoundComponentTypeFromInputs, ScanState.first, hs, ha1, ha2, hd, hk0,
        if_false, ne_eq, not_true_eq_false, not_false_eq_true, and_true, true_and] at hem
      have hsl0 : st.SlashCount = 0 := by
        by_contra hne
        simp [hne] at hem
      have hcd : c ≠ '.' := by
        intro hc
        simp [hsl0, hc] at hem
      refine ⟨a, p ++ [c], ?_⟩
      unfold scanStepUnbounded
      have hem2 : FSPathFoundComponentTypeFromInputs c (st.first c) st.SlashCount st.DotCount
          st.CharacterCount = none := by
        simp only [FSPathFoundComponentTypeFromInputs, ScanState.first, hs, ha1, ha2, hd, hk0,
          if_false, ne_eq, not_true_eq_false, not_false_eq_true, and_true, true_and]
        exact hem
      simp only [hem2]
      split_ifs with h1
      · exact ⟨by simp [hs], ha1, ha2, hd, hk, by simp; omega⟩
      · exact ⟨by simp [hs], ha1, ha2, hd, by simp; omega, hsl⟩
    · left
      obtain ⟨Ty, hTy⟩ := Option.ne_none_iff_exists'.1 hem
      unfold scanStepUnbounded
      simp only [hTy]
      split_ifs <;> simp

theorem emits_scanLoop (s : List Char) (st : ScanState) (h : Emits st) :
    Emits (scanLoopUnbounded s st) := by
  induction s generalizing st with
  | nil => simpa [scanLoopUnbounded] using h
  | cons c s ih =>
    unfold scanLoopUnbounded
    split_ifs
    · exact h
    · exact ih _ (emits_scanStep c st h)

theorem emits_scanFlush (st : ScanState) (h : Emits st) : scanFlush st ≠ [] := by
  rcases h with h | ⟨a, p, hs, ha1, ha2, hd, hk, hsl⟩
  · obtain ⟨e, he⟩ := scanFlush_components st
    rw [he]
    simp [h]
  · have hk0 : st.CharacterCount ≠ 0 := by omega
    unfold scanFlush
    by_cases hsl0 : st.SlashCount = 0
    · simp [FSPathFoundComponentTypeFromInputs, ScanState.first, hs, ha1, ha2, hd, hk0, hsl0]
    · simp [FSPathFoundComponentTypeFromInputs, ScanState.first, hs, ha1, ha2, hd, hk0, hsl0]

theorem convert_ne_nil (s : List Char) (h : scanFlush (scanLoopUnbounded s scanInit) ≠ []) :
    FSPathConvertPathToComponentsUnbounded s true ≠ [] := by
  unfold FSPathConvertPathToComponentsUnbounded
  cases hc : scanFlush (scanLoopUnbounded s scanInit) with
  | nil => exact absurd hc h
  | cons first tail =>
    simp only
    split_ifs <;> simp

theorem scanFlush_ne_nil_of_first (c : Char) (rest : List Char) (hnul : c ≠ '\x00')
    (hdot : c ≠ '.') (hsep : ¬ (c = '/' ∧ rest.head? = some '/')) :
    scanFlush (scanLoopUnbounded (c :: rest) scanInit) ≠ [] := by
  rw [scanLoop_cons _ _ _ hnul]
  by_cases hc : c = '/'
  · subst hc
    rw [scanInit, scanStep_init_slash]
    cases rest with
    | nil =>
      simp [scanLoopUnbounded, scanFlush, ScanState.first, FSPathFoundComponentTypeFromInputs]
    | cons c2 r =>
      have hc2 : c2 ≠ '/' := by
        intro h
        exact hsep ⟨by trivial, by simp [h]⟩
      by_cases hz : c2 = '\x00'
      · simp [scanLoopUnbounded, hz, scanFlush, ScanState.first, FSPathFoundComponentTypeFromInputs]
      · rw [scanLoop_cons _ _ _ hz]
        apply emits_scanFlush
        apply emits_scanLoop
        left
        have hcl : FSPathFoundComponentTypeFromInputs c2 '/' 1 0 0 = some .Root := by
          simp [FSPathFoundComponentTypeFromInputs, hc2]
        unfold scanStepUnbounded
        simp only [ScanState.first, List.nil_append, List.length_nil, Nat.cast_zero, hcl]
        split_ifs <;> simp
  · apply emits_scanFlush
    apply emits_scanLoop
    right
    refine ⟨c, [], ?_⟩
    have hcl : FSPathFoundComponentTypeFromInputs c c 0 0 0 = none := by
      simp [FSPathFoundComponentTypeFromInputs]
    unfold scanStepUnbounded
    simp [scanInit, ScanState.first, hcl, hc, hdot]

/-- C8, as stated, fails: the non-empty input `"."` gives a path with no component (and so does
`"//"`). -/
theorem C8_counterexample :
    ['.'] ≠ ([] : List Char) ∧ FSPathGetComponentCount (FSPathCreate ['.']) = 0
    ∧ FSPathGetComponentCount (FSPathCreate ['/', '/']) = 0 := by
  decide

/-- C8, amended: for every non-empty input string of at most 2147483647 (`INT_MAX`) characters
whose first character is not `'.'` and which does not begin with `"//"`, the component sequence
of `FSPathCreate(s)` is non-empty: `FSPathGetComponentCount` is at least 1. -/
theorem C8_componentCount_pos (s : List Char) (hne : s ≠ []) (hnul : s.head? ≠ some '\x00')
    (hdot : s.head? ≠ some '.') (hsep : s.take 2 ≠ ['/', '/']) (hlen : FitsInt s) :
    1 ≤ FSPathGetComponentCount (FSPathCreate s) := by
  rw [create_eq_unbounded _ hlen]
  cases s with
  | nil => exact absurd rfl hne
  | cons c rest =>
    have h1 : c ≠ '\x00' := by simpa using hnul
    have h2 : c ≠ '.' := by simpa using hdot
    have h3 : ¬ (c = '/' ∧ rest.head? = some '/') := by
      rintro ⟨hc, hr⟩
      cases rest with
      | nil => simp at hr
      | cons c2 r =>
        simp only [List.head?_cons, Option.some.injEq] at hr
        exact hsep (by simp [hc, hr])
    have h := convert_ne_nil (c :: rest) (scanFlush_ne_nil_of_first c rest h1 h2 h3)
    simp only [FSPathGetComponentCount, FSPathCreateUnbounded]
    exact List.length_pos.2 h

/-- C8 (amended) at `"usr/"`. -/
theorem C8_componentCount_pos_witness :
    "usr/".toList ≠ [] ∧ "usr/".toList.head? ≠ some '\x00' ∧ "usr/".toList.head? ≠ some '.'
    ∧ "usr/".toList.take 2 ≠ ['/', '/'] ∧ FitsInt "usr/".toList
    ∧ 1 ≤ FSPathGetComponentCount (FSPathCreate "usr/".toList) :=
  ⟨by decide, by decide, by decide, by decide, by decide,
    C8_componentCount_pos "usr/".toList (by decide) (by decide) (by decide) (by decide)
      (by decide)⟩

/-! ## Claim C9: mutation discards the cache -/

theorem build_allocations (CurrentFull : Option (Option (List Char)))
    (PathVolume : Option FSPathComponent) (cs : List FSPathComponent) (n : Nat) :
    FSPathCreatePathStringCacheWith CurrentFull PathVolume ⟨cs, none, none, none, n⟩
      = (FSPathCreatePathStringCacheWith CurrentFull PathVolume ⟨cs, none, none, none, 0⟩).map
          (fun Built => { Built with allocations := Built.allocations + n }) := by
  simp only [FSPathCreatePathStringCacheWith, Option.isSome_none, Bool.false_eq_true, if_false]
  cases measurePass CurrentFull cs ⟨true, 0⟩ with
  | none => rfl
  | some measured =>
    simp only
    split_ifs with h1 h2
    · cases PathVolume with
      | none => rfl
      | some Component =>
        cases hg : FSPathComponentGetString Component with
        | none => simp [hg]
        | some text =>
          cases hr : renderPass CurrentFull cs ⟨'/' :: '/' :: text, none, none⟩ with
          | none => simp [hg, hr]
          | some rendered => simp [hg, hr, Nat.add_comm]
    · cases hr : renderPass CurrentFull cs ⟨[], none, none⟩ with
      | none => simp [hr]
      | some rendered => simp [hr, Nat.add_comm]
    · simp

theorem invalidated_cleared (Current : List FSPathComponent) (cs : List FSPathComponent)
    (n : Nat) : Invalidated Current ⟨cs, none, none, none, n⟩ := by
  have hb := build_allocations
    (FSPathCurrentFullPathString Current) (FSPathGetVolume Current false cs) cs n
  refine ⟨rfl, rfl, rfl, ?_, ?_, ?_⟩
  · simp only [FSPathGetFullPathString, FSPathFresh, FSPathCreatePathStringCache,
      Option.isNone_none, if_true, Bool.false_eq_true, if_false, hb]
    cases FSPathCreatePathStringCacheWith (FSPathCurrentFullPathString Current)
      (FSPathGetVolume Current false cs) ⟨cs, none, none, none, 0⟩ <;> rfl
  · simp only [FSPathGetPathString, FSPathFresh, FSPathCreatePathStringCache,
      Option.isNone_none, if_true, Bool.false_eq_true, if_false, hb]
    cases FSPathCreatePathStringCacheWith (FSPathCurrentFullPathString Current)
      (FSPathGetVolume Current false cs) ⟨cs, none, none, none, 0⟩ <;> rfl
  · simp only [FSPathGetFilenameString, FSPathFresh, FSPathCreatePathStringCache,
      Option.isNone_none, if_true, Bool.false_eq_true, if_false, hb]
    cases FSPathCreatePathStringCacheWith (FSPathCurrentFullPathString Current)
      (FSPathGetVolume Current false cs) ⟨cs, none, none, none, 0⟩ <;> rfl

/-- C9: for a path other than the current-path singleton, in any cache state, each of the six
mutating operations (with a valid index) succeeds, leaves the new component sequence, leaves
`completeRep`, `pathRep` and `filenameRep` absent, and the next call of each string accessor
returns what a fresh build from the new component sequence returns. -/
theorem C9_mutation_invalidates (Current : List FSPathComponent) (Path : FSPathInfo)
    (Component : FSPathComponent) (Index : Nat) :
    (Index < FSPathGetComponentCount Path →
      ∃ After, FSPathSetComponentAtIndex false Path Component Index = .ok After
        ∧ After.components = Path.components.set Index Component ∧ Invalidated Current After)
    ∧ (Index ≤ FSPathGetComponentCount Path →
      ∃ After, FSPathInsertComponentAtIndex false Path Component Index = .ok After
        ∧ After.components = Path.components.take Index ++ Component :: Path.components.drop Index
        ∧ Invalidated Current After)
    ∧ (∃ After, FSPathAppendComponent false Path Component = .ok After
        ∧ After.components = Path.components ++ [Component] ∧ Invalidated Current After)
    ∧ (∃ After, FSPathPrependComponent false Path Component = .ok After
        ∧ After.components = Component :: Path.components ∧ Invalidated Current After)
    ∧ (Index < FSPathGetComponentCount Path →
      ∃ After, FSPathRemoveComponentIndex false Path Index = .ok After
        ∧ After.components = Path.components.eraseIdx Index ∧ Invalidated Current After)
    ∧ (0 < FSPathGetComponentCount Path →
      ∃ After, FSPathRemoveComponentLast false Path = .ok After
        ∧ After.components = Path.components.dropLast ∧ Invalidated Current After) := by
  refine ⟨?_, ?_, ?_, ?_, ?_, ?_⟩
  · intro h
    refine ⟨_, ?_, rfl, invalidated_cleared Current _ Path.allocations⟩
    simp only [FSPathGetComponentCount] at h
    simp [FSPathSetComponentAtIndex, h, FSPathMutated, FSPathClearPathStringCache]
  · intro h
    refine ⟨_, ?_, rfl, invalidated_cleared Current _ Path.allocations⟩
    simp only [FSPathGetComponentCount] at h
    simp [FSPathInsertComponentAtIndex, h, FSPathMutated, FSPathClearPathStringCache]
  · refine ⟨_, ?_, rfl, invalidated_cleared Current _ Path.allocations⟩
    simp [FSPathAppendComponent, FSPathMutated, FSPathClearPathStringCache]
  · refine ⟨_, ?_, rfl, invalidated_cleared Current _ Path.allocations⟩
    simp [FSPathPrependComponent, FSPathMutated, FSPathClearPathStringCache]
  · intro h
    refine ⟨_, ?_, rfl, invalidated_cleared Current _ Path.allocations⟩
    simp only [FSPathGetComponentCount] at h
    simp [FSPathRemoveComponentIndex, h, FSPathMutated, FSPathClearPathStringCache]
  · intro h
    refine ⟨_, ?_, rfl, invalidated_cleared Current _ Path.allocations⟩
    simp only [FSPathGetComponentCount] at h
    simp [FSPathRemoveComponentLast, h, FSPathMutated, FSPathClearPathStringCache]

/-- C9 at a path holding a stale cache: replacing component 1 discards the cache. -/
theorem C9_mutation_invalidates_witness :
    1 < FSPathGetComponentCount
        ⟨[⟨.Root, none⟩, ⟨.Directory, some ['a']⟩], some ⟨8, ['/', '/', 'v', '/', 'a', '/']⟩,
          none, some 3, 1⟩
    ∧ ∃ After,
        FSPathSetComponentAtIndex false
          ⟨[⟨.Root, none⟩, ⟨.Directory, some ['a']⟩], some ⟨8, ['/', '/', 'v', '/', 'a', '/']⟩,
            none, some 3, 1⟩ ⟨.File, some ['f']⟩ 1 = .ok After
        ∧ After.components = [⟨.Root, none⟩, ⟨.File, some ['f']⟩]
        ∧ Invalidated [⟨.Volume, some ['v']⟩] After :=
  ⟨by decide,
    (C9_mutation_invalidates [⟨.Volume, some ['v']⟩]
      ⟨[⟨.Root, none⟩, ⟨.Directory, some ['a']⟩], some ⟨8, ['/', '/', 'v', '/', 'a', '/']⟩,
        none, some 3, 1⟩ ⟨.File, some ['f']⟩ 1).1 (by decide)⟩

/-! ## Claim C10: calling an accessor twice -/

theorem build_wellFormed (CurrentFull : Option (Option (List Char)))
    (PathVolume : Option FSPathComponent) (Path : FSPathInfo) (h : WellFormed Path) :
    FSPathCreatePathStringCacheWith CurrentFull PathVolume Path
      = (FSPathCreatePathStringCacheWith CurrentFull PathVolume
          (FSPathFresh Path.components)).map (bump Path.allocations) := by
  obtain ⟨cs, cr, fr, pr, n⟩ := Path
  have key := build_allocations CurrentFull PathVolume cs n
  have hb : (fun Built : FSPathInfo => { Built with allocations := Built.allocations + n })
      = bump n := rfl
  rw [hb] at key
  cases cr with
  | none =>
    obtain ⟨h1, h2⟩ := h rfl
    simp only at h1 h2
    subst h1 h2
    exact key
  | some buffer =>
    have e : FSPathCreatePathStringCacheWith CurrentFull PathVolume ⟨cs, some buffer, fr, pr, n⟩
        = FSPathCreatePathStringCacheWith CurrentFull PathVolume ⟨cs, none, none, none, n⟩ := by
      simp [FSPathCreatePathStringCacheWith, FSPathClearPathStringCache]
    rw [e]
    exact key

theorem build_fresh_result (CurrentFull : Option (Option (List Char)))
    (PathVolume : Option FSPathComponent) (cs : List FSPathComponent) (Built : FSPathInfo)
    (h : FSPathCreatePathStringCacheWith CurrentFull PathVolume (FSPathFresh cs) = some Built) :
    Built.components = cs ∧ WellFormed Built := by
  simp only [FSPathCreatePathStringCacheWith, FSPathFresh, Option.isSome_none,
    Bool.false_eq_true, if_false] at h
  repeat' split at h
  all_goals first
    | (simp at h; done)
    | (simp only [Option.some.injEq] at h
       subst h
       refine ⟨rfl, ?_⟩
       intro hc
       first
         | (simp at hc; done)
         | exact ⟨rfl, rfl⟩)

/-- Two calls of an accessor in a row: the second returns the content of the first, and it leaves
the path untouched when the first returned a string. -/
theorem accessWith_twice (absent : FSPathInfo → Bool) (view : FSPathInfo → Option (List Char))
    (habsent : ∀ P, view P ≠ none → absent P = false)
    (hview : ∀ P m, view (bump m P) = view P)
    (Current : List FSPathComponent) (isCurrent : Bool) (Path After : FSPathInfo)
    (r : Option (List Char))
    (h : accessWith absent view Current isCurrent Path = some (After, r)) :
    (r ≠ none → accessWith absent view Current isCurrent After = some (After, r))
    ∧ (WellFormed Path →
        ∃ After2, accessWith absent view Current isCurrent After = some (After2, r)) := by
  have hr : r = view After := by
    unfold accessWith at h
    split at h
    · simp only [Option.some.injEq, Prod.mk.injEq] at h
      rw [← h.1, ← h.2]
    · exact absurd h (by simp)
  have hkeep : r ≠ none → accessWith absent view Current isCurrent After = some (After, r) := by
    intro hne
    have ha : absent After = false := habsent After (hr ▸ hne)
    simp [accessWith, ha, hr]
  refine ⟨hkeep, fun hwf => ?_⟩
  by_cases hne : r = none
  swap
  · exact ⟨After, hkeep hne⟩
  · by_cases ha : absent After = true
    swap
    · exact ⟨After, by simp [accessWith, ha, hr]⟩
    · -- the view is absent after the first call: the second call rebuilds
      have hfirst : (After.components = Path.components ∧ WellFormed After) := by
        unfold accessWith at h
        split_ifs at h with hp
        · cases hb : FSPathCreatePathStringCache Current isCurrent Path with
          | none => rw [hb] at h; exact absurd h (by simp)
          | some Built =>
            rw [hb] at h
            simp only [Option.some.injEq, Prod.mk.injEq] at h
            obtain ⟨h1, -⟩ := h
            subst h1
            unfold FSPathCreatePathStringCache at hb
            rw [build_wellFormed _ _ _ hwf] at hb
            cases hf : FSPathCreatePathStringCacheWith
                (if isCurrent = true then none else FSPathCurrentFullPathString Current)
                (FSPathGetVolume Current isCurrent Path.components)
                (FSPathFresh Path.components) with
            | none => rw [hf] at hb; exact absurd hb (by simp)
            | some Q =>
              rw [hf] at hb
              simp only [Option.map_some', Option.some.injEq] at hb
              obtain ⟨hq1, hq2⟩ := build_fresh_result _ _ _ _ hf
              subst hb
              exact ⟨hq1, hq2⟩
        · simp only [Option.some.injEq, Prod.mk.injEq] at h
          obtain ⟨h1, -⟩ := h
          subst h1
          exact ⟨rfl, hwf⟩
      obtain ⟨hcs, hwfA⟩ := hfirst
      -- the second build
      have hsecond : FSPathCreatePathStringCache Current isCurrent After
          = (FSPathCreatePathStringCacheWith
              (if isCurrent = true then none else FSPathCurrentFullPathString Current)
              (FSPathGetVolume Current isCurrent Path.components)
              (FSPathFresh Path.components)).map (bump After.allocations) := by
        unfold FSPathCreatePathStringCache
        rw [build_wellFormed _ _ _ hwfA, hcs]
      -- the first build, when there was one, produced the same fields
      have hsame : ∃ Q, FSPathCreatePathStringCacheWith
              (if isCurrent = true then none else FSPathCurrentFullPathString Current)
              (FSPathGetVolume Current isCurrent Path.components)
              (FSPathFresh Path.components) = some Q ∧ view Q = view After := by
        unfold accessWith at h
        split_ifs at h with hp
        · cases hb : FSPathCreatePathStringCache Current isCurrent Path with
          | none => rw [hb] at h; exact absurd h (by simp)
          | some Built =>
            rw [hb] at h
            simp only [Option.some.injEq, Prod.mk.injEq] at h
            obtain ⟨h1, -⟩ := h
            subst h1
            unfold FSPathCreatePathStringCache at hb
            rw [build_wellFormed _ _ _ hwf] at hb
            cases hf : FSPathCreatePathStringCacheWith
                (if isCurrent = true then none else FSPathCurrentFullPathString Current)
                (FSPathGetVolume Current isCurrent Path.components)
                (FSPathFresh Path.components) with
            | none => rw [hf] at hb; exact absurd hb (by simp)
            | some Q =>
              rw [hf] at hb
              simp only [Option.map_some', Option.some.injEq] at hb
              subst hb
              exact ⟨Q, rfl, (hview Q _).symm⟩
        · simp only [Option.some.injEq, Prod.mk.injEq] at h
          obtain ⟨h1, -⟩ := h
          subst h1
          exact absurd ha (by simp [hp])
      obtain ⟨Q, hQ, hvQ⟩ := hsame
      refine ⟨bump After.allocations Q, ?_⟩
      simp only [accessWith, ha, if_true, hsecond, hQ, Option.map_some', hview, hvQ, hr]

theorem fullPathString_eq_accessWith :
    FSPathGetFullPathString
      = accessWith (fun P => P.completeRep.isNone) (fun P => P.completeRep.map CacheBuffer.text) :=
  rfl

theorem pathString_eq_accessWith :
    FSPathGetPathString
      = accessWith (fun P => P.pathRep.isNone) (fun P => FSPathStringAt P P.pathRep) :=
  rfl

theorem filenameString_eq_accessWith :
    FSPathGetFilenameString
      = accessWith (fun P => P.filenameRep.isNone) (fun P => FSPathStringAt P P.filenameRep) :=
  rfl

theorem stringAt_ne_none (P : FSPathInfo) (rep : Option Nat) (h : FSPathStringAt P rep ≠ none) :
    rep.isNone = false := by
  cases rep with
  | none => exact absurd (by simp [FSPathStringAt]) h
  | some offset => rfl

/-- C10, as stated, fails: on the directory path `"/a/"` (current volume `v`) the file-name view
is absent after the first `FSPathGetFilenameString`, so the second call runs
`FSPathCreatePathStringCache` again and replaces the buffer: a second buffer is allocated. -/
theorem C10_counterexample :
    ∃ After After2,
      FSPathGetFilenameString [⟨.Volume, some ['v']⟩] false (FSPathCreate ['/', 'a', '/'])
        = some (After, none)
      ∧ FSPathGetFilenameString [⟨.Volume, some ['v']⟩] false After = some (After2, none)
      ∧ After.completeRep ≠ none ∧ After.allocations = 1 ∧ After2.allocations = 2 :=
  ⟨⟨[⟨.Root, none⟩, ⟨.Directory, some ['a']⟩], some ⟨8, ['/', '/', 'v', '/', 'a', '/']⟩, none,
      some 3, 1⟩,
    ⟨[⟨.Root, none⟩, ⟨.Directory, some ['a']⟩], some ⟨8, ['/', '/', 'v', '/', 'a', '/']⟩, none,
      some 3, 2⟩,
    by decide, by decide, by decide, rfl, rfl⟩

/-- C10, amended: for every path and each of the three string accessors, when a call returns,
a second call with no mutation in between returns the same content (for a path whose views are
absent whenever its buffer is); and when the first call returned a string (not `NULL`), the
second call performs no rebuild: it returns the identical pointer and leaves the path, its
buffer and its allocation count untouched. -/
theorem C10_accessor_twice (Current : List FSPathComponent) (isCurrent : Bool)
    (Path After : FSPathInfo) (r : Option (List Char)) :
    (FSPathGetFullPathString Current isCurrent Path = some (After, r) →
      (r ≠ none → FSPathGetFullPathString Current isCurrent After = some (After, r))
      ∧ (WellFormed Path →
          ∃ After2, FSPathGetFullPathString Current isCurrent After = some (After2, r)))
    ∧ (FSPathGetPathString Current isCurrent Path = some (After, r) →
      (r ≠ none → FSPathGetPathString Current isCurrent After = some (After, r))
      ∧ (WellFormed Path →
          ∃ After2, FSPathGetPathString Current isCurrent After = some (After2, r)))
    ∧ (FSPathGetFilenameString Current isCurrent Path = some (After, r) →
      (r ≠ none → FSPathGetFilenameString Current isCurrent After = some (After, r))
      ∧ (WellFormed Path →
          ∃ After2, FSPathGetFilenameString Current isCurrent After = some (After2, r))) := by
  refine ⟨?_, ?_, ?_⟩
  · rw [fullPathString_eq_accessWith]
    apply accessWith_twice
    · intro P h
      cases hc : P.completeRep with
      | none => exact absurd (by simp [hc]) h
      | some b => rfl
    · intro P m
      rfl
  · rw [pathString_eq_accessWith]
    apply accessWith_twice
    · intro P h
      exact stringAt_ne_none P _ h
    · intro P m
      rfl
  · rw [filenameString_eq_accessWith]
    apply accessWith_twice
    · intro P h
      exact stringAt_ne_none P _ h
    · intro P m
      rfl

/-- C10 (amended) at the path `"//v/f"`: the second `FSPathGetFilenameString` returns `"f"` again
and leaves the path as the first call left it. -/
theorem C10_accessor_twice_witness :
    FSPathGetFilenameString [] false (FSPathCreate ['/', '/', 'v', '/', 'f'])
      = some (⟨[⟨.Volume, some ['v']⟩, ⟨.Root, none⟩, ⟨.File, some ['f']⟩],
                some ⟨7, ['/', '/', 'v', '/', 'f']⟩, some 4, some 0, 1⟩, some ['f'])
    ∧ FSPathGetFilenameString [] false
        ⟨[⟨.Volume, some ['v']⟩, ⟨.Root, none⟩, ⟨.File, some ['f']⟩],
          some ⟨7, ['/', '/', 'v', '/', 'f']⟩, some 4, some 0, 1⟩
      = some (⟨[⟨.Volume, some ['v']⟩, ⟨.Root, none⟩, ⟨.File, some ['f']⟩],
                some ⟨7, ['/', '/', 'v', '/', 'f']⟩, some 4, some 0, 1⟩, some ['f']) :=
  ⟨by decide,
    ((C10_accessor_twice [] false (FSPathCreate ['/', '/', 'v', '/', 'f'])
      ⟨[⟨.Volume, some ['v']⟩, ⟨.Root, none⟩, ⟨.File, some ['f']⟩],
        some ⟨7, ['/', '/', 'v', '/', 'f']⟩, some 4, some 0, 1⟩ (some ['f'])).2.2
      (by decide)).1 (by simp)⟩

/-! ## Claim C7: where `Volume` and `Root` occur -/

theorem sepOK_of_follow (rest pre : List Char) (prev : Char)
    (h : SeparatorsFollowNames (pre ++ rest)) (hp : pre ≠ [] → pre.getLast? = some prev) :
    sepOK pre.length prev rest := by
  induction rest generalizing pre prev with
  | nil => trivial
  | cons c r ih =>
    refine ⟨?_, ?_⟩
    · intro hc hpos
      have hne : pre ≠ [] := by
        intro he
        rw [he] at hpos
        simp at hpos
      have hget : (pre ++ c :: r)[pre.length]? = some '/' := by
        rw [List.getElem?_append_right (le_refl _)]
        simp [hc]
      have hi := h pre.length (by simp) hpos hget
      have hl : (pre ++ c :: r)[pre.length - 1]? = some prev := by
        rw [List.getElem?_append_left (by omega), ← List.getLast?_eq_getElem?]
        exact hp hne
      rw [hl] at hi
      exact ⟨fun e => hi.1 (by rw [e]), fun e => hi.2 (by rw [e])⟩
    · have h2 := ih (pre ++ [c]) c (by simpa using h) (by simp)
      simpa using h2

theorem scanStep_none (c : Char) (st : ScanState)
    (h : FSPathFoundComponentTypeFromInputs c (st.first c) st.SlashCount st.DotCount
      st.CharacterCount = none) :
    scanStepUnbounded c st
      = ⟨st.Start ++ [c], (bumpCounts c st.SlashCount st.DotCount st.CharacterCount).1,
          (bumpCounts c st.SlashCount st.DotCount st.CharacterCount).2.1,
          (bumpCounts c st.SlashCount st.DotCount st.CharacterCount).2.2, st.HasFile,
          st.Components⟩ := by
  unfold scanStepUnbounded bumpCounts
  simp only [h]
  split_ifs <;> rfl

theorem scanStep_some (c : Char) (st : ScanState) (Ty : FSPathComponentType)
    (h : FSPathFoundComponentTypeFromInputs c (st.first c) st.SlashCount st.DotCount
      st.CharacterCount = some Ty) :
    ∃ comp hf, scanStepUnbounded c st
        = ⟨[c], (bumpCounts c 0 0 0).1, (bumpCounts c 0 0 0).2.1, (bumpCounts c 0 0 0).2.2, hf,
            st.Components ++ [comp]⟩
      ∧ (Ty = .Volume → comp.type = .Volume)
      ∧ (Ty = .Root → comp.type = .Root)
      ∧ (Ty ≠ .Volume → Ty ≠ .Root → comp.type ≠ .Volume ∧ comp.type ≠ .Root) := by
  refine ⟨FSPathCreateComponent
      (if !st.HasFile then
        if Ty = .File then (Ty, true)
        else if Ty = .Extension then (.File, true)
        else (Ty, st.HasFile)
      else (Ty, st.HasFile)).1 st.Start st.Start.length,
    (if !st.HasFile then
        if Ty = .File then (Ty, true)
        else if Ty = .Extension then (.File, true)
        else (Ty, st.HasFile)
      else (Ty, st.HasFile)).2, ?_, ?_, ?_, ?_⟩
  · unfold scanStepUnbounded bumpCounts
    simp only [h]
    split_ifs <;> rfl
  · intro hT
    subst hT
    cases st.HasFile <;> rfl
  · intro hT
    subst hT
    cases st.HasFile <;> rfl
  · intro h1 h2
    cases Ty <;> cases st.HasFile <;>
      simp [FSPathCreateComponent, FSPathComponentCreate] at h1 h2 ⊢

theorem classify_first_slash (c : Char) (sl dt k : Int) (Ty : FSPathComponentType)
    (h : FSPathFoundComponentTypeFromInputs c '/' sl dt k = some Ty) :
    (Ty = .Volume ∧ sl = 2 ∧ dt = 0 ∧ k ≠ 0) ∨ (Ty = .Root ∧ c ≠ '/' ∧ sl = 1 ∧ dt = 0 ∧ k = 0) := by
  unfold FSPathFoundComponentTypeFromInputs at h
  simp only [if_true] at h
  split_ifs at h with h1 h2
  · simp only [Option.some.injEq] at h
    exact Or.inl ⟨h.symm, h1.2.1, h1.2.2.1, h1.2.2.2⟩
  · simp only [Option.some.injEq] at h
    refine Or.inr ⟨h.symm, ?_, h2.2.1, h2.2.2.1, h2.2.2.2⟩
    rcases h2.1 with hz | hz
    · rw [hz]; decide
    · exact hz

theorem classify_not_slash (c a : Char) (sl dt k : Int) (Ty : FSPathComponentType)
    (ha : a ≠ '/') (h : FSPathFoundComponentTypeFromInputs c a sl dt k = some Ty) :
    (Ty ≠ .Volume ∧ Ty ≠ .Root)
    ∧ ((a = '.' ∧ sl ≠ 0 ∧ dt = 2 ∧ k = 0) ∨ (c = '\x00' ∨ c = '.')
        ∨ (a ≠ '.' ∧ sl ≠ 0 ∧ dt = 0 ∧ k ≠ 0)) := by
  unfold FSPathFoundComponentTypeFromInputs at h
  simp only [ha, if_false] at h
  split_ifs at h with h1 h2 h3 h4 h5
  all_goals simp only [Option.some.injEq] at h
  all_goals subst h
  · exact ⟨⟨by simp, by simp⟩, Or.inl ⟨h1, h2⟩⟩
  · exact ⟨⟨by simp, by simp⟩, Or.inr (Or.inl h3.1)⟩
  · exact ⟨⟨by simp, by simp⟩, Or.inr (Or.inr ⟨h1, h4⟩)⟩
  · exact ⟨⟨by simp, by simp⟩, Or.inr (Or.inl h5.1)⟩

theorem classify_directory (c a : Char) (sl dt k : Int) (h1 : a ≠ '/') (h2 : a ≠ '.')
    (hsl : sl ≠ 0) (hdt : dt = 0) (hk : k ≠ 0) :
    FSPathFoundComponentTypeFromInputs c a sl dt k ≠ none := by
  simp [FSPathFoundComponentTypeFromInputs, h1, h2, hsl, hdt, hk]

theorem classify_root (c : Char) (hc : c ≠ '/') :
    FSPathFoundComponentTypeFromInputs c '/' 1 0 0 = some .Root := by
  simp [FSPathFoundComponentTypeFromInputs, hc]

theorem classify_zero (c a : Char) : FSPathFoundComponentTypeFromInputs c a 0 0 0 = none := by
  simp [FSPathFoundComponentTypeFromInputs]

theorem anchored_nil : Anchored [] := by
  intro i c h
  simp at h

theorem anchored_single (x : FSPathComponent) : Anchored [x] := by
  intro i c h
  have hi : i = 0 := by
    by_contra hne
    have : 1 ≤ i := Nat.one_le_iff_ne_zero.2 hne
    rw [List.getElem?_eq_none (by simpa using this)] at h
    exact absurd h (by simp)
  exact ⟨fun _ => hi, fun _ => Or.inl hi⟩

theorem anchored_volume_pair (v : Option (List Char)) (x : FSPathComponent)
    (hx : x.type ≠ .Volume) : Anchored [⟨.Volume, v⟩, x] := by
  intro i c h
  match i, h with
  | 0, _ => exact ⟨fun _ => rfl, fun _ => Or.inl rfl⟩
  | 1, h =>
    simp only [List.getElem?_cons_succ, List.getElem?_cons_zero, Option.some.injEq] at h
    subst h
    exact ⟨fun e => absurd e hx, fun _ => Or.inr ⟨rfl, ⟨.Volume, v⟩, rfl, rfl⟩⟩
  | i + 2, h => simp at h

theorem anchored_append (cs : List FSPathComponent) (e : FSPathComponent) (h : Anchored cs)
    (h1 : e.type ≠ .Volume) (h2 : e.type ≠ .Root) : Anchored (cs ++ [e]) := by
  intro i c hi
  by_cases hlt : i < cs.length
  · rw [List.getElem?_append_left hlt] at hi
    obtain ⟨hv, hr⟩ := h i c hi
    refine ⟨hv, fun hroot => ?_⟩
    rcases hr hroot with h0 | ⟨h1', v, hv0, hvt⟩
    · exact Or.inl h0
    · refine Or.inr ⟨h1', v, ?_, hvt⟩
      rw [List.getElem?_append_left (by omega)]
      exact hv0
  · rw [List.getElem?_append_right (by omega)] at hi
    have hc : c = e := by
      cases hn : i - cs.length with
      | zero => rw [hn] at hi; simpa using hi.symm
      | succ n => rw [hn] at hi; simp at hi
    subst hc
    exact ⟨fun e' => absurd e' h1, fun e' => absurd e' h2⟩

theorem first_cons (st : ScanState) (c a : Char) (p : List Char) (h : st.Start = a :: p) :
    st.first c = a := by
  simp [ScanState.first, h]

theorem first_nil (st : ScanState) (c : Char) (h : st.Start = []) : st.first c = c := by
  simp [ScanState.first, h]

theorem bumpCounts_cases (c : Char) (sl dt k : Int) :
    (c = '/' ∧ bumpCounts c sl dt k = (sl + 1, dt, k))
    ∨ (c ≠ '/' ∧ c = '.' ∧ bumpCounts c sl dt k = (sl, dt + 1, k))
    ∨ (c ≠ '/' ∧ c ≠ '.' ∧ bumpCounts c sl dt k = (sl, dt, k + 1)) := by
  unfold bumpCounts
  by_cases h1 : c = '/'
  · simp [h1]
  · by_cases h2 : c = '.'
    · simp [h2]
    · simp [h1, h2]

/-- The invariant survives an iteration that emits nothing. -/
theorem scanInv_step_none (pos : Nat) (prev c : Char) (st : ScanState)
    (hinv : ScanInv pos prev st)
    (hsep : c = '/' → 2 ≤ pos → prev ≠ '/' ∧ prev ≠ '.')
    (hcl : FSPathFoundComponentTypeFromInputs c (st.first c) st.SlashCount st.DotCount
      st.CharacterCount = none) :
    ScanInv (pos + 1) c (scanStepUnbounded c st) := by
  obtain ⟨hsl, hdt, hk, hsum, hlen, hlast, hIf, hId, hIk, hempty, hcase⟩ := hinv
  rw [scanStep_none c st hcl]
  have hb := bumpCounts_cases c st.SlashCount st.DotCount st.CharacterCount
  have hzero : st.Start = [] → st.SlashCount = 0 ∧ st.DotCount = 0 ∧ st.CharacterCount = 0 := by
    intro he
    rw [he] at hsum
    simp only [List.length_nil, Nat.cast_zero] at hsum
    omega
  refine ⟨?_, ?_, ?_, ?_, ?_, ?_, ?_, ?_, ?_, ?_, ?_⟩
  · rcases hb with ⟨-, e⟩ | ⟨-, -, e⟩ | ⟨-, -, e⟩ <;> simp only [e] <;> omega
  · rcases hb with ⟨-, e⟩ | ⟨-, -, e⟩ | ⟨-, -, e⟩ <;> simp only [e] <;> omega
  · rcases hb with ⟨-, e⟩ | ⟨-, -, e⟩ | ⟨-, -, e⟩ <;> simp only [e] <;> omega
  · rcases hb with ⟨-, e⟩ | ⟨-, -, e⟩ | ⟨-, -, e⟩ <;>
      simp only [e, List.length_append, List.length_singleton, Nat.cast_add, Nat.cast_one] <;>
      omega
  · simp only [List.length_append, List.length_singleton]
    omega
  · intro _
    simp
  · intro a p hap h1 h2
    cases hs : st.Start with
    | nil =>
      rw [hs] at hap
      simp only [List.nil_append, List.cons.injEq] at hap
      obtain ⟨hz1, hz2, hz3⟩ := hzero hs
      rcases hb with ⟨e0, e⟩ | ⟨-, e0, e⟩ | ⟨-, -, e⟩
      · exact absurd (hap.1 ▸ e0) h1
      · exact absurd (hap.1 ▸ e0) h2
      · simp only [e]; omega
    | cons a0 p0 =>
      rw [hs] at hap
      simp only [List.cons_append, List.cons.injEq] at hap
      have := hIf a0 p0 hs (hap.1 ▸ h1) (hap.1 ▸ h2)
      rcases hb with ⟨-, e⟩ | ⟨-, -, e⟩ | ⟨-, -, e⟩ <;> simp only [e] <;> omega
  · intro a p hap h1 h2 hsl' hdt'
    rcases hb with ⟨e0, e⟩ | ⟨-, e0, e⟩ | ⟨e1, e2, e⟩
    · exact e0
    · simp only [e] at hdt'
      omega
    · simp only [e] at hsl' hdt'
      cases hs : st.Start with
      | nil => exact absurd (hzero hs).1 hsl'
      | cons a0 p0 =>
        rw [hs] at hap
        simp only [List.cons_append, List.cons.injEq] at hap
        have ha1 : a0 ≠ '/' := hap.1 ▸ h1
        have ha2 : a0 ≠ '.' := hap.1 ▸ h2
        have hk0 := hIf a0 p0 hs ha1 ha2
        have := classify_directory c a0 st.SlashCount st.DotCount st.CharacterCount ha1 ha2
          hsl' hdt' (by omega)
        rw [first_cons st c a0 p0 hs] at hcl
        exact absurd hcl this
  · intro _ h1 h2
    rcases hb with ⟨e0, e⟩ | ⟨-, e0, e⟩ | ⟨-, -, e⟩
    · exact absurd e0 h1
    · exact absurd e0 h2
    · simp only [e]; omega
  · intro he
    simp at he
  · rcases hcase with ⟨p, hp, hc⟩ | ⟨hs, h1, h2, h3, hpos, v, hv⟩ | ⟨hns, hanch⟩
    · exact Or.inl ⟨p ++ [c], by simp [hp], hc⟩
    · exfalso
      rw [first_cons st c '/' [] hs, h1, h2, h3] at hcl
      by_cases hc : c = '/'
      · have hp := hlast (by simp [hs])
        rw [hs] at hp
        simp only [List.getLast?_singleton, Option.some.injEq] at hp
        exact (hsep hc hpos).1 hp.symm
      · rw [classify_root c hc] at hcl
        exact absurd hcl (by simp)
    · cases hs : st.Start with
      | nil =>
        by_cases hc : c = '/'
        · exact Or.inl ⟨[], by simp [hc], hempty hs⟩
        · refine Or.inr (Or.inr ⟨?_, hanch⟩)
          intro p hp
          simp only [List.nil_append, List.cons.injEq] at hp
          exact hc hp.1
      | cons a0 p0 =>
        refine Or.inr (Or.inr ⟨?_, hanch⟩)
        intro p hp
        simp only [List.cons_append, List.cons.injEq] at hp
        exact hns p0 (by rw [hs, hp.1])

/-- The invariant survives an iteration that emits a component. -/
theorem scanInv_step_some (pos : Nat) (prev c : Char) (st : ScanState)
    (hinv : ScanInv pos prev st)
    (hsep : c = '/' → 2 ≤ pos → prev ≠ '/' ∧ prev ≠ '.') (Ty : FSPathComponentType)
    (hcl : FSPathFoundComponentTypeFromInputs c (st.first c) st.SlashCount st.DotCount
      st.CharacterCount = some Ty) :
    ScanInv (pos + 1) c (scanStepUnbounded c st) := by
  obtain ⟨hsl, hdt, hk, hsum, hlen, hlast, hIf, hId, hIk, hempty, hcase⟩ := hinv
  obtain ⟨comp, hf, hstep, hV, hR, hO⟩ := scanStep_some c st Ty hcl
  rw [hstep]
  have hb := bumpCounts_cases c 0 0 0
  have hlenI : (st.Start.length : Int) ≤ pos := by exact_mod_cast hlen
  refine ⟨?_, ?_, ?_, ?_, ?_, ?_, ?_, ?_, ?_, ?_, ?_⟩
  · rcases hb with ⟨-, e⟩ | ⟨-, -, e⟩ | ⟨-, -, e⟩ <;> simp only [e] <;> omega
  · rcases hb with ⟨-, e⟩ | ⟨-, -, e⟩ | ⟨-, -, e⟩ <;> simp only [e] <;> omega
  · rcases hb with ⟨-, e⟩ | ⟨-, -, e⟩ | ⟨-, -, e⟩ <;> simp only [e] <;> omega
  · rcases hb with ⟨-, e⟩ | ⟨-, -, e⟩ | ⟨-, -, e⟩ <;>
      simp only [e, List.length_singleton, Nat.cast_one] <;> omega
  · simp only [List.length_singleton]
    omega
  · intro _
    simp
  · intro a p hap h1 h2
    simp only [List.cons.injEq] at hap
    rcases hb with ⟨e0, e⟩ | ⟨-, e0, e⟩ | ⟨-, -, e⟩
    · exact absurd (hap.1 ▸ e0) h1
    · exact absurd (hap.1 ▸ e0) h2
    · simp only [e]; omega
  · intro a p hap h1 h2 hsl' _
    rcases hb with ⟨e0, e⟩ | ⟨-, e0, e⟩ | ⟨-, -, e⟩
    · exact e0
    · simp only [e] at hsl'
      exact absurd rfl hsl'
    · simp only [e] at hsl'
      exact absurd rfl hsl'
  · intro _ h1 h2
    rcases hb with ⟨e0, e⟩ | ⟨-, e0, e⟩ | ⟨-, -, e⟩
    · exact absurd e0 h1
    · exact absurd e0 h2
    · simp only [e]; omega
  · intro he
    simp at he
  · rcases hcase with ⟨p, hp, hc⟩ | ⟨hs, h1, h2, h3, hpos, v, hv⟩ | ⟨hns, hanch⟩
    · -- the span starts the input
      rw [first_cons st c '/' p hp] at hcl
      rw [hc, List.nil_append]
      rcases classify_first_slash c _ _ _ Ty hcl with ⟨hT, hs2, -, hk0⟩ | ⟨hT, hcs, -, -, -⟩
      · by_cases hcs : c = '/'
        · refine Or.inr (Or.inl ⟨by rw [hcs], ?_, ?_, ?_, by omega, comp.string, ?_⟩)
          · rcases hb with ⟨-, e⟩ | ⟨e0, -, -⟩ | ⟨e0, -, -⟩
            · simp only [e]; rfl
            · exact absurd hcs e0
            · exact absurd hcs e0
          · rcases hb with ⟨-, e⟩ | ⟨e0, -, -⟩ | ⟨e0, -, -⟩
            · simp only [e]
            · exact absurd hcs e0
            · exact absurd hcs e0
          · rcases hb with ⟨-, e⟩ | ⟨e0, -, -⟩ | ⟨e0, -, -⟩
            · simp only [e]
            · exact absurd hcs e0
            · exact absurd hcs e0
          · have ht := hV hT
            cases comp with
            | mk t str =>
              simp only at ht
              rw [ht]
        · refine Or.inr (Or.inr ⟨?_, anchored_single comp⟩)
          intro q hq
          simp only [List.cons.injEq] at hq
          exact hcs hq.1
      · refine Or.inr (Or.inr ⟨?_, anchored_single comp⟩)
        intro q hq
        simp only [List.cons.injEq] at hq
        exact hcs hq.1
    · -- the separator behind a volume
      rw [first_cons st c '/' [] hs, h1, h2, h3] at hcl
      rw [hv]
      rcases classify_first_slash c _ _ _ Ty hcl with ⟨-, hs2, -, -⟩ | ⟨hT, hcs, -, -, -⟩
      · exact absurd hs2 (by decide)
      · refine Or.inr (Or.inr ⟨?_, ?_⟩)
        · intro q hq
          simp only [List.cons.injEq] at hq
          exact hcs hq.1
        · have ht := hR hT
          exact anchored_volume_pair v comp (by rw [ht]; simp)
    · -- any other span
      cases hs : st.Start with
      | nil =>
        exfalso
        rw [hs] at hsum
        simp only [List.length_nil, Nat.cast_zero] at hsum
        have z1 : st.SlashCount = 0 := by omega
        have z2 : st.DotCount = 0 := by omega
        have z3 : st.CharacterCount = 0 := by omega
        rw [z1, z2, z3, classify_zero] at hcl
        exact absurd hcl (by simp)
      | cons a0 p0 =>
        have ha0 : a0 ≠ '/' := by
          intro e
          exact hns p0 (by rw [hs, e])
        rw [first_cons st c a0 p0 hs] at hcl
        obtain ⟨⟨hT1, hT2⟩, hwhy⟩ := classify_not_slash c a0 _ _ _ Ty ha0 hcl
        obtain ⟨hc1, hc2⟩ := hO hT1 hT2
        refine Or.inr (Or.inr ⟨?_, anchored_append _ comp hanch hc1 hc2⟩)
        intro q hq
        simp only [List.cons.injEq] at hq
        have hcs : c = '/' := hq.1
        have hne : st.Start ≠ [] := by rw [hs]; simp
        rw [hs] at hsum
        simp only [List.length_cons, Nat.cast_add, Nat.cast_one] at hsum
        rw [hs] at hlenI
        simp only [List.length_cons, Nat.cast_add, Nat.cast_one] at hlenI
        rcases hwhy with ⟨-, w1, w2, w3⟩ | hz | ⟨w0, w1, w2, w3⟩
        · have hpos : 2 ≤ pos := by omega
          obtain ⟨s1, s2⟩ := hsep hcs hpos
          have := hIk hne s1 s2
          omega
        · rcases hz with hz | hz
          · rw [hz] at hcs
            exact absurd hcs (by decide)
          · rw [hz] at hcs
            exact absurd hcs (by decide)
        · have hpos : 2 ≤ pos := by omega
          obtain ⟨s1, -⟩ := hsep hcs hpos
          exact s1 (hId a0 p0 hs ha0 w0 w1 w2)

theorem scanInv_step (pos : Nat) (prev c : Char) (st : ScanState) (hinv : ScanInv pos prev st)
    (hsep : c = '/' → 2 ≤ pos → prev ≠ '/' ∧ prev ≠ '.') :
    ScanInv (pos + 1) c (scanStepUnbounded c st) := by
  cases hcl : FSPathFoundComponentTypeFromInputs c (st.first c) st.SlashCount st.DotCount
      st.CharacterCount with
  | none => exact scanInv_step_none pos prev c st hinv hsep hcl
  | some Ty => exact scanInv_step_some pos prev c st hinv hsep Ty hcl

theorem scanInv_loop (s : List Char) (pos : Nat) (prev : Char) (st : ScanState)
    (hinv : ScanInv pos prev st) (hsep : sepOK pos prev s) :
    ∃ pos1 prev1, ScanInv pos1 prev1 (scanLoopUnbounded s st) := by
  induction s generalizing pos prev st with
  | nil => exact ⟨pos, prev, hinv⟩
  | cons c s ih =>
    unfold scanLoopUnbounded
    split_ifs
    · exact ⟨pos, prev, hinv⟩
    · exact ih (pos + 1) c _ (scanInv_step pos prev c st hinv hsep.1) hsep.2

theorem scanInv_init (prev : Char) : ScanInv 0 prev scanInit := by
  refine ⟨by simp [scanInit], by simp [scanInit], by simp [scanInit], by simp [scanInit],
    by simp [scanInit], ?_, ?_, ?_, ?_, ?_, ?_⟩
  · intro h; exact absurd rfl h
  · intro a p h; simp [scanInit] at h
  · intro a p h; simp [scanInit] at h
  · intro h; exact absurd rfl h
  · intro _; rfl
  · exact Or.inr (Or.inr ⟨by intro p h; simp [scanInit] at h, anchored_nil⟩)

theorem createComponent_type (Ty : FSPathComponentType) (String : List Char) (Length : Nat) :
    (FSPathCreateComponent Ty String Length).type = Ty := by
  cases Ty <;> rfl

theorem scanInv_flush (pos : Nat) (prev : Char) (st : ScanState) (hinv : ScanInv pos prev st) :
    Anchored (scanFlush st) := by
  obtain ⟨hsl, hdt, hk, hsum, hlen, hlast, hIf, hId, hIk, hempty, hcase⟩ := hinv
  unfold scanFlush
  cases hcl : FSPathFoundComponentTypeFromInputs '\x00' (st.first '\x00') st.SlashCount
      st.DotCount st.CharacterCount with
  | none =>
    simp only
    rcases hcase with ⟨p, -, hc⟩ | ⟨-, -, -, -, -, v, hv⟩ | ⟨-, hanch⟩
    · rw [hc]; exact anchored_nil
    · rw [hv]; exact anchored_single _
    · exact hanch
  | some Ty =>
    simp only
    have hty := createComponent_type Ty st.Start st.Start.length
    rcases hcase with ⟨p, hp, hc⟩ | ⟨hs, h1, h2, h3, -, v, hv⟩ | ⟨hns, hanch⟩
    · rw [hc]; exact anchored_single _
    · rw [first_cons st _ '/' [] hs, h1, h2, h3] at hcl
      rw [hv]
      rcases classify_first_slash _ _ _ _ Ty hcl with ⟨-, hs2, -, -⟩ | ⟨hT, -, -, -, -⟩
      · exact absurd hs2 (by decide)
      · exact anchored_volume_pair v _ (by rw [hty, hT]; simp)
    · cases hs : st.Start with
      | nil =>
        exfalso
        rw [hs] at hsum
        simp only [List.length_nil, Nat.cast_zero] at hsum
        have z1 : st.SlashCount = 0 := by omega
        have z2 : st.DotCount = 0 := by omega
        have z3 : st.CharacterCount = 0 := by omega
        rw [z1, z2, z3, classify_zero] at hcl
        exact absurd hcl (by simp)
      | cons a0 p0 =>
        have ha0 : a0 ≠ '/' := by
          intro e
          exact hns p0 (by rw [hs, e])
        rw [first_cons st _ a0 p0 hs] at hcl
        obtain ⟨⟨hT1, hT2⟩, -⟩ := classify_not_slash _ a0 _ _ _ Ty ha0 hcl
        rw [← hs]
        exact anchored_append _ _ hanch (by rw [hty]; exact hT1) (by rw [hty]; exact hT2)

theorem anchored_relativeRoot (first : FSPathComponent) (tail : List FSPathComponent)
    (h : Anchored (first :: tail)) (h1 : first.type ≠ .Volume) (h2 : first.type ≠ .Root) :
    Anchored (⟨.RelativeRoot, none⟩ :: first :: tail) := by
  have hnone : ∀ (j : Nat) (c : FSPathComponent), (first :: tail)[j]? = some c →
      c.type ≠ .Volume ∧ c.type ≠ .Root := by
    intro j c hj
    obtain ⟨hv, hr⟩ := h j c hj
    have h0 : j = 0 → c = first := by
      intro e
      rw [e] at hj
      simpa using hj.symm
    refine ⟨fun e => ?_, fun e => ?_⟩
    · exact h1 (h0 (hv e) ▸ e)
    · rcases hr e with e0 | ⟨-, v, hv0, hvt⟩
      · exact h2 (h0 e0 ▸ e)
      · simp only [List.getElem?_cons_zero, Option.some.injEq] at hv0
        exact h1 (hv0 ▸ hvt)
  intro i c hi
  cases i with
  | zero =>
    simp only [List.getElem?_cons_zero, Option.some.injEq] at hi
    exact ⟨fun _ => rfl, fun _ => Or.inl rfl⟩
  | succ j =>
    simp only [List.getElem?_cons_succ] at hi
    obtain ⟨n1, n2⟩ := hnone j c hi
    exact ⟨fun e => absurd e n1, fun e => absurd e n2⟩

theorem convert_anchored (s : List Char) (CompletePath : Bool) (h : SeparatorsFollowNames s) :
    Anchored (FSPathConvertPathToComponentsUnbounded s CompletePath) := by
  have hsep : sepOK 0 'x' s := by
    have := sepOK_of_follow s [] 'x' (by simpa using h) (by simp)
    simpa using this
  obtain ⟨pos1, prev1, hinv⟩ := scanInv_loop s 0 'x' scanInit (scanInv_init 'x') hsep
  have hfl := scanInv_flush pos1 prev1 _ hinv
  unfold FSPathConvertPathToComponentsUnbounded
  cases hc : scanFlush (scanLoopUnbounded s scanInit) with
  | nil =>
    cases CompletePath <;> exact anchored_nil
  | cons first tail =>
    rw [hc] at hfl
    cases CompletePath with
    | false => exact hfl
    | true =>
      simp only
      split_ifs with hcond
      · exact anchored_relativeRoot first tail hfl hcond.1 hcond.2
      · exact hfl

theorem anchored_count_volume (cs : List FSPathComponent) (h : Anchored cs) :
    cs.countP (fun c => decide (c.type = .Volume)) ≤ 1 := by
  cases cs with
  | nil => simp
  | cons a t =>
    have ht : t.countP (fun c => decide (c.type = .Volume)) = 0 := by
      rw [List.countP_eq_zero]
      intro x hx
      obtain ⟨j, hj⟩ := List.mem_iff_getElem?.1 hx
      have := (h (j + 1) x (by simpa using hj)).1
      simp only [decide_eq_true_eq]
      intro e
      exact absurd (this e) (by omega)
    rw [List.countP_cons, ht]
    split_ifs <;> simp

theorem anchored_count_root (cs : List FSPathComponent) (h : Anchored cs) :
    cs.countP (fun c => decide (c.type = .Root)) ≤ 1 := by
  match cs, h with
  | [], _ => simp
  | [a], _ =>
    rw [List.countP_cons]
    split_ifs <;> simp
  | a :: b :: t, h =>
    have ht : t.countP (fun c => decide (c.type = .Root)) = 0 := by
      rw [List.countP_eq_zero]
      intro x hx
      obtain ⟨j, hj⟩ := List.mem_iff_getElem?.1 hx
      have := (h (j + 2) x (by simpa using hj)).2
      simp only [decide_eq_true_eq]
      intro e
      rcases this e with e0 | ⟨e1, -⟩
      · omega
      · omega
    rw [List.countP_cons, List.countP_cons, ht]
    by_cases hb : b.type = .Root
    · obtain ⟨-, hr⟩ := h 1 b (by simp)
      rcases hr hb with e0 | ⟨-, v, hv0, hvt⟩
      · omega
      · simp only [List.getElem?_cons_zero, Option.some.injEq] at hv0
        have ha : a.type ≠ .Root := by
          rw [hv0, hvt]; simp
        simp [hb, ha]
    · simp only [hb, decide_False, Bool.false_eq_true, if_false]
      split_ifs <;> simp

theorem classify_range (c a : Char) (sl dt k : Int) (Ty : FSPathComponentType)
    (h : FSPathFoundComponentTypeFromInputs c a sl dt k = some Ty) :
    Ty ≠ .RelativeRoot ∧ Ty ≠ .Invalid := by
  unfold FSPathFoundComponentTypeFromInputs at h
  split_ifs at h
  all_goals first
    | (simp at h; done)
    | (simp only [Option.some.injEq] at h
       subst h
       exact ⟨by simp, by simp⟩)

theorem scanStep_noRelativeRoot (c : Char) (st : ScanState)
    (h : ∀ x ∈ st.Components, x.type ≠ .RelativeRoot) :
    ∀ x ∈ (scanStep c st).Components, x.type ≠ .RelativeRoot := by
  cases hcl : FSPathFoundComponentTypeFromInputs c (st.first c) st.SlashCount st.DotCount
      st.CharacterCount with
  | none =>
    have hcomp : (scanStep c st).Components = st.Components := by
      unfold scanStep
      simp only [hcl]
      split_ifs <;> rfl
    rw [hcomp]
    exact h
  | some Ty =>
    obtain ⟨hT, -⟩ := classify_range _ _ _ _ _ Ty hcl
    intro x hx
    have hcomp : (scanStep c st).Components = st.Components ++
        [FSPathCreateComponent
          (if !st.HasFile then
            if Ty = .File then (Ty, true)
            else if Ty = .Extension then (.File, true)
            else (Ty, st.HasFile)
          else (Ty, st.HasFile)).1 st.Start st.Start.length] := by
      unfold scanStep
      simp only [hcl]
      split_ifs <;> rfl
    rw [hcomp] at hx
    rcases List.mem_append.1 hx with hx | hx
    · exact h x hx
    · simp only [List.mem_singleton] at hx
      rw [hx, createComponent_type]
      cases st.HasFile
      · simp only [Bool.not_false, if_true]
        split_ifs <;> simp [hT]
      · simpa using hT

theorem scanLoop_noRelativeRoot (s : List Char) (st : ScanState)
    (h : ∀ x ∈ st.Components, x.type ≠ .RelativeRoot) :
    ∀ x ∈ (scanLoop s st).Components, x.type ≠ .RelativeRoot := by
  induction s generalizing st with
  | nil => simpa [scanLoop] using h
  | cons c s ih =>
    unfold scanLoop
    split_ifs
    · exact h
    · exact ih _ (scanStep_noRelativeRoot c st h)

theorem scanFlush_noRelativeRoot (st : ScanState)
    (h : ∀ x ∈ st.Components, x.type ≠ .RelativeRoot) :
    ∀ x ∈ scanFlush st, x.type ≠ .RelativeRoot := by
  unfold scanFlush
  cases hcl : FSPathFoundComponentTypeFromInputs '\x00' (st.first '\x00') st.SlashCount
      st.DotCount st.CharacterCount with
  | none => exact h
  | some Ty =>
    obtain ⟨hT, -⟩ := classify_range _ _ _ _ _ Ty hcl
    intro x hx
    rcases List.mem_append.1 hx with hx | hx
    · exact h x hx
    · simp only [List.mem_singleton] at hx
      rw [hx, createComponent_type]
      exact hT

theorem convert_false_noRelativeRoot (s : List Char) :
    ∀ x ∈ FSPathConvertPathToComponents s false, x.type ≠ .RelativeRoot := by
  have hc : FSPathConvertPathToComponents s false = scanFlush (scanLoop s scanInit) := by
    unfold FSPathConvertPathToComponents
    simp
  rw [hc]
  apply scanFlush_noRelativeRoot
  apply scanLoop_noRelativeRoot
  intro x hx
  simp [scanInit] at hx

theorem convert_true_eq (s : List Char) :
    FSPathConvertPathToComponents s true
      = (match FSPathConvertPathToComponents s false with
        | [] => []
        | first :: tail =>
          if first.type = .Volume ∨ first.type = .Root then first :: tail
          else ⟨.RelativeRoot, none⟩ :: first :: tail) := by
  have hc : FSPathConvertPathToComponents s false = scanFlush (scanLoop s scanInit) := by
    unfold FSPathConvertPathToComponents
    simp
  rw [hc]
  unfold FSPathConvertPathToComponents
  cases scanFlush (scanLoop s scanInit) with
  | nil => rfl
  | cons first tail =>
    simp only [FSPathComponentGetType, FSPathComponentCreate]
    by_cases h1 : first.type = .Volume
    · simp [h1]
    · by_cases h2 : first.type = .Root
      · simp [h2]
      · simp [h1, h2]

/-- C11: with `c = FSPathConvertPathToComponents(s, FALSE)`, no component of `c` is a
`RelativeRoot`, and `FSPathConvertPathToComponents(s, TRUE)` is `c` when `c` is empty or starts
with a `Volume` or `Root`, and `RelativeRoot` followed by `c` otherwise. -/
theorem C11_completePath (s : List Char) :
    (∀ x ∈ FSPathConvertPathToComponents s false, x.type ≠ .RelativeRoot)
    ∧ FSPathConvertPathToComponents s true
        = (match FSPathConvertPathToComponents s false with
          | [] => []
          | first :: tail =>
            if first.type = .Volume ∨ first.type = .Root then first :: tail
            else ⟨.RelativeRoot, none⟩ :: first :: tail) :=
  ⟨convert_false_noRelativeRoot s, convert_true_eq s⟩

/-! ## Claim C12: parent-directory segments -/

theorem scanStep_dot_dot (hf : Bool) (cs : List FSPathComponent) :
    scanStepUnbounded '.' ⟨['.'], 0, 1, 0, hf, cs⟩ = ⟨['.', '.'], 0, 2, 0, hf, cs⟩ := by
  simp [scanStepUnbounded, ScanState.first, FSPathFoundComponentTypeFromInputs]

theorem scanStep_dotdot_slash (hf : Bool) (cs : List FSPathComponent) :
    scanStepUnbounded '/' ⟨['.', '.'], 0, 2, 0, hf, cs⟩ = ⟨['.', '.', '/'], 1, 2, 0, hf, cs⟩ := by
  simp [scanStepUnbounded, ScanState.first, FSPathFoundComponentTypeFromInputs]

theorem scanStep_parent_dot (hf : Bool) (cs : List FSPathComponent) :
    scanStepUnbounded '.' ⟨['.', '.', '/'], 1, 2, 0, hf, cs⟩
      = ⟨['.'], 0, 1, 0, hf, cs ++ [⟨.RelativeParentDirectory, none⟩]⟩ := by
  cases hf <;>
  simp [scanStepUnbounded, ScanState.first, FSPathFoundComponentTypeFromInputs, FSPathCreateComponent,
    FSPathComponentCreate]

theorem scanStep_parent_plain (a : Char) (ha : IsPlain a) (hf : Bool)
    (cs : List FSPathComponent) :
    scanStepUnbounded a ⟨['.', '.', '/'], 1, 2, 0, hf, cs⟩
      = ⟨[a], 0, 0, 1, hf, cs ++ [⟨.RelativeParentDirectory, none⟩]⟩ := by
  obtain ⟨h1, h2, -⟩ := ha
  cases hf <;>
  simp [scanStepUnbounded, ScanState.first, FSPathFoundComponentTypeFromInputs, FSPathCreateComponent,
    FSPathComponentCreate, h1, h2]

/-- From a pending `"../"`, the loop over `k` further copies of `"../"` and the name `f` emits
`k + 1` parent directories and leaves `f` pending. -/
theorem scanLoop_parents (k : Nat) (f : List Char) (hfn : IsName f) (hf : Bool)
    (cs : List FSPathComponent) :
    scanLoopUnbounded (parentsText k ++ f) ⟨['.', '.', '/'], 1, 2, 0, hf, cs⟩
      = ⟨f, 0, 0, f.length, hf,
          cs ++ List.replicate (k + 1) (⟨.RelativeParentDirectory, none⟩ : FSPathComponent)⟩ := by
  have hdot : ('.' : Char) ≠ '\x00' := by decide
  have hslash : ('/' : Char) ≠ '\x00' := by decide
  induction k generalizing cs with
  | zero =>
    obtain ⟨hne, hpl⟩ := hfn
    cases f with
    | nil => exact absurd rfl hne
    | cons a f =>
      have ha : IsPlain a := hpl a (by simp)
      have hrest : ∀ c ∈ f, IsPlain c := fun c hc => hpl c (by simp [hc])
      simp only [parentsText, List.nil_append]
      rw [scanLoop_cons _ _ _ ha.2.2, scanStep_parent_plain a ha,
        scanLoop_plain f hrest a [] 0 0 1 hf _ (staysPending_name a ha)]
      simp
      omega
  | succ k ih =>
    have e1 : parentsText (k + 1) ++ f = '.' :: '.' :: '/' :: (parentsText k ++ f) := rfl
    rw [e1, scanLoop_cons _ _ _ hdot, scanStep_parent_dot, scanLoop_cons _ _ _ hdot,
      scanStep_dot_dot, scanLoop_cons _ _ _ hslash, scanStep_dotdot_slash, ih]
    simp [List.replicate_succ]

theorem scanLoop_init_plain (f : List Char) (hfn : IsName f) :
    scanLoopUnbounded f scanInit = ⟨f, 0, 0, f.length, false, []⟩ := by
  obtain ⟨hne, hpl⟩ := hfn
  cases f with
  | nil => exact absurd rfl hne
  | cons a f =>
    have ha : IsPlain a := hpl a (by simp)
    have hrest : ∀ c ∈ f, IsPlain c := fun c hc => hpl c (by simp [hc])
    have hstep : scanStepUnbounded a scanInit = ⟨[a], 0, 0, 1, false, []⟩ := by
      obtain ⟨h1, h2, -⟩ := ha
      simp [scanStepUnbounded, scanInit, ScanState.first, FSPathFoundComponentTypeFromInputs, h1, h2]
    rw [scanLoop_cons _ _ _ ha.2.2, hstep,
      scanLoop_plain f hrest a [] 0 0 1 false _ (staysPending_name a ha)]
    simp
    omega

theorem convert_parents (k : Nat) (f : List Char) (hfn : IsName f) :
    FSPathConvertPathToComponentsUnbounded (parentsText k ++ f) false
      = List.replicate k (⟨.RelativeParentDirectory, none⟩ : FSPathComponent)
          ++ [⟨.File, some f⟩] := by
  have hdot : ('.' : Char) ≠ '\x00' := by decide
  have hslash : ('/' : Char) ≠ '\x00' := by decide
  have hscan : scanFlush (scanLoopUnbounded (parentsText k ++ f) scanInit)
      = List.replicate k (⟨.RelativeParentDirectory, none⟩ : FSPathComponent)
          ++ [⟨.File, some f⟩] := by
    cases k with
    | zero =>
      simp only [parentsText, List.nil_append, List.replicate_zero]
      rw [scanLoop_init_plain f hfn, scanFlush_name f hfn]
      rfl
    | succ k =>
      have e1 : parentsText (k + 1) ++ f = '.' :: '.' :: '/' :: (parentsText k ++ f) := rfl
      rw [e1, scanInit, scanLoop_cons _ _ _ hdot, scanStep_init_dot, scanLoop_cons _ _ _ hdot,
        scanStep_dot_dot, scanLoop_cons _ _ _ hslash, scanStep_dotdot_slash,
        scanLoop_parents k f hfn, scanFlush_name f hfn]
      simp
  unfold FSPathConvertPathToComponentsUnbounded
  simp only [hscan]

/-- The scan of `"../" f` for a name `f` of `n + 1` copies of `a` whose `int` count is 0: the
tokenizer returns the one `RelativeParentDirectory` and no `File`. -/
theorem parents_run (n : Nat) (h0 : wrapInt32 (1 + n) = 0) :
    FSPathConvertPathToComponents (parentsText 1 ++ ('a' :: List.replicate n 'a')) false
        = [⟨.RelativeParentDirectory, none⟩]
    ∧ FSPathConvertPathToComponents (parentsText 1 ++ ('a' :: List.replicate n 'a')) false
        ≠ List.replicate 1 (⟨.RelativeParentDirectory, none⟩ : FSPathComponent)
            ++ [⟨.File, some ('a' :: List.replicate n 'a')⟩] := by
  have hne : ∀ f : List Char, ([⟨.RelativeParentDirectory, none⟩] : List FSPathComponent)
      ≠ List.replicate 1 (⟨.RelativeParentDirectory, none⟩ : FSPathComponent)
          ++ [⟨.File, some f⟩] := by
    intro f
    simp
  have hc : FSPathConvertPathToComponents (parentsText 1 ++ ('a' :: List.replicate n 'a')) false
      = [⟨.RelativeParentDirectory, none⟩] :=
    (convert_of_flush (parentsText 1 ++ ('a' :: List.replicate n 'a')) false
      [⟨.RelativeParentDirectory, none⟩] (flush_parent_run n h0)).trans rfl
  refine ⟨hc, ?_⟩
  rw [hc]
  exact hne _

/-- C12, as stated, fails: the name `f` of 4294967296 copies of `a` is non-empty and holds no
`'/'` and no `'.'`, yet for `"../" f` the `int` count of its characters is back at 0 when the
input ends, so no `File` is made: the tokenizer returns the `RelativeParentDirectory` alone. -/
theorem C12_counterexample :
    IsName overlongName
    ∧ FSPathConvertPathToComponents (parentsText 1 ++ overlongName) false
        = [⟨.RelativeParentDirectory, none⟩]
    ∧ FSPathConvertPathToComponents (parentsText 1 ++ overlongName) false
        ≠ List.replicate 1 (⟨.RelativeParentDirectory, none⟩ : FSPathComponent)
            ++ [⟨.File, some overlongName⟩] :=
  ⟨overlongName_isName, parents_run 4294967295 wrapInt32_overlong⟩

/-- C12, amended: for every `k` and every name `f` with `k` copies of `"../"` followed by `f`
of at most 2147483647 (`INT_MAX`) characters, that input, parsed with `CompletePath = FALSE`,
gives exactly `k` `RelativeParentDirectory` components followed by `File(f)`, with no
`RelativeRoot`. -/
theorem C12_parentDirectories (k : Nat) (f : List Char) (hfn : IsName f)
    (hlen : FitsInt (parentsText k ++ f)) :
    FSPathConvertPathToComponents (parentsText k ++ f) false
      = List.replicate k (⟨.RelativeParentDirectory, none⟩ : FSPathComponent)
          ++ [⟨.File, some f⟩] := by
  rw [convert_eq_unbounded _ _ hlen]
  exact convert_parents k f hfn

/-- C12 (amended) at `"../../file"`. -/
theorem C12_parentDirectories_witness :
    IsName "file".toList ∧ FitsInt (parentsText 2 ++ "file".toList)
    ∧ FSPathConvertPathToComponents "../../file".toList false
      = [⟨.RelativeParentDirectory, none⟩, ⟨.RelativeParentDirectory, none⟩,
          ⟨.File, some "file".toList⟩] :=
  ⟨by decide, by decide, C12_parentDirectories 2 "file".toList (by decide) (by decide)⟩

/-! ## Claim C13: the current-path singleton -/

/-- C13 at the singleton `//Disk/`: every operation fails its check, and `FSPathDestroy`, which
checks first, leaves the components alone; but each of the six mutating operations changes the
collection before `FSPathMutated` makes the check, so the state that reaches the failed check
holds the new component sequence. -/
theorem C13_singleton_changed_before_check :
    FSPathDestroy true ⟨[⟨.Volume, some ['D']⟩, ⟨.Root, none⟩], none, none, none, 0⟩
      = .assertFailed ⟨[⟨.Volume, some ['D']⟩, ⟨.Root, none⟩], none, none, none, 0⟩
    ∧ FSPathAppendComponent true ⟨[⟨.Volume, some ['D']⟩, ⟨.Root, none⟩], none, none, none, 0⟩
        ⟨.Directory, some ['x']⟩
      = .assertFailed
          ⟨[⟨.Volume, some ['D']⟩, ⟨.Root, none⟩, ⟨.Directory, some ['x']⟩], none, none, none, 0⟩
    ∧ FSPathPrependComponent true ⟨[⟨.Volume, some ['D']⟩, ⟨.Root, none⟩], none, none, none, 0⟩
        ⟨.Directory, some ['x']⟩
      = .assertFailed
          ⟨[⟨.Directory, some ['x']⟩, ⟨.Volume, some ['D']⟩, ⟨.Root, none⟩], none, none, none, 0⟩
    ∧ FSPathSetComponentAtIndex true
        ⟨[⟨.Volume, some ['D']⟩, ⟨.Root, none⟩], none, none, none, 0⟩
        ⟨.Directory, some ['x']⟩ 1
      = .assertFailed
          ⟨[⟨.Volume, some ['D']⟩, ⟨.Directory, some ['x']⟩], none, none, none, 0⟩
    ∧ FSPathInsertComponentAtIndex true
        ⟨[⟨.Volume, some ['D']⟩, ⟨.Root, none⟩], none, none, none, 0⟩
        ⟨.Directory, some ['x']⟩ 1
      = .assertFailed
          ⟨[⟨.Volume, some ['D']⟩, ⟨.Directory, some ['x']⟩, ⟨.Root, none⟩], none, none, none, 0⟩
    ∧ FSPathRemoveComponentIndex true
        ⟨[⟨.Volume, some ['D']⟩, ⟨.Root, none⟩], none, none, none, 0⟩ 0
      = .assertFailed ⟨[⟨.Root, none⟩], none, none, none, 0⟩
    ∧ FSPathRemoveComponentLast true
        ⟨[⟨.Volume, some ['D']⟩, ⟨.Root, none⟩], none, none, none, 0⟩
      = .assertFailed ⟨[⟨.Volume, some ['D']⟩], none, none, none, 0⟩ := by
  decide

/-! ## Claim C14: the volume lookup -/

theorem getVolumeRec_current (Current : List FSPathComponent) (fuel : Nat) :
    FSPathGetVolumeRec Current (fuel + 1) true Current = FSPathGetVolume Current true Current := by
  cases Current with
  | nil => rfl
  | cons Component tail =>
    simp only [FSPathGetVolumeRec, FSPathGetVolume]
    split_ifs <;> simp_all

theorem getVolumeRec_eq (Current : List FSPathComponent) (fuel : Nat) (isCurrent : Bool)
    (Path : List FSPathComponent) (hcur : isCurrent = true → Path = Current) :
    FSPathGetVolumeRec Current (fuel + 2) isCurrent Path
      = FSPathGetVolume Current isCurrent Path := by
  cases isCurrent with
  | true =>
    rw [hcur rfl]
    exact getVolumeRec_current Current (fuel + 1)
  | false =>
    cases Path with
    | nil => rfl
    | cons Component tail =>
      rw [FSPathGetVolumeRec, getVolumeRec_current]
      cases Current with
      | nil =>
        simp only [FSPathGetVolume]
      | cons CurrentComponent ctail =>
        simp only [FSPathGetVolume]
        split_ifs <;> simp_all

/-- C14: for a path `first :: tail` and a current path `cfirst :: ctail`, `FSPathGetVolume`
returns `first` when it is a `Volume`; otherwise, for a path other than the current one, what
`FSPathGetVolume` returns on the current path; otherwise (on the current path itself) the
`Invalid` component.  It always returns, and the recursive function does so within two calls. -/
theorem C14_getVolume (first : FSPathComponent) (tail : List FSPathComponent)
    (cfirst : FSPathComponent) (ctail : List FSPathComponent) :
    (first.type = .Volume →
      ∀ isCurrent, FSPathGetVolume (cfirst :: ctail) isCurrent (first :: tail) = some first)
    ∧ (first.type ≠ .Volume →
        FSPathGetVolume (cfirst :: ctail) false (first :: tail)
          = FSPathGetVolume (cfirst :: ctail) true (cfirst :: ctail))
    ∧ (cfirst.type ≠ .Volume →
        FSPathGetVolume (cfirst :: ctail) true (cfirst :: ctail) = some FSPathComponentInvalid)
    ∧ (∀ isCurrent, (FSPathGetVolume (cfirst :: ctail) isCurrent (first :: tail)).isSome = true)
    ∧ (∀ fuel, FSPathGetVolumeRec (cfirst :: ctail) (fuel + 2) false (first :: tail)
          = FSPathGetVolume (cfirst :: ctail) false (first :: tail))
    ∧ (∀ fuel, FSPathGetVolumeRec (cfirst :: ctail) (fuel + 1) true (cfirst :: ctail)
          = FSPathGetVolume (cfirst :: ctail) true (cfirst :: ctail)) := by
  refine ⟨?_, ?_, ?_, ?_, ?_, ?_⟩
  · intro h isCurrent
    simp [FSPathGetVolume, FSPathComponentGetType, h]
  · intro h
    simp only [FSPathGetVolume, FSPathComponentGetType, h, if_false, Bool.not_false, if_true,
      Bool.not_true, Bool.false_eq_true]
  · intro h
    simp [FSPathGetVolume, FSPathComponentGetType, h]
  · intro isCurrent
    simp only [FSPathGetVolume]
    cases isCurrent <;> split_ifs <;> simp
  · intro fuel
    exact getVolumeRec_eq _ fuel false _ (by simp)
  · intro fuel
    exact getVolumeRec_current _ fuel

/-! ## Claim C15: `FSPathIsRelativePath` on a created path -/

/-- C15: when the first component of `FSPathCreate(s)` is a `RelativeRoot`,
`FSPathIsRelativePath(FSPathCreate(s))` returns false: it tests the last component, and the
`RelativeRoot` stands in front of at least one component the tokenizer produced, none of which
is a `RelativeRoot`. -/
theorem C15_isRelativePath_false (s : List Char)
    (h : ∃ first tail, (FSPathCreate s).components = first :: tail
      ∧ first.type = .RelativeRoot) :
    FSPathIsRelativePath (FSPathCreate s) = some false := by
  obtain ⟨first, tail, hcs, hty⟩ := h
  have hno := convert_false_noRelativeRoot s
  have heq := convert_true_eq s
  simp only [FSPathCreate] at hcs
  simp only [FSPathIsRelativePath, FSPathCreate]
  cases hc : FSPathConvertPathToComponents s false with
  | nil =>
    rw [hc] at heq
    rw [heq] at hcs
    exact absurd hcs (by simp)
  | cons c0 ctail =>
    rw [hc] at heq hno
    have hlast : ∀ y, (c0 :: ctail).getLast? = some y → y.type ≠ .RelativeRoot := by
      intro y hy
      exact hno y (List.mem_of_getLast?_eq_some hy)
    by_cases hanchor : c0.type = .Volume ∨ c0.type = .Root
    · simp only [hanchor, if_true] at heq
      rw [heq] at hcs
      simp only [List.cons.injEq] at hcs
      rw [← hcs.1] at hty
      exact absurd hty (hno c0 (by simp))
    · simp only [hanchor, if_false] at heq
      rw [heq]
      cases hl : (c0 :: ctail).getLast? with
      | none => simp at hl
      | some y =>
        have hl2 : (⟨.RelativeRoot, none⟩ :: c0 :: ctail : List FSPathComponent).getLast?
            = some y := by
          rw [List.getLast?_cons_cons]
          exact hl
        rw [hl2]
        simp [FSPathComponentGetType, hlast y hl]

/-- C15 at `"a/b"`, which is created as `[RelativeRoot, Directory("a"), File("b")]`. -/
theorem C15_isRelativePath_false_witness :
    (∃ first tail, (FSPathCreate ['a', '/', 'b']).components = first :: tail
      ∧ first.type = .RelativeRoot)
    ∧ FSPathIsRelativePath (FSPathCreate ['a', '/', 'b']) = some false :=
  ⟨⟨⟨.RelativeRoot, none⟩, [⟨.Directory, some ['a']⟩, ⟨.File, some ['b']⟩], by decide, rfl⟩,
    C15_isRelativePath_false ['a', '/', 'b']
      ⟨⟨.RelativeRoot, none⟩, [⟨.Directory, some ['a']⟩, ⟨.File, some ['b']⟩], by decide, rfl⟩⟩

/-! ## Claims C16 and C17: what the first pass measures and the second pass writes -/

theorem step_relation (CurrentFull : Option (Option (List Char))) (c : FSPathComponent)
    (hconv : TextConvention c) (m m1 : MeasureState) (r r1 : RenderState)
    (hm : measureComponent CurrentFull m c = some m1)
    (hr : renderComponent CurrentFull r c = some r1) :
    m1.Length + r.buffer.length
      = m.Length + r1.buffer.length + (if c.type = .Root then 1 else 0) := by
  obtain ⟨ty, str⟩ := c
  cases ty <;> cases str <;>
    simp only [TextConvention, ne_eq, not_true_eq_false, reduceCtorEq] at hconv <;>
    simp only [measureComponent, renderComponent, FSPathComponentGetType,
      FSPathComponentGetString, Option.some.injEq, reduceCtorEq] at hm hr
  all_goals first
    | (subst hm; subst hr
       simp only [List.length_append, List.length_cons, List.length_nil, reduceCtorEq,
         if_true, if_false]
       omega)
    | (cases CurrentFull with
       | none => simp at hm
       | some full =>
         cases full with
         | none => simp at hm
         | some text =>
           simp only [Option.some.injEq] at hm hr
           subst hm; subst hr
           simp only [List.length_append, reduceCtorEq, if_false]
           omega)

theorem pass_relation (CurrentFull : Option (Option (List Char))) (cs : List FSPathComponent)
    (hconv : ∀ c ∈ cs, TextConvention c) (m m1 : MeasureState) (r r1 : RenderState)
    (hm : measurePass CurrentFull cs m = some m1) (hr : renderPass CurrentFull cs r = some r1) :
    m1.Length + r.buffer.length = m.Length + r1.buffer.length + countRoot cs := by
  induction cs generalizing m r with
  | nil =>
    simp only [measurePass, renderPass, Option.some.injEq] at hm hr
    subst hm; subst hr
    simp [countRoot]
  | cons c cs ih =>
    simp only [measurePass, renderPass] at hm hr
    cases hmc : measureComponent CurrentFull m c with
    | none => rw [hmc] at hm; simp at hm
    | some m2 =>
      cases hrc : renderComponent CurrentFull r c with
      | none => rw [hrc] at hr; simp at hr
      | some r2 =>
        rw [hmc] at hm
        rw [hrc] at hr
        simp only at hm hr
        have h1 := step_relation CurrentFull c (hconv c (by simp)) m m2 r r2 hmc hrc
        have h2 := ih (fun x hx => hconv x (by simp [hx])) m2 r2 hm hr
        have h3 : countRoot (c :: cs) = countRoot cs + (if c.type = .Root then 1 else 0) := by
          simp only [countRoot, List.countP_cons]
          split_ifs <;> simp_all
        omega

/-- What a build that leaves a buffer has done: the first pass measured a non-zero length, and
the second pass started behind the implicit volume exactly when `RequiresVolume` was left
set. -/
theorem build_inversion (CurrentFull : Option (Option (List Char)))
    (PathVolume : Option FSPathComponent) (Path Built : FSPathInfo) (b : CacheBuffer)
    (hb : FSPathCreatePathStringCacheWith CurrentFull PathVolume Path = some Built)
    (hbuf : Built.completeRep = some b) :
    ∃ m r pr fr, measurePass CurrentFull Path.components ⟨true, 0⟩ = some m ∧ m.Length ≠ 0
      ∧ ((m.RequiresVolume = true ∧ ∃ V text, PathVolume = some V
            ∧ FSPathComponentGetString V = some text
            ∧ renderPass CurrentFull Path.components ⟨'/' :: '/' :: text, pr, fr⟩ = some r
            ∧ b = ⟨m.Length + (2 + text.length) + 1, r.buffer⟩)
        ∨ (m.RequiresVolume = false
            ∧ renderPass CurrentFull Path.components ⟨[], pr, fr⟩ = some r
            ∧ b = ⟨m.Length + 1, r.buffer⟩)) := by
  unfold FSPathCreatePathStringCacheWith at hb
  simp only at hb
  have hcomp : (if Path.completeRep.isSome = true then FSPathClearPathStringCache Path
      else Path).components = Path.components := by
    split_ifs <;> rfl
  rw [hcomp] at hb
  cases hm : measurePass CurrentFull Path.components ⟨true, 0⟩ with
  | none => rw [hm] at hb; simp at hb
  | some m =>
    rw [hm] at hb
    simp only at hb
    by_cases hlen : m.Length = 0
    · exfalso
      simp only [hlen, ne_eq, not_true_eq_false, if_false, Option.some.injEq] at hb
      rw [← hb] at hbuf
      split_ifs at hbuf with hc
      · simp [FSPathClearPathStringCache] at hbuf
      · rw [hbuf] at hc
        simp at hc
    · simp only [hlen, ne_eq, not_false_eq_true, if_true] at hb
      refine ⟨m, ?_⟩
      by_cases hrv : m.RequiresVolume = true
      · simp only [hrv, if_true] at hb
        cases PathVolume with
        | none => simp at hb
        | some V =>
          simp only at hb
          cases hg : FSPathComponentGetString V with
          | none => rw [hg] at hb; simp at hb
          | some text =>
            rw [hg] at hb
            simp only at hb
            split at hb
            · simp at hb
            · rename_i rendered hr
              simp only [Option.some.injEq] at hb
              rw [← hb] at hbuf
              simp only [Option.some.injEq] at hbuf
              exact ⟨rendered, _, _, rfl, hlen, Or.inl ⟨hrv, V, text, rfl, hg, hr, hbuf.symm⟩⟩
      · simp only [hrv, Bool.false_eq_true, if_false] at hb
        split at hb
        · simp at hb
        · rename_i rendered hr
          simp only [Option.some.injEq] at hb
          rw [← hb] at hbuf
          simp only [Option.some.injEq] at hbuf
          exact ⟨rendered, _, _, rfl, hlen,
            Or.inr ⟨by simpa using hrv, hr, hbuf.symm⟩⟩

theorem measured_vs_written (CurrentFull : Option (Option (List Char)))
    (PathVolume : Option FSPathComponent) (Path Built : FSPathInfo) (b : CacheBuffer)
    (hconv : ∀ c ∈ Path.components, TextConvention c)
    (hb : FSPathCreatePathStringCacheWith CurrentFull PathVolume Path = some Built)
    (hbuf : Built.completeRep = some b) :
    b.size = b.text.length + 1 + countRoot Path.components := by
  obtain ⟨m, r, pr, fr, hm, -, hcase⟩ := build_inversion _ _ _ _ _ hb hbuf
  rcases hcase with ⟨-, V, text, -, -, hr, hbeq⟩ | ⟨-, hr, hbeq⟩
  · have h := pass_relation CurrentFull _ hconv _ _ _ _ hm hr
    rw [hbeq]
    simp only [List.length_cons] at h ⊢
    omega
  · have h := pass_relation CurrentFull _ hconv _ _ _ _ hm hr
    rw [hbeq]
    simp only [List.length_nil] at h ⊢
    omega

/-- C16, as stated, fails: for the components `[Volume("v"), Root, File("f")]` of `"//v/f"` the
first pass measures 6 (a buffer of 7 bytes) while the second pass writes the 5 characters
`"//v/f"`. -/
theorem C16_counterexample :
    ∃ Built b,
      FSPathCreatePathStringCache [] false
          (FSPathFresh [⟨.Volume, some ['v']⟩, ⟨.Root, none⟩, ⟨.File, some ['f']⟩]) = some Built
      ∧ Built.completeRep = some b ∧ b.size = 6 + 1 ∧ b.text = ['/', '/', 'v', '/', 'f']
      ∧ b.text.length = 5 :=
  ⟨⟨[⟨.Volume, some ['v']⟩, ⟨.Root, none⟩, ⟨.File, some ['f']⟩],
      some ⟨7, ['/', '/', 'v', '/', 'f']⟩, some 4, some 0, 1⟩,
    ⟨7, ['/', '/', 'v', '/', 'f']⟩, by decide, rfl, rfl, rfl, rfl⟩

/-- C16, amended: for every component sequence in which `Volume`, `Directory`, `File` and
`Extension` components carry text and the other types carry none, and for every current path,
whenever `FSPathCreatePathStringCache` leaves a buffer, the length measured by the first pass
(the buffer size less the terminator) is the number of characters the second pass writes plus
the number of `Root` components: a `Root` is measured as 2 and written as the one character
`"/"`.  So the buffer is filled exactly when the sequence holds no `Root`, and is never
overrun. -/
theorem C16_measured_length (Current : List FSPathComponent) (isCurrent : Bool)
    (Path Built : FSPathInfo) (b : CacheBuffer)
    (hconv : ∀ c ∈ Path.components, TextConvention c)
    (hb : FSPathCreatePathStringCache Current isCurrent Path = some Built)
    (hbuf : Built.completeRep = some b) :
    b.size = (b.text.length + countRoot Path.components) + 1
    ∧ (countRoot Path.components = 0 → b.size = b.text.length + 1)
    ∧ b.text.length + 1 ≤ b.size := by
  have h := measured_vs_written _ _ Path Built b hconv hb hbuf
  refine ⟨by omega, fun h0 => by omega, by omega⟩

/-- C16 (amended) at the components of `"//v/f"`, where one `Root` makes the measure exceed the
text by one. -/
theorem C16_measured_length_witness :
    (∀ c ∈ (FSPathFresh [⟨.Volume, some ['v']⟩, ⟨.Root, none⟩, ⟨.File, some ['f']⟩]).components,
        TextConvention c)
    ∧ (7 : Nat) = (['/', '/', 'v', '/', 'f'].length
          + countRoot (FSPathFresh
              [⟨.Volume, some ['v']⟩, ⟨.Root, none⟩, ⟨.File, some ['f']⟩]).components) + 1 :=
  ⟨by decide,
    (C16_measured_length [] false
      (FSPathFresh [⟨.Volume, some ['v']⟩, ⟨.Root, none⟩, ⟨.File, some ['f']⟩])
      ⟨[⟨.Volume, some ['v']⟩, ⟨.Root, none⟩, ⟨.File, some ['f']⟩],
        some ⟨7, ['/', '/', 'v', '/', 'f']⟩, some 4, some 0, 1⟩
      ⟨7, ['/', '/', 'v', '/', 'f']⟩ (by decide) (by decide) rfl).1⟩

theorem renderComponent_prefix (CurrentFull : Option (Option (List Char))) (c : FSPathComponent)
    (w b : List Char) (pr fr pr2 fr2 : Option Nat) :
    (renderComponent CurrentFull ⟨w ++ b, pr, fr⟩ c).map (fun r => r.buffer)
      = (renderComponent CurrentFull ⟨b, pr2, fr2⟩ c).map (fun r => w ++ r.buffer) := by
  obtain ⟨ty, str⟩ := c
  cases ty <;> cases str <;>
    simp only [renderComponent, FSPathComponentGetType, FSPathComponentGetString,
      Option.map_some', Option.map_none', List.append_assoc]
  all_goals
    cases CurrentFull with
    | none => rfl
    | some full =>
      cases full with
      | none => rfl
      | some text => simp

theorem renderPass_prefix (CurrentFull : Option (Option (List Char)))
    (cs : List FSPathComponent) (w b : List Char) (pr fr pr2 fr2 : Option Nat) :
    (renderPass CurrentFull cs ⟨w ++ b, pr, fr⟩).map (fun r => r.buffer)
      = (renderPass CurrentFull cs ⟨b, pr2, fr2⟩).map (fun r => w ++ r.buffer) := by
  induction cs generalizing b pr fr pr2 fr2 with
  | nil => simp [renderPass]
  | cons c cs ih =>
    have hstep := renderComponent_prefix CurrentFull c w b pr fr pr2 fr2
    simp only [renderPass]
    cases h1 : renderComponent CurrentFull ⟨w ++ b, pr, fr⟩ c with
    | none =>
      cases h2 : renderComponent CurrentFull ⟨b, pr2, fr2⟩ c with
      | none => rfl
      | some r2 => rw [h1, h2] at hstep; simp at hstep
    | some r1 =>
      cases h2 : renderComponent CurrentFull ⟨b, pr2, fr2⟩ c with
      | none => rw [h1, h2] at hstep; simp at hstep
      | some r2 =>
        rw [h1, h2] at hstep
        simp only [Option.map_some', Option.some.injEq] at hstep
        obtain ⟨rb, rp, rf⟩ := r1
        simp only at hstep
        subst hstep
        exact ih r2.buffer rp rf r2.pathRep r2.filenameRep

theorem measureComponent_flag (CurrentFull : Option (Option (List Char))) (c : FSPathComponent)
    (m m1 : MeasureState) (hm : measureComponent CurrentFull m c = some m1) :
    m1.RequiresVolume
      = (m.RequiresVolume && decide (c.type ≠ .Volume ∧ c.type ≠ .RelativeRoot)) := by
  obtain ⟨ty, str⟩ := c
  cases ty <;>
    simp only [measureComponent, FSPathComponentGetType, Option.some.injEq] at hm
  all_goals first
    | (subst hm; simp)
    | (cases CurrentFull with
       | none => simp at hm
       | some full =>
         cases full with
         | none => simp at hm
         | some text =>
           simp only [Option.some.injEq] at hm
           subst hm
           simp)

theorem measurePass_flag (CurrentFull : Option (Option (List Char)))
    (cs : List FSPathComponent) (m m1 : MeasureState)
    (hm : measurePass CurrentFull cs m = some m1) :
    m1.RequiresVolume = true
      ↔ m.RequiresVolume = true ∧ ∀ c ∈ cs, c.type ≠ .Volume ∧ c.type ≠ .RelativeRoot := by
  induction cs generalizing m with
  | nil =>
    simp only [measurePass, Option.some.injEq] at hm
    subst hm
    simp
  | cons c cs ih =>
    simp only [measurePass] at hm
    cases hmc : measureComponent CurrentFull m c with
    | none => rw [hmc] at hm; simp at hm
    | some m2 =>
      rw [hmc] at hm
      simp only at hm
      rw [ih m2 hm, measureComponent_flag CurrentFull c m m2 hmc]
      simp only [Bool.and_eq_true, decide_eq_true_eq, List.mem_cons, forall_eq_or_imp]
      tauto

/-- C17, as stated, fails: the components `[Root, File("f")]` of `"/f"` hold a `Root`, yet with
the current volume `v` the implicit volume prefix `"//v"` is written in front of `"/f"`. -/
theorem C17_counterexample :
    (FSPathCreate ['/', 'f']).components = [⟨.Root, none⟩, ⟨.File, some ['f']⟩]
    ∧ (FSPathGetFullPathString [⟨.Volume, some ['v']⟩] false
        (FSPathCreate ['/', 'f'])).map Prod.snd
      = some (some (['/', '/', 'v'] ++ ['/', 'f'])) := by
  decide

/-- C17, amended: whenever `FSPathCreatePathStringCache` leaves a buffer (the sequence renders
to a non-empty string), the implicit volume prefix `"//"` followed by the text of
`FSPathGetVolume(Path)` is written in front of the rendered components, and 2 plus its length
is added to the measured length, if and only if the sequence contains neither a `Volume` nor a
`RelativeRoot` component; a `Root` does not keep the prefix away. -/
theorem C17_implicit_volume (Current : List FSPathComponent) (isCurrent : Bool)
    (Path Built : FSPathInfo) (b : CacheBuffer)
    (hb : FSPathCreatePathStringCache Current isCurrent Path = some Built)
    (hbuf : Built.completeRep = some b) :
    ∃ m body,
      measurePass (if isCurrent then none else FSPathCurrentFullPathString Current)
          Path.components ⟨true, 0⟩ = some m
      ∧ (renderPass (if isCurrent then none else FSPathCurrentFullPathString Current)
          Path.components ⟨[], none, none⟩).map (fun r => r.buffer) = some body
      ∧ ((∀ c ∈ Path.components, c.type ≠ .Volume ∧ c.type ≠ .RelativeRoot) →
          ∃ V vol, FSPathGetVolume Current isCurrent Path.components = some V
            ∧ FSPathComponentGetString V = some vol
            ∧ b.text = '/' :: '/' :: vol ++ body
            ∧ b.size = m.Length + (2 + vol.length) + 1)
      ∧ ((∃ c ∈ Path.components, c.type = .Volume ∨ c.type = .RelativeRoot) →
          b.text = body ∧ b.size = m.Length + 1) := by
  unfold FSPathCreatePathStringCache at hb
  obtain ⟨m, r, pr, fr, hm, -, hcase⟩ := build_inversion _ _ _ _ _ hb hbuf
  have hflag := measurePass_flag _ _ _ _ hm
  simp only [true_and] at hflag
  rcases hcase with ⟨hrv, V, text, hV, hg, hr, hbeq⟩ | ⟨hrv, hr, hbeq⟩
  · have hp := renderPass_prefix
      (if isCurrent then none else FSPathCurrentFullPathString Current) Path.components
      ['/', '/'] text pr fr none none
    have e1 : (['/', '/'] ++ text : List Char) = '/' :: '/' :: text := rfl
    rw [e1, hr] at hp
    simp only [Option.map_some'] at hp
    cases hbody : renderPass (if isCurrent then none else FSPathCurrentFullPathString Current)
        Path.components ⟨text, none, none⟩ with
    | none => rw [hbody] at hp; simp at hp
    | some r2 =>
      rw [hbody] at hp
      simp only [Option.map_some', Option.some.injEq] at hp
      have hp0 := renderPass_prefix
        (if isCurrent then none else FSPathCurrentFullPathString Current) Path.components
        text [] none none none none
      rw [List.append_nil, hbody] at hp0
      simp only [Option.map_some'] at hp0
      cases hbody0 : renderPass
          (if isCurrent then none else FSPathCurrentFullPathString Current)
          Path.components ⟨[], none, none⟩ with
      | none => rw [hbody0] at hp0; simp at hp0
      | some r0 =>
        rw [hbody0] at hp0
        simp only [Option.map_some', Option.some.injEq] at hp0
        refine ⟨m, r0.buffer, hm, rfl, ?_, ?_⟩
        · intro _
          refine ⟨V, text, hV, hg, ?_, ?_⟩
          · rw [hbeq]
            simp only
            rw [hp, hp0]
            simp
          · rw [hbeq]
        · intro hex
          exfalso
          obtain ⟨c, hc, hty⟩ := hex
          have := (hflag.1 hrv) c hc
          rcases hty with h | h
          · exact this.1 h
          · exact this.2 h
  · have hp := renderPass_prefix
      (if isCurrent then none else FSPathCurrentFullPathString Current) Path.components
      [] [] pr fr none none
    rw [List.append_nil, hr] at hp
    simp only [Option.map_some'] at hp
    cases hbody0 : renderPass
        (if isCurrent then none else FSPathCurrentFullPathString Current)
        Path.components ⟨[], none, none⟩ with
    | none => rw [hbody0] at hp; simp at hp
    | some r0 =>
      rw [hbody0] at hp
      simp only [Option.map_some', Option.some.injEq, List.nil_append] at hp
      refine ⟨m, r0.buffer, hm, rfl, ?_, ?_⟩
      · intro hall
        exfalso
        have := hflag.2 hall
        rw [hrv] at this
        exact absurd this (by simp)
      · intro _
        rw [hbeq]
        exact ⟨hp, rfl⟩

/-- C17 (amended) at the components `[Root, File("f")]` with the current volume `v`: no `Volume`
and no `RelativeRoot`, so `"//v"` is written in front. -/
theorem C17_implicit_volume_witness :
    FSPathCreatePathStringCache [⟨.Volume, some ['v']⟩] false
        (FSPathFresh [⟨.Root, none⟩, ⟨.File, some ['f']⟩])
      = some ⟨[⟨.Root, none⟩, ⟨.File, some ['f']⟩], some ⟨7, ['/', '/', 'v', '/', 'f']⟩,
          some 4, some 3, 1⟩
    ∧ ∃ m body,
      measurePass (if false then none else FSPathCurrentFullPathString [⟨.Volume, some ['v']⟩])
          (FSPathFresh [⟨.Root, none⟩, ⟨.File, some ['f']⟩]).components ⟨true, 0⟩ = some m
      ∧ (renderPass
          (if false then none else FSPathCurrentFullPathString [⟨.Volume, some ['v']⟩])
          (FSPathFresh [⟨.Root, none⟩, ⟨.File, some ['f']⟩]).components
          ⟨[], none, none⟩).map (fun r => r.buffer) = some body
      ∧ ((∀ c ∈ (FSPathFresh [⟨.Root, none⟩, ⟨.File, some ['f']⟩]).components,
            c.type ≠ .Volume ∧ c.type ≠ .RelativeRoot) →
          ∃ V vol, FSPathGetVolume [⟨.Volume, some ['v']⟩] false
              (FSPathFresh [⟨.Root, none⟩, ⟨.File, some ['f']⟩]).components = some V
            ∧ FSPathComponentGetString V = some vol
            ∧ (⟨7, ['/', '/', 'v', '/', 'f']⟩ : CacheBuffer).text = '/' :: '/' :: vol ++ body
            ∧ (⟨7, ['/', '/', 'v', '/', 'f']⟩ : CacheBuffer).size
                = m.Length + (2 + vol.length) + 1)
      ∧ ((∃ c ∈ (FSPathFresh [⟨.Root, none⟩, ⟨.File, some ['f']⟩]).components,
            c.type = .Volume ∨ c.type = .RelativeRoot) →
          (⟨7, ['/', '/', 'v', '/', 'f']⟩ : CacheBuffer).text = body
            ∧ (⟨7, ['/', '/', 'v', '/', 'f']⟩ : CacheBuffer).size = m.Length + 1) :=
  ⟨by decide,
    C17_implicit_volume [⟨.Volume, some ['v']⟩] false
      (FSPathFresh [⟨.Root, none⟩, ⟨.File, some ['f']⟩])
      ⟨[⟨.Root, none⟩, ⟨.File, some ['f']⟩], some ⟨7, ['/', '/', 'v', '/', 'f']⟩,
        some 4, some 3, 1⟩
      ⟨7, ['/', '/', 'v', '/', 'f']⟩ (by decide) rfl⟩

/-! ## Claims C18 and C19: the rules of the classifier -/

/-- C18, as stated, fails: with 1 separator seen and the terminator `'/'` (the second character
of `"//name"`) the classifier reports no match where the claim has `Root`; and with a negative
count of other characters it reports `Volume` where the claim has no match. -/
theorem C18_counterexample :
    FSPathFoundComponentTypeFromInputs '/' '/' 1 0 0 = none
    ∧ separatorRuleAsClaimed '/' 1 0 0 = some .Root
    ∧ FSPathFoundComponentTypeFromInputs '\x00' '/' 2 0 (-1) = some .Volume
    ∧ separatorRuleAsClaimed '\x00' 2 0 (-1) = none := by
  decide

/-- C18, amended: for every terminator and all counter values with a non-negative count of other
characters, on a span that starts with `'/'` the classifier reports `Volume` if the terminator
is end-of-input or `'/'` and exactly 2 separators, 0 dots and at least 1 other character were
seen; otherwise `Root` if the terminator is not `'/'` and exactly 1 separator, 0 dots and 0
other characters were seen; otherwise no match. -/
theorem C18_separator_rule (c : Char) (sl dt k : Int) (hk : 0 ≤ k) :
    FSPathFoundComponentTypeFromInputs c '/' sl dt k
      = if (c = '\x00' ∨ c = '/') ∧ sl = 2 ∧ dt = 0 ∧ 1 ≤ k then some .Volume
        else if c ≠ '/' ∧ sl = 1 ∧ dt = 0 ∧ k = 0 then some .Root
        else none := by
  have hk1 : k ≠ 0 ↔ 1 ≤ k := by omega
  have hc : (c = '\x00' ∨ c ≠ '/') ↔ c ≠ '/' := by
    constructor
    · rintro (h | h)
      · rw [h]; decide
      · exact h
    · exact Or.inr
  simp only [FSPathFoundComponentTypeFromInputs, if_true, hk1, hc]

/-- C18 (amended) at the second character of `"/a"`: 1 separator seen, terminator `'a'`. -/
theorem C18_separator_rule_witness :
    (0 : Int) ≤ 0 ∧ FSPathFoundComponentTypeFromInputs 'a' '/' 1 0 0 = some .Root :=
  ⟨by decide, (C18_separator_rule 'a' 1 0 0 (by decide)).trans (by decide)⟩

/-- C19: for every terminator and all non-negative counter values, on a span that starts with
`'.'` the classifier reports `RelativeParentDirectory` iff at least 1 separator, exactly 2 dots
and 0 other characters were seen, else `Extension` iff the terminator is end-of-input or `'.'`
and 0 separators, exactly 1 dot and at least 1 other character were seen, else no match; on a
span whose first character `a` is neither `'/'` nor `'.'` it reports `Directory` iff at least 1
separator, 0 dots and at least 1 other character were seen, else `File` iff the terminator is
end-of-input or `'.'` and 0 separators, 0 dots and at least 1 other character were seen, else no
match.  In each case the two rules exclude each other. -/
theorem C19_dot_and_plain_rules (c a : Char) (sl dt k : Int) (hsl : 0 ≤ sl) (_hdt : 0 ≤ dt)
    (hk : 0 ≤ k) (ha1 : a ≠ '/') (ha2 : a ≠ '.') :
    (FSPathFoundComponentTypeFromInputs c '.' sl dt k
        = if 1 ≤ sl ∧ dt = 2 ∧ k = 0 then some .RelativeParentDirectory
          else if (c = '\x00' ∨ c = '.') ∧ sl = 0 ∧ dt = 1 ∧ 1 ≤ k then some .Extension
          else none)
    ∧ (FSPathFoundComponentTypeFromInputs c '.' sl dt k = some .RelativeParentDirectory
        ↔ 1 ≤ sl ∧ dt = 2 ∧ k = 0)
    ∧ (FSPathFoundComponentTypeFromInputs c '.' sl dt k = some .Extension
        ↔ (c = '\x00' ∨ c = '.') ∧ sl = 0 ∧ dt = 1 ∧ 1 ≤ k)
    ∧ ¬ ((1 ≤ sl ∧ dt = 2 ∧ k = 0) ∧ ((c = '\x00' ∨ c = '.') ∧ sl = 0 ∧ dt = 1 ∧ 1 ≤ k))
    ∧ (FSPathFoundComponentTypeFromInputs c a sl dt k
        = if 1 ≤ sl ∧ dt = 0 ∧ 1 ≤ k then some .Directory
          else if (c = '\x00' ∨ c = '.') ∧ sl = 0 ∧ dt = 0 ∧ 1 ≤ k then some .File
          else none)
    ∧ (FSPathFoundComponentTypeFromInputs c a sl dt k = some .Directory
        ↔ 1 ≤ sl ∧ dt = 0 ∧ 1 ≤ k)
    ∧ (FSPathFoundComponentTypeFromInputs c a sl dt k = some .File
        ↔ (c = '\x00' ∨ c = '.') ∧ sl = 0 ∧ dt = 0 ∧ 1 ≤ k)
    ∧ ¬ ((1 ≤ sl ∧ dt = 0 ∧ 1 ≤ k) ∧ ((c = '\x00' ∨ c = '.') ∧ sl = 0 ∧ dt = 0 ∧ 1 ≤ k)) := by
  have hk1 : k ≠ 0 ↔ 1 ≤ k := by omega
  have hs1 : sl ≠ 0 ↔ 1 ≤ sl := by omega
  have hdotslash : ('.' : Char) ≠ '/' := by decide
  have e1 : FSPathFoundComponentTypeFromInputs c '.' sl dt k
      = if 1 ≤ sl ∧ dt = 2 ∧ k = 0 then some .RelativeParentDirectory
        else if (c = '\x00' ∨ c = '.') ∧ sl = 0 ∧ dt = 1 ∧ 1 ≤ k then some .Extension
        else none := by
    simp only [FSPathFoundComponentTypeFromInputs, hdotslash, if_false, if_true, hk1, hs1]
  have e2 : FSPathFoundComponentTypeFromInputs c a sl dt k
      = if 1 ≤ sl ∧ dt = 0 ∧ 1 ≤ k then some .Directory
        else if (c = '\x00' ∨ c = '.') ∧ sl = 0 ∧ dt = 0 ∧ 1 ≤ k then some .File
        else none := by
    simp only [FSPathFoundComponentTypeFromInputs, ha1, ha2, if_false, hk1, hs1]
  have x1 : ¬ ((1 ≤ sl ∧ dt = 2 ∧ k = 0)
      ∧ ((c = '\x00' ∨ c = '.') ∧ sl = 0 ∧ dt = 1 ∧ 1 ≤ k)) := by
    rintro ⟨⟨h1, -, -⟩, -, h2, -, -⟩
    omega
  have x2 : ¬ ((1 ≤ sl ∧ dt = 0 ∧ 1 ≤ k)
      ∧ ((c = '\x00' ∨ c = '.') ∧ sl = 0 ∧ dt = 0 ∧ 1 ≤ k)) := by
    rintro ⟨⟨h1, -, -⟩, -, h2, -, -⟩
    omega
  refine ⟨e1, ?_, ?_, x1, e2, ?_, ?_, x2⟩
  · rw [e1]
    split_ifs with h1 h2 <;> simp [h1]
  · rw [e1]
    split_ifs with h1 h2
    · simp only [Option.some.injEq, reduceCtorEq, false_iff]
      exact fun h => x1 ⟨h1, h⟩
    · simp [h2]
    · simp [h2]
  · rw [e2]
    split_ifs with h1 h2 <;> simp [h1]
  · rw [e2]
    split_ifs with h1 h2
    · simp only [Option.some.injEq, reduceCtorEq, false_iff]
      exact fun h => x2 ⟨h1, h⟩
    · simp [h2]
    · simp [h2]

/-- C19 at the pending span `"../"` (1 separator, 2 dots) and at the pending span `"ab"`
terminated by `'.'`. -/
theorem C19_dot_and_plain_rules_witness :
    FSPathFoundComponentTypeFromInputs 'x' '.' 1 2 0 = some .RelativeParentDirectory
    ∧ ((FSPathFoundComponentTypeFromInputs '.' 'a' 0 0 2 = some .File)
        ↔ (('.' : Char) = '\x00' ∨ ('.' : Char) = '.') ∧ (0 : Int) = 0 ∧ (0 : Int) = 0
          ∧ (1 : Int) ≤ 2) :=
  ⟨((C19_dot_and_plain_rules 'x' 'a' 1 2 0 (by decide) (by decide) (by decide) (by decide)
      (by decide)).2.1).2 (by decide),
    (C19_dot_and_plain_rules '.' 'a' 0 0 2 (by decide) (by decide) (by decide) (by decide)
      (by decide)).2.2.2.2.2.2.1⟩

/-! ## Claim C20: the spans of `RelativeParentDirectory` components -/

theorem scanStep_emission (c : Char) (st : ScanState) :
    (scanStep c st).Components
      = st.Components ++ ((stepEmission c st).toList.map Emission.component) := by
  unfold scanStep stepEmission
  cases FSPathFoundComponentTypeFromInputs c (st.first c) st.SlashCount st.DotCount
      st.CharacterCount with
  | none =>
    simp only
    split_ifs <;> simp
  | some Ty =>
    simp only
    split_ifs <;> simp [Emission.component]

theorem scanFlush_emission (st : ScanState) :
    scanFlush st = st.Components ++ ((flushEmission st).toList.map Emission.component) := by
  unfold scanFlush flushEmission
  cases FSPathFoundComponentTypeFromInputs '\x00' (st.first '\x00') st.SlashCount st.DotCount
      st.CharacterCount with
  | none => simp
  | some Ty => simp [Emission.component]

/-- The components the tokenizer returns are the results of the calls listed by
`scanEmissions`. -/
theorem scanFlush_scanLoop_emissions (s : List Char) (st : ScanState) :
    scanFlush (scanLoop s st)
      = st.Components ++ (scanEmissions s st).map Emission.component := by
  induction s generalizing st with
  | nil => simp only [scanLoop, scanEmissions, scanFlush_emission]
  | cons c s ih =>
    unfold scanLoop scanEmissions
    split_ifs
    · exact scanFlush_emission st
    · rw [ih, scanStep_emission]
      simp

theorem convert_false_emissions (s : List Char) :
    FSPathConvertPathToComponents s false
      = (scanEmissions s scanInit).map Emission.component := by
  unfold FSPathConvertPathToComponents
  simp only [scanFlush_scanLoop_emissions]
  simp [scanInit]

theorem countsMatch_init : CountsMatch scanInit := by
  simp [CountsMatch, scanInit]

theorem countsMatch_step (c : Char) (st : ScanState) (h : CountsMatch st) :
    CountsMatch (scanStepUnbounded c st) := by
  obtain ⟨h1, h2, h3⟩ := h
  have hsd : ('/' : Char) ≠ '.' := by decide
  cases hcl : FSPathFoundComponentTypeFromInputs c (st.first c) st.SlashCount st.DotCount
      st.CharacterCount with
  | none =>
    rw [scanStep_none c st hcl]
    rcases bumpCounts_cases c st.SlashCount st.DotCount st.CharacterCount with
      ⟨e0, e⟩ | ⟨e1, e0, e⟩ | ⟨e1, e2, e⟩
    · subst e0
      simp only [CountsMatch, e, List.count_append, List.filter_append, List.length_append]
      simp [h1, h2, h3]
    · subst e0
      simp only [CountsMatch, e, List.count_append, List.filter_append, List.length_append]
      simp [h1, h2, h3]
    · simp only [CountsMatch, e, List.count_append, List.filter_append, List.length_append]
      simp [h1, h2, h3, e1, e2, Ne.symm e1, Ne.symm e2]
  | some Ty =>
    obtain ⟨comp, hf, hstep, -⟩ := scanStep_some c st Ty hcl
    rw [hstep]
    rcases bumpCounts_cases c 0 0 0 with ⟨e0, e⟩ | ⟨e1, e0, e⟩ | ⟨e1, e2, e⟩
    · subst e0
      simp [CountsMatch, e]
    · subst e0
      simp [CountsMatch, e]
    · simp [CountsMatch, e, e1, e2, Ne.symm e1, Ne.symm e2]

theorem classify_relativeParent (c a : Char) (sl dt k : Int)
    (h : FSPathFoundComponentTypeFromInputs c a sl dt k = some .RelativeParentDirectory) :
    a = '.' ∧ sl ≠ 0 ∧ dt = 2 ∧ k = 0 := by
  unfold FSPathFoundComponentTypeFromInputs at h
  split_ifs at h with h1 h2 h3 h4 h5 h6 h7 h8
  all_goals first
    | (simp at h; done)
    | exact ⟨h4, h5⟩

theorem parentSpan_of_counts (st : ScanState) (c : Char) (h : CountsMatch st)
    (hcl : FSPathFoundComponentTypeFromInputs c (st.first c) st.SlashCount st.DotCount
      st.CharacterCount = some .RelativeParentDirectory) :
    ParentSpan st.Start := by
  obtain ⟨h1, h2, h3⟩ := h
  obtain ⟨ha, hsl, hdt, hk⟩ := classify_relativeParent _ _ _ _ _ hcl
  have hne : st.Start ≠ [] := by
    intro he
    rw [he] at h1
    simp at h1
    exact hsl h1
  refine ⟨?_, ?_, ?_, ?_⟩
  · cases hs : st.Start with
    | nil => exact absurd hs hne
    | cons a p =>
      rw [first_cons st c a p hs] at ha
      simp [ha]
  · rw [hdt] at h2
    exact_mod_cast h2.symm
  · rw [h1] at hsl
    have : st.Start.count '/' ≠ 0 := by exact_mod_cast hsl
    omega
  · rw [hk] at h3
    have h0 : (st.Start.filter (fun x => decide (x ≠ '/' ∧ x ≠ '.'))).length = 0 := by
      exact_mod_cast h3.symm
    have hnil := List.length_eq_zero.1 h0
    intro x hx
    by_contra hcon
    have hmem : x ∈ st.Start.filter (fun x => decide (x ≠ '/' ∧ x ≠ '.')) := by
      rw [List.mem_filter]
      refine ⟨hx, ?_⟩
      simp only [decide_eq_true_eq]
      exact ⟨fun e => hcon (Or.inr e), fun e => hcon (Or.inl e)⟩
    rw [hnil] at hmem
    simp at hmem

theorem stepEmission_parent (c : Char) (st : ScanState) (e : Emission) (h : CountsMatch st)
    (he : stepEmission c st = some e) (hty : e.type = .RelativeParentDirectory) :
    ParentSpan e.span := by
  unfold stepEmission at he
  cases hcl : FSPathFoundComponentTypeFromInputs c (st.first c) st.SlashCount st.DotCount
      st.CharacterCount with
  | none => rw [hcl] at he; simp at he
  | some Ty =>
    rw [hcl] at he
    simp only [Option.some.injEq] at he
    subst he
    simp only at hty ⊢
    have hT : Ty = .RelativeParentDirectory := by
      cases hhf : st.HasFile <;> rw [hhf] at hty
      · simp only [Bool.not_false, if_true] at hty
        split_ifs at hty with h1 h2
        · simp only at hty
          rw [hty] at h1
          exact absurd h1 (by simp)
        · exact hty
      · simpa using hty
    rw [hT] at hcl
    exact parentSpan_of_counts st c h hcl

theorem flushEmission_parent (st : ScanState) (e : Emission) (h : CountsMatch st)
    (he : flushEmission st = some e) (hty : e.type = .RelativeParentDirectory) :
    ParentSpan e.span := by
  unfold flushEmission at he
  cases hcl : FSPathFoundComponentTypeFromInputs '\x00' (st.first '\x00') st.SlashCount
      st.DotCount st.CharacterCount with
  | none => rw [hcl] at he; simp at he
  | some Ty =>
    rw [hcl] at he
    simp only [Option.some.injEq] at he
    subst he
    simp only at hty ⊢
    rw [hty] at hcl
    exact parentSpan_of_counts st _ h hcl

theorem scanEmissions_parent (s : List Char) (st : ScanState) (h : CountsMatch st) :
    ∀ e ∈ scanEmissionsUnbounded s st, e.type = .RelativeParentDirectory → ParentSpan e.span := by
  induction s generalizing st with
  | nil =>
    intro e he hty
    simp only [scanEmissionsUnbounded, Option.mem_toList, Option.mem_def] at he
    exact flushEmission_parent st e h he hty
  | cons c s ih =>
    intro e he hty
    unfold scanEmissionsUnbounded at he
    split_ifs at he
    · simp only [Option.mem_toList, Option.mem_def] at he
      exact flushEmission_parent st e h he hty
    · rcases List.mem_append.1 he with he | he
      · simp only [Option.mem_toList, Option.mem_def] at he
        exact stepEmission_parent c st e h he hty
      · exact ih _ (countsMatch_step c st h) e he hty

/-- C20, as stated, fails: on the input `"./."` the tokenizer hands the span `"./."` to
`FSPathCreateComponent` as a `RelativeParentDirectory` and returns that one component; the span
is not `"../"`. -/
theorem C20_counterexample :
    scanEmissions ['.', '/', '.'] scanInit = [⟨.RelativeParentDirectory, ['.', '/', '.']⟩]
    ∧ FSPathConvertPathToComponents ['.', '/', '.'] false = [⟨.RelativeParentDirectory, none⟩]
    ∧ FSPathConvertPathToComponents ['.', '/', '.'] true
        = [⟨.RelativeRoot, none⟩, ⟨.RelativeParentDirectory, none⟩]
    ∧ ['.', '/', '.'] ≠ ['.', '.', '/'] := by
  decide

/-- C20, amended: for every input string of at most 2147483647 (`INT_MAX`) characters and both
values of `CompletePath`, the components the tokenizer returns come from the calls listed by
`scanEmissions` (with a `RelativeRoot` put in front for a complete path), and every span emitted
as a `RelativeParentDirectory` starts with a dot and consists of exactly two dots and at least
one separator and of no other character: the classifier counts characters and does not look at
their order, so besides `"../"` such a span can be `"./."`. -/
theorem C20_parent_spans (s : List Char) (hlen : FitsInt s) :
    FSPathConvertPathToComponents s false = (scanEmissions s scanInit).map Emission.component
    ∧ (FSPathConvertPathToComponents s true = (scanEmissions s scanInit).map Emission.component
      ∨ FSPathConvertPathToComponents s true
          = ⟨.RelativeRoot, none⟩ :: (scanEmissions s scanInit).map Emission.component)
    ∧ ∀ e ∈ scanEmissions s scanInit, e.type = .RelativeParentDirectory →
        e.span.head? = some '.' ∧ e.span.count '.' = 2 ∧ 1 ≤ e.span.count '/'
          ∧ ∀ x ∈ e.span, x = '.' ∨ x = '/' := by
  have h0 := convert_false_emissions s
  refine ⟨h0, ?_, fun e he hty => ?_⟩
  · rw [convert_true_eq, h0]
    cases (scanEmissions s scanInit).map Emission.component with
    | nil => exact Or.inl rfl
    | cons first tail =>
      simp only
      split_ifs
      · exact Or.inl rfl
      · exact Or.inr rfl
  · rw [emissions_eq_unbounded s hlen] at he
    exact scanEmissions_parent s scanInit countsMatch_init e he hty

/-- C20 (amended) at `"./.x"`: the span `"./."` is emitted as a `RelativeParentDirectory` when
the `x` is read. -/
theorem C20_parent_spans_witness :
    FitsInt ['.', '/', '.', 'x']
    ∧ scanEmissions ['.', '/', '.', 'x'] scanInit
        = [⟨.RelativeParentDirectory, ['.', '/', '.']⟩, ⟨.File, ['x']⟩]
    ∧ ∀ e ∈ scanEmissions ['.', '/', '.', 'x'] scanInit, e.type = .RelativeParentDirectory →
        e.span.head? = some '.' ∧ e.span.count '.' = 2 ∧ 1 ≤ e.span.count '/'
          ∧ ∀ x ∈ e.span, x = '.' ∨ x = '/' :=
  ⟨by decide, by decide, (C20_parent_spans ['.', '/', '.', 'x'] (by decide)).2.2⟩

/-! ## Claim C21: the round trip of a volume-anchored input -/

theorem fullPath_volumeAnchored (Current : List FSPathComponent) (isCurrent : Bool)
    (v : List Char) (ds : List (List Char)) (f e : List Char) (hv : IsName v)
    (hds : ∀ d ∈ ds, IsName d) (hfn : IsName f) (he : IsName e) :
    (FSPathGetFullPathString Current isCurrent
        (FSPathCreateUnbounded (volumeAnchored v ds f e))).map Prod.snd
      = some (some (volumeAnchored v ds f e)) := by
  have h := convert_volumeAnchored v ds f e hv hds hfn he true
  have hc : (FSPathCreateUnbounded (volumeAnchored v ds f e)).completeRep = none := rfl
  simp only [FSPathGetFullPathString, hc, Option.isNone_none, if_true,
    FSPathCreatePathStringCache]
  simp only [FSPathCreateUnbounded, h]
  rw [build_volumeAnchored]
  rfl

/-- The path created from `"//v/f." e` for an extension `e` of `n + 1` copies of `a` whose `int`
count is 0: no `Extension` is made and the full path string is `"//v/f"`. -/
theorem roundTrip_run (n : Nat) (h0 : wrapInt32 (1 + n) = 0) :
    (FSPathGetFullPathString [] false
          (FSPathCreate (volumeAnchored ['v'] [] ['f'] ('a' :: List.replicate n 'a')))).map
        Prod.snd = some (some ['/', '/', 'v', '/', 'f'])
    ∧ ['/', '/', 'v', '/', 'f'] ≠ volumeAnchored ['v'] [] ['f'] ('a' :: List.replicate n 'a') := by
  have h5 : (FSPathGetFullPathString [] false
      ⟨[⟨.Volume, some ['v']⟩, ⟨.Root, none⟩, ⟨.File, some ['f']⟩],
        none, none, none, 0⟩).map Prod.snd = some (some ['/', '/', 'v', '/', 'f']) := by
    decide
  have hne : ∀ e : List Char, ['/', '/', 'v', '/', 'f'] ≠ volumeAnchored ['v'] [] ['f'] e := by
    intro e
    simp [volumeAnchored, dirsText]
  have hc : FSPathConvertPathToComponents
      (volumeAnchored ['v'] [] ['f'] ('a' :: List.replicate n 'a')) true
      = [⟨.Volume, some ['v']⟩, ⟨.Root, none⟩, ⟨.File, some ['f']⟩] :=
    (convert_of_flush (volumeAnchored ['v'] [] ['f'] ('a' :: List.replicate n 'a')) true _
      (flush_extension_run n h0).2).trans rfl
  refine ⟨?_, hne _⟩
  unfold FSPathCreate
  rw [hc]
  exact h5

/-- C21, as stated, fails: the extension `e` of 4294967296 copies of `a` is non-empty and holds
no `'/'` and no `'.'`, yet for `s = "//v/f." e` the `int` count of its characters is back at 0
when the input ends, so no `Extension` is made and the full path string is `"//v/f"`: the
characters `"." e` of `s` are dropped. -/
theorem C21_counterexample :
    IsName ['v'] ∧ IsName ['f'] ∧ IsName overlongName
    ∧ (FSPathGetFullPathString [] false
          (FSPathCreate (volumeAnchored ['v'] [] ['f'] overlongName))).map Prod.snd
        = some (some ['/', '/', 'v', '/', 'f'])
    ∧ ['/', '/', 'v', '/', 'f'] ≠ volumeAnchored ['v'] [] ['f'] overlongName :=
  ⟨by decide, by decide, overlongName_isName, roundTrip_run 4294967295 wrapInt32_overlong⟩

/-- C21, amended: for every volume-anchored input `s = "//" v "/" d1 "/" ... dn "/" f "." e`
(`n ≥ 0`, every name non-empty and free of `'/'` and `'.'`) of at most 2147483647 (`INT_MAX`)
characters and every current path, `FSPathGetFullPathString(FSPathCreate(s))` returns `s`
itself: the `Volume` component clears `RequiresVolume`, the sequence holds no `RelativeRoot`, so
nothing is written in front, and every character of `s` is written back. -/
theorem C21_volumeAnchored_roundTrip (Current : List FSPathComponent) (isCurrent : Bool)
    (v : List Char) (ds : List (List Char)) (f e : List Char) (hv : IsName v)
    (hds : ∀ d ∈ ds, IsName d) (hfn : IsName f) (he : IsName e)
    (hlen : FitsInt (volumeAnchored v ds f e)) :
    (FSPathGetFullPathString Current isCurrent (FSPathCreate (volumeAnchored v ds f e))).map
        Prod.snd
      = some (some (volumeAnchored v ds f e)) := by
  rw [create_eq_unbounded _ hlen]
  exact fullPath_volumeAnchored Current isCurrent v ds f e hv hds hfn he

/-- C21 (amended) at `"//MyDisk/Users/me/doc.txt"` with the current path `//Disk/home/`. -/
theorem C21_volumeAnchored_roundTrip_witness :
    IsName "MyDisk".toList ∧ (∀ d ∈ ["Users".toList, "me".toList], IsName d)
    ∧ IsName "doc".toList ∧ IsName "txt".toList
    ∧ FitsInt (volumeAnchored "MyDisk".toList ["Users".toList, "me".toList] "doc".toList
        "txt".toList)
    ∧ (FSPathGetFullPathString
          [⟨.Volume, some "Disk".toList⟩, ⟨.Root, none⟩, ⟨.Directory, some "home".toList⟩] false
          (FSPathCreate "//MyDisk/Users/me/doc.txt".toList)).map Prod.snd
      = some (some "//MyDisk/Users/me/doc.txt".toList) := by
  have hs : volumeAnchored "MyDisk".toList ["Users".toList, "me".toList] "doc".toList
      "txt".toList = "//MyDisk/Users/me/doc.txt".toList := by decide
  have h := C21_volumeAnchored_roundTrip
    [⟨.Volume, some "Disk".toList⟩, ⟨.Root, none⟩, ⟨.Directory, some "home".toList⟩] false
    "MyDisk".toList ["Users".toList, "me".toList] "doc".toList "txt".toList
    (by decide) (by decide) (by decide) (by decide) (by decide)
  rw [hs] at h
  exact ⟨by decide, by decide, by decide, by decide, by decide, h⟩

/-! ## Claim C22: the second pass stays inside the buffer -/

theorem measureComponent_total (full : List Char) (m : MeasureState) (c : FSPathComponent) :
    ∃ m1, measureComponent (some (some full)) m c = some m1 := by
  obtain ⟨ty, str⟩ := c
  cases ty <;> exact ⟨_, rfl⟩

theorem measurePass_total (full : List Char) (cs : List FSPathComponent) (m : MeasureState) :
    ∃ m1, measurePass (some (some full)) cs m = some m1 := by
  induction cs generalizing m with
  | nil => exact ⟨m, rfl⟩
  | cons c cs ih =>
    obtain ⟨m2, h2⟩ := measureComponent_total full m c
    obtain ⟨m1, h1⟩ := ih m2
    exact ⟨m1, by simp only [measurePass, h2, h1]⟩

theorem renderComponent_total (full : List Char) (r : RenderState) (c : FSPathComponent)
    (h : HasPayloadText c) : ∃ r1, renderComponent (some (some full)) r c = some r1 := by
  obtain ⟨ty, str⟩ := c
  cases ty <;> cases str <;>
    simp only [HasPayloadText, ne_eq, not_true_eq_false] at h <;> exact ⟨_, rfl⟩

theorem renderPass_total (full : List Char) (cs : List FSPathComponent)
    (h : ∀ c ∈ cs, HasPayloadText c) (r : RenderState) :
    ∃ r1, renderPass (some (some full)) cs r = some r1 := by
  induction cs generalizing r with
  | nil => exact ⟨r, rfl⟩
  | cons c cs ih =>
    obtain ⟨r2, h2⟩ := renderComponent_total full r c (h c (by simp))
    obtain ⟨r1, h1⟩ := ih (fun x hx => h x (by simp [hx])) r2
    exact ⟨r1, by simp only [renderPass, h2, h1]⟩

/-- Whatever the payloads, an iteration of the second loop writes no more than the same iteration
of the first loop has measured. -/
theorem step_bound (CurrentFull : Option (Option (List Char))) (c : FSPathComponent)
    (m m1 : MeasureState) (r r1 : RenderState)
    (hm : measureComponent CurrentFull m c = some m1)
    (hr : renderComponent CurrentFull r c = some r1) :
    r1.buffer.length + m.Length ≤ m1.Length + r.buffer.length := by
  obtain ⟨ty, str⟩ := c
  cases ty <;> cases str <;>
    simp only [measureComponent, renderComponent, FSPathComponentGetType,
      FSPathComponentGetString, Option.some.injEq, reduceCtorEq] at hm hr
  all_goals first
    | (subst hm; subst hr
       simp only [List.length_append, List.length_cons, List.length_nil]
       omega)
    | (cases CurrentFull with
       | none => simp at hm
       | some full =>
         cases full with
         | none => simp at hm
         | some text =>
           simp only [Option.some.injEq] at hm hr
           subst hm; subst hr
           simp only [List.length_append]
           omega)

theorem pass_bound (CurrentFull : Option (Option (List Char))) (cs : List FSPathComponent)
    (m m1 : MeasureState) (r r1 : RenderState)
    (hm : measurePass CurrentFull cs m = some m1) (hr : renderPass CurrentFull cs r = some r1) :
    r1.buffer.length + m.Length ≤ m1.Length + r.buffer.length := by
  induction cs generalizing m r with
  | nil =>
    simp only [measurePass, renderPass, Option.some.injEq] at hm hr
    subst hm; subst hr
    omega
  | cons c cs ih =>
    simp only [measurePass, renderPass] at hm hr
    cases hmc : measureComponent CurrentFull m c with
    | none => rw [hmc] at hm; simp at hm
    | some m2 =>
      cases hrc : renderComponent CurrentFull r c with
      | none => rw [hrc] at hr; simp at hr
      | some r2 =>
        rw [hmc] at hm
        rw [hrc] at hr
        simp only at hm hr
        have h1 := step_bound CurrentFull c m m2 r r2 hmc hrc
        have h2 := ih m2 r2 hm hr
        omega

/-- A build that leaves a buffer has written, terminator included, no more than the bytes it
asked the allocator for. -/
theorem build_bound (CurrentFull : Option (Option (List Char)))
    (PathVolume : Option FSPathComponent) (Path Built : FSPathInfo) (b : CacheBuffer)
    (hb : FSPathCreatePathStringCacheWith CurrentFull PathVolume Path = some Built)
    (hbuf : Built.completeRep = some b) :
    b.text.length + 1 ≤ b.size := by
  obtain ⟨m, r, pr, fr, hm, -, hcase⟩ := build_inversion _ _ _ _ _ hb hbuf
  rcases hcase with ⟨-, V, text, -, -, hr, hbeq⟩ | ⟨-, hr, hbeq⟩
  · have h := pass_bound CurrentFull _ _ _ _ _ hm hr
    rw [hbeq]
    simp only [List.length_cons] at h ⊢
    omega
  · have h := pass_bound CurrentFull _ _ _ _ _ hm hr
    rw [hbeq]
    simp only [List.length_nil] at h ⊢
    omega

/-- On a path other than the current one whose first component is no `Volume`, the lookup hands
back what it finds on the current path. -/
theorem getVolume_not_current (Current : List FSPathComponent) (c : FSPathComponent)
    (rest : List FSPathComponent) (hc : c.type ≠ .Volume) :
    FSPathGetVolume Current false (c :: rest) = FSPathGetVolume Current true Current := by
  cases Current with
  | nil => simp [FSPathGetVolume, FSPathComponentGetType, hc]
  | cons cc crest => simp [FSPathGetVolume, FSPathComponentGetType, hc]

/-- With the full string of the current path present, the payload texts present and a volume
text present wherever the first pass leaves `RequiresVolume` set, the build returns. -/
theorem build_total (full : List Char) (PathVolume : Option FSPathComponent) (Path : FSPathInfo)
    (htext : ∀ c ∈ Path.components, HasPayloadText c)
    (hvol : (∀ c ∈ Path.components, c.type ≠ .Volume ∧ c.type ≠ .RelativeRoot) →
      Path.components ≠ [] →
      ∃ V text, PathVolume = some V ∧ FSPathComponentGetString V = some text) :
    ∃ Built, FSPathCreatePathStringCacheWith (some (some full)) PathVolume Path = some Built := by
  unfold FSPathCreatePathStringCacheWith
  simp only
  have hcomp : (if Path.completeRep.isSome = true then FSPathClearPathStringCache Path
      else Path).components = Path.components := by
    split_ifs <;> rfl
  rw [hcomp]
  obtain ⟨m, hm⟩ := measurePass_total full Path.components ⟨true, 0⟩
  rw [hm]
  simp only
  by_cases hlen : m.Length = 0
  · simp only [hlen, ne_eq, not_true_eq_false, if_false]
    exact ⟨_, rfl⟩
  · simp only [hlen, ne_eq, not_false_eq_true, if_true]
    have hne : Path.components ≠ [] := by
      intro he
      rw [he] at hm
      simp only [measurePass, Option.some.injEq] at hm
      subst hm
      exact hlen rfl
    by_cases hrv : m.RequiresVolume = true
    · have hflag := (measurePass_flag _ _ _ _ hm).1 hrv
      obtain ⟨V, text, hV, hg⟩ := hvol hflag.2 hne
      simp only [hrv, if_true, hV, hg]
      obtain ⟨r, hr⟩ := renderPass_total full Path.components htext
        ⟨['/', '/'] ++ text,
          (if Path.completeRep.isSome = true then FSPathClearPathStringCache Path
            else Path).pathRep,
          (if Path.completeRep.isSome = true then FSPathClearPathStringCache Path
            else Path).filenameRep⟩
      rw [hr]
      exact ⟨_, rfl⟩
    · simp only [hrv, Bool.false_eq_true, if_false]
      obtain ⟨r, hr⟩ := renderPass_total full Path.components htext
        ⟨[],
          (if Path.completeRep.isSome = true then FSPathClearPathStringCache Path
            else Path).pathRep,
          (if Path.completeRep.isSome = true then FSPathClearPathStringCache Path
            else Path).filenameRep⟩
      rw [hr]
      exact ⟨_, rfl⟩

/-- C22: for every component sequence in which each `Volume`, `Directory`, `File` and
`Extension` component has text, and every current path whose full string and whose volume text
are present, `FSPathCreatePathStringCache` returns; when the first pass measures 0 it allocates
and writes nothing; otherwise the buffer has the measured length (the implicit volume prefix
counted in when `RequiresVolume` is left set) plus 1 bytes, and the characters the second pass
writes, prefix included, are no more than that measured length, so the text and its terminator
stay inside the buffer. -/
theorem C22_written_within_measured (Current : List FSPathComponent) (Path : FSPathInfo)
    (full vtext : List Char) (V : FSPathComponent)
    (htext : ∀ c ∈ Path.components, HasPayloadText c)
    (hfull : FSPathCurrentFullPathString Current = some (some full))
    (hV : FSPathGetVolume Current true Current = some V)
    (hvt : FSPathComponentGetString V = some vtext) :
    ∃ m Built,
      measurePass (some (some full)) Path.components ⟨true, 0⟩ = some m
      ∧ FSPathCreatePathStringCache Current false Path = some Built
      ∧ (m.Length = 0 → Built.completeRep = none)
      ∧ ∀ b, Built.completeRep = some b →
          b.size = m.Length + (if m.RequiresVolume then 2 + vtext.length else 0) + 1
          ∧ b.text.length ≤ m.Length + (if m.RequiresVolume then 2 + vtext.length else 0) := by
  have hvol : (∀ c ∈ Path.components, c.type ≠ .Volume ∧ c.type ≠ .RelativeRoot) →
      Path.components ≠ [] →
      ∃ V text, FSPathGetVolume Current false Path.components = some V
        ∧ FSPathComponentGetString V = some text := by
    intro hflag hne
    cases hcs : Path.components with
    | nil => exact absurd hcs hne
    | cons c rest =>
      rw [getVolume_not_current Current c rest (hflag c (by rw [hcs]; simp)).1]
      exact ⟨V, vtext, hV, hvt⟩
  obtain ⟨Built, hb⟩ := build_total full _ Path htext hvol
  obtain ⟨m, hm⟩ := measurePass_total full Path.components ⟨true, 0⟩
  have hbuild : FSPathCreatePathStringCache Current false Path = some Built := by
    unfold FSPathCreatePathStringCache
    simp only [Bool.false_eq_true, if_false, hfull]
    exact hb
  refine ⟨m, Built, hm, hbuild, ?_, ?_⟩
  · intro h0
    cases hbuf : Built.completeRep with
    | none => rfl
    | some b =>
      exfalso
      obtain ⟨m2, r, pr, fr, hm2, hlen, -⟩ := build_inversion _ _ _ _ _ hb hbuf
      rw [hm] at hm2
      simp only [Option.some.injEq] at hm2
      subst hm2
      exact hlen h0
  · intro b hbuf
    have hle := build_bound _ _ _ _ _ hb hbuf
    obtain ⟨m2, r, pr, fr, hm2, hlen, hcase⟩ := build_inversion _ _ _ _ _ hb hbuf
    rw [hm] at hm2
    simp only [Option.some.injEq] at hm2
    subst hm2
    rcases hcase with ⟨hrv, V2, text2, hV2, hg2, -, hbeq⟩ | ⟨hrv, -, hbeq⟩
    · have hne : Path.components ≠ [] := by
        intro he
        rw [he] at hm
        simp only [measurePass, Option.some.injEq] at hm
        subst hm
        exact hlen rfl
      have hflag := (measurePass_flag _ _ _ _ hm).1 hrv
      obtain ⟨V3, text3, hV3, hg3⟩ := hvol hflag.2 hne
      have hsame : text2 = vtext := by
        cases hcs : Path.components with
        | nil => exact absurd hcs hne
        | cons c rest =>
          rw [hcs, getVolume_not_current Current c rest (hflag.2 c (by rw [hcs]; simp)).1,
            hV] at hV2
          simp only [Option.some.injEq] at hV2
          subst hV2
          rw [hvt] at hg2
          simpa using hg2.symm
      subst hsame
      have hsz : b.size = m.Length + (2 + text2.length) + 1 := by rw [hbeq]
      simp only [hrv, if_true]
      omega
    · have hsz : b.size = m.Length + 1 := by rw [hbeq]
      simp only [hrv, Bool.false_eq_true, if_false]
      omega

/-- C22 at the components `[RelativeRoot, RelativeParentDirectory, Root, File("f")]` with the
current path `//v`: the first pass measures 3 + 3 + 2 + 1 = 9, the second pass writes the 8
characters of `"//v..//f"` into the buffer of 10 bytes. -/
theorem C22_written_within_measured_witness :
    (∀ c ∈ (FSPathFresh [⟨.RelativeRoot, none⟩, ⟨.RelativeParentDirectory, none⟩,
        ⟨.Root, none⟩, ⟨.File, some ['f']⟩]).components, HasPayloadText c)
    ∧ FSPathCurrentFullPathString [⟨.Volume, some ['v']⟩] = some (some ['/', '/', 'v'])
    ∧ FSPathGetVolume [⟨.Volume, some ['v']⟩] true [⟨.Volume, some ['v']⟩]
        = some ⟨.Volume, some ['v']⟩
    ∧ FSPathComponentGetString ⟨.Volume, some ['v']⟩ = some ['v']
    ∧ FSPathCreatePathStringCache [⟨.Volume, some ['v']⟩] false
        (FSPathFresh [⟨.RelativeRoot, none⟩, ⟨.RelativeParentDirectory, none⟩,
          ⟨.Root, none⟩, ⟨.File, some ['f']⟩])
      = some ⟨[⟨.RelativeRoot, none⟩, ⟨.RelativeParentDirectory, none⟩, ⟨.Root, none⟩,
            ⟨.File, some ['f']⟩],
          some ⟨10, ['/', '/', 'v', '.', '.', '/', '/', 'f']⟩, some 7, some 3, 1⟩
    ∧ ∃ m Built,
      measurePass (some (some ['/', '/', 'v']))
          (FSPathFresh [⟨.RelativeRoot, none⟩, ⟨.RelativeParentDirectory, none⟩,
            ⟨.Root, none⟩, ⟨.File, some ['f']⟩]).components ⟨true, 0⟩ = some m
      ∧ FSPathCreatePathStringCache [⟨.Volume, some ['v']⟩] false
          (FSPathFresh [⟨.RelativeRoot, none⟩, ⟨.RelativeParentDirectory, none⟩,
            ⟨.Root, none⟩, ⟨.File, some ['f']⟩]) = some Built
      ∧ (m.Length = 0 → Built.completeRep = none)
      ∧ ∀ b, Built.completeRep = some b →
          b.size = m.Length + (if m.RequiresVolume then 2 + ['v'].length else 0) + 1
          ∧ b.text.length ≤ m.Length + (if m.RequiresVolume then 2 + ['v'].length else 0) :=
  ⟨by decide, by decide, by decide, rfl, by decide,
    C22_written_within_measured [⟨.Volume, some ['v']⟩]
      (FSPathFresh [⟨.RelativeRoot, none⟩, ⟨.RelativeParentDirectory, none⟩,
        ⟨.Root, none⟩, ⟨.File, some ['f']⟩])
      ['/', '/', 'v'] ['v'] ⟨.Volume, some ['v']⟩ (by decide) (by decide) (by decide) rfl⟩

/-! ## Claim C23: the spans handed to `FSPathCreateComponent` -/

theorem length_by_kind (l : List Char) :
    l.length = l.count '/' + l.count '.'
      + (l.filter (fun x => decide (x ≠ '/' ∧ x ≠ '.'))).length := by
  induction l with
  | nil => rfl
  | cons x l ih =>
    by_cases h1 : x = '/'
    · subst h1
      simp only [List.length_cons, List.count_cons_self, ih]
      simp
      omega
    · by_cases h2 : x = '.'
      · subst h2
        simp only [List.length_cons, List.count_cons_self, ih]
        simp
        omega
      · simp only [List.length_cons, ih]
        simp [List.count_cons, h1, h2, List.filter_cons]
        omega

/-- The conditions under which the classifier reports each type. -/
theorem classify_inversion (c a : Char) (sl dt k : Int) (Ty : FSPathComponentType)
    (h : FSPathFoundComponentTypeFromInputs c a sl dt k = some Ty) :
    (Ty = .Volume ∧ a = '/' ∧ sl = 2 ∧ dt = 0 ∧ k ≠ 0)
    ∨ (Ty = .Root ∧ a = '/' ∧ sl = 1 ∧ dt = 0 ∧ k = 0)
    ∨ (Ty = .RelativeParentDirectory ∧ a = '.' ∧ sl ≠ 0 ∧ dt = 2 ∧ k = 0)
    ∨ (Ty = .Extension ∧ a = '.' ∧ sl = 0 ∧ dt = 1 ∧ k ≠ 0)
    ∨ (Ty = .Directory ∧ a ≠ '/' ∧ a ≠ '.' ∧ sl ≠ 0 ∧ dt = 0 ∧ k ≠ 0)
    ∨ (Ty = .File ∧ a ≠ '/' ∧ a ≠ '.' ∧ sl = 0 ∧ dt = 0 ∧ k ≠ 0) := by
  unfold FSPathFoundComponentTypeFromInputs at h
  split_ifs at h with h1 h2 h3 h4 h5 h6 h7 h8
  all_goals simp only [Option.some.injEq, reduceCtorEq] at h
  all_goals subst h
  · exact Or.inl ⟨rfl, h1, h2.2⟩
  · exact Or.inr (Or.inl ⟨rfl, h1, h3.2⟩)
  · exact Or.inr (Or.inr (Or.inl ⟨rfl, h4, h5⟩))
  · exact Or.inr (Or.inr (Or.inr (Or.inl ⟨rfl, h4, h6.2⟩)))
  · exact Or.inr (Or.inr (Or.inr (Or.inr (Or.inl ⟨rfl, h1, h4, h7⟩))))
  · exact Or.inr (Or.inr (Or.inr (Or.inr (Or.inr ⟨rfl, h1, h4, h8.2⟩))))

theorem spanInv_init : SpanInv scanInit := by
  refine ⟨countsMatch_init, ?_, ?_⟩
  · intro p h
    simp [scanInit] at h
  · intro a p h
    simp [scanInit] at h

/-- A state whose counters agree with an empty pending span completes no component. -/
theorem classify_empty_span (c : Char) (st : ScanState) (h : CountsMatch st)
    (hs : st.Start = []) :
    FSPathFoundComponentTypeFromInputs c (st.first c) st.SlashCount st.DotCount
      st.CharacterCount = none := by
  obtain ⟨h1, h2, h3⟩ := h
  rw [hs] at h1 h2 h3
  simp only [List.count_nil, List.filter_nil, List.length_nil, Nat.cast_zero] at h1 h2 h3
  rw [h1, h2, h3]
  exact classify_zero _ _

theorem spanInv_step (c : Char) (st : ScanState) (h : SpanInv st) : SpanInv (scanStepUnbounded c st) := by
  obtain ⟨hcm, hsl, hdir⟩ := h
  have hcm2 := countsMatch_step c st hcm
  refine ⟨hcm2, ?_, ?_⟩
  · cases hcl : FSPathFoundComponentTypeFromInputs c (st.first c) st.SlashCount st.DotCount
        st.CharacterCount with
    | none =>
      rw [scanStep_none c st hcl]
      intro p hp
      simp only at hp
      cases hs : st.Start with
      | nil =>
        rw [hs] at hp
        simp only [List.nil_append, List.cons.injEq] at hp
        exact Or.inl hp.2.symm
      | cons a q =>
        rw [hs] at hp
        simp only [List.cons_append, List.cons.injEq] at hp
        obtain ⟨ha, hq⟩ := hp
        subst ha
        rcases hsl q hs with hq0 | hq1
        · subst hq0
          right
          obtain ⟨h1, h2, h3⟩ := hcm
          rw [hs] at h1 h2 h3
          have e1 : st.SlashCount = 1 := by simpa using h1
          have e2 : st.DotCount = 0 := by simpa using h2
          have e3 : st.CharacterCount = 0 := by simpa using h3
          rw [first_cons st c '/' [] hs, e1, e2, e3] at hcl
          have hc : c = '/' := by
            by_contra hne
            rw [classify_root c hne] at hcl
            exact absurd hcl (by simp)
          rw [← hq]
          simp [hc]
        · right
          rw [← hq]
          cases q with
          | nil => simp at hq1
          | cons x q2 => simpa using hq1
    | some Ty =>
      obtain ⟨comp, hf, hstep, -⟩ := scanStep_some c st Ty hcl
      rw [hstep]
      intro p hp
      simp only [List.cons.injEq] at hp
      exact Or.inl hp.2.symm
  · cases hcl : FSPathFoundComponentTypeFromInputs c (st.first c) st.SlashCount st.DotCount
        st.CharacterCount with
    | none =>
      rw [scanStep_none c st hcl]
      intro a p hp ha1 ha2 hs0 hd0
      simp only at hp hs0 hd0 ⊢
      rw [List.getLast?_append_of_ne_nil _ (by simp)]
      simp only [List.getLast?_singleton, Option.some.injEq]
      by_contra hne
      obtain ⟨h1, h2, h3⟩ := hcm
      rcases bumpCounts_cases c st.SlashCount st.DotCount st.CharacterCount with
        ⟨e0, e⟩ | ⟨e1, e0, e⟩ | ⟨e1, e2, e⟩
      · exact hne e0
      · rw [e] at hd0
        simp only at hd0
        rw [h2] at hd0
        omega
      · rw [e] at hs0 hd0
        simp only at hs0 hd0
        cases hs : st.Start with
        | nil =>
          rw [hs] at h1
          simp only [List.count_nil, Nat.cast_zero] at h1
          exact hs0 h1
        | cons b q =>
          rw [hs] at hp
          simp only [List.cons_append, List.cons.injEq] at hp
          obtain ⟨hb, -⟩ := hp
          subst hb
          have hk : st.CharacterCount ≠ 0 := by
            rw [h3, hs]
            simp [List.filter_cons, ha1, ha2]
            omega
          rw [first_cons st c b q hs] at hcl
          exact classify_directory c b _ _ _ ha1 ha2 hs0 hd0 hk hcl
    | some Ty =>
      obtain ⟨comp, hf, hstep, -⟩ := scanStep_some c st Ty hcl
      rw [hstep]
      intro a p hp ha1 ha2 hs0 hd0
      simp only [List.cons.injEq] at hp
      obtain ⟨hca, -⟩ := hp
      subst hca
      exfalso
      simp only at hs0
      rcases bumpCounts_cases c 0 0 0 with ⟨e0, e⟩ | ⟨e1, e0, e⟩ | ⟨e1, e2, e⟩
      · exact ha1 e0
      · exact ha2 e0
      · rw [e] at hs0
        exact hs0 rfl

/-- What the invariant gives for the pending span at the moment the classifier reports the
type `Ty`. -/
theorem spanFits_classified (c : Char) (st : ScanState) (Ty : FSPathComponentType)
    (h : SpanInv st)
    (hcl : FSPathFoundComponentTypeFromInputs c (st.first c) st.SlashCount st.DotCount
      st.CharacterCount = some Ty) :
    SpanFits ⟨Ty, st.Start⟩ := by
  obtain ⟨hcm, hsl, hdir⟩ := h
  cases hs : st.Start with
  | nil =>
    rw [classify_empty_span c st hcm hs] at hcl
    exact absurd hcl (by simp)
  | cons a p =>
    rw [← hs]
    obtain ⟨h1, h2, h3⟩ := hcm
    have hlen := length_by_kind st.Start
    have hne : st.Start ≠ [] := by rw [hs]; simp
    have hpos : 1 ≤ st.Start.length := by rw [hs]; simp
    rw [first_cons st c a p hs] at hcl
    rcases classify_inversion c a _ _ _ Ty hcl with
      ⟨hT, ha, e1, e2, e3⟩ | ⟨hT, ha, e1, e2, e3⟩ | ⟨hT, ha, e1, e2, e3⟩
      | ⟨hT, ha, e1, e2, e3⟩ | ⟨hT, ha1, ha2, e1, e2, e3⟩ | ⟨hT, ha1, ha2, e1, e2, e3⟩
    all_goals subst hT
    all_goals refine ⟨hne, ?_, ?_, ?_, ?_⟩
    all_goals first
      | (intro hcon; simp only [reduceCtorEq] at hcon; done)
      | skip
    · intro _
      have hl : 3 ≤ st.Start.length := by omega
      refine ⟨hl, ?_⟩
      subst ha
      rcases hsl p hs with hp0 | hp1
      · rw [hs, hp0] at hl
        simp at hl
      · rw [hs]
        cases p with
        | nil => simp at hp1
        | cons x q =>
          simp only [List.head?_cons, Option.some.injEq] at hp1
          subst hp1
          rfl
    · intro _
      have hl : 2 ≤ st.Start.length := by omega
      exact ⟨hl, by rw [hs]; simp [ha]⟩
    · intro _
      have hl : 2 ≤ st.Start.length := by omega
      exact ⟨hl, hdir a p hs ha1 ha2 e1 e2⟩
    · intro _
      exact hpos

theorem spanFits_file (span : List Char) (h : span ≠ []) : SpanFits ⟨.File, span⟩ := by
  refine ⟨h, ?_, ?_, ?_, ?_⟩
  · intro hcon
    simp only [reduceCtorEq] at hcon
  · intro hcon
    simp only [reduceCtorEq] at hcon
  · intro hcon
    simp only [reduceCtorEq] at hcon
  · intro _
    exact List.length_pos.2 h

theorem stepEmission_fits (c : Char) (st : ScanState) (e : Emission) (h : SpanInv st)
    (he : stepEmission c st = some e) : SpanFits e := by
  unfold stepEmission at he
  cases hcl : FSPathFoundComponentTypeFromInputs c (st.first c) st.SlashCount st.DotCount
      st.CharacterCount with
  | none => rw [hcl] at he; simp at he
  | some Ty =>
    rw [hcl] at he
    simp only [Option.some.injEq] at he
    subst he
    have hfit := spanFits_classified c st Ty h hcl
    cases hhf : st.HasFile
    · simp only [Bool.not_false, if_true]
      split_ifs with h1 h2
      · exact hfit
      · exact spanFits_file _ hfit.1
      · exact hfit
    · simpa using hfit

theorem flushEmission_fits (st : ScanState) (e : Emission) (h : SpanInv st)
    (he : flushEmission st = some e) : SpanFits e := by
  unfold flushEmission at he
  cases hcl : FSPathFoundComponentTypeFromInputs '\x00' (st.first '\x00') st.SlashCount
      st.DotCount st.CharacterCount with
  | none => rw [hcl] at he; simp at he
  | some Ty =>
    rw [hcl] at he
    simp only [Option.some.injEq] at he
    subst he
    exact spanFits_classified _ st Ty h hcl

theorem scanEmissions_fits (s : List Char) (st : ScanState) (h : SpanInv st) :
    ∀ e ∈ scanEmissionsUnbounded s st, SpanFits e := by
  induction s generalizing st with
  | nil =>
    intro e he
    simp only [scanEmissionsUnbounded, Option.mem_toList, Option.mem_def] at he
    exact flushEmission_fits st e h he
  | cons c s ih =>
    intro e he
    unfold scanEmissionsUnbounded at he
    split_ifs at he
    · simp only [Option.mem_toList, Option.mem_def] at he
      exact flushEmission_fits st e h he
    · rcases List.mem_append.1 he with he | he
      · simp only [Option.mem_toList, Option.mem_def] at he
        exact stepEmission_fits c st e h he
      · exact ih _ (spanInv_step c st h) e he

/-- The text `FSPathCreateComponent` makes of a span that fits its type: none for the types
without payload, a non-empty one for the others. -/
theorem component_text (e : Emission) (h : SpanFits e) :
    (∀ t, (FSPathCreateComponent e.type e.span e.span.length).string = some t → t ≠ [])
    ∧ (e.type = .Volume ∨ e.type = .Directory ∨ e.type = .File ∨ e.type = .Extension →
        (FSPathCreateComponent e.type e.span e.span.length).string ≠ none) := by
  obtain ⟨ty, span⟩ := e
  obtain ⟨hne, hv, hd, hx, hf⟩ := h
  simp only at hne hv hd hx hf
  cases ty <;>
    simp only [FSPathCreateComponent, FSPathComponentCreate, FSPathCopyString]
  all_goals refine ⟨fun t ht => ?_, fun hty => ?_⟩
  all_goals first
    | (simp only [reduceCtorEq] at ht; done)
    | skip
  all_goals first
    | (simp only [reduceCtorEq, or_self] at hty; done)
    | skip
  all_goals first
    | (simp only [ne_eq, reduceCtorEq, not_false_eq_true]; done)
    | skip
  · have hl := (hv rfl).1
    simp only [Option.some.injEq] at ht
    subst ht
    intro hnil
    have := congrArg List.length hnil
    simp only [List.length_take, List.length_drop, List.length_nil] at this
    omega
  · have hl := (hd rfl).1
    simp only [Option.some.injEq] at ht
    subst ht
    intro hnil
    have := congrArg List.length hnil
    simp only [List.length_take, List.length_nil] at this
    omega
  · have hl := hf rfl
    simp only [Option.some.injEq] at ht
    subst ht
    intro hnil
    have := congrArg List.length hnil
    simp only [List.length_take, List.length_nil] at this
    omega
  · have hl := (hx rfl).1
    simp only [Option.some.injEq] at ht
    subst ht
    intro hnil
    have := congrArg List.length hnil
    simp only [List.length_take, List.length_drop, List.length_nil] at this
    omega

theorem scanEmissions_suffix (xs ys : List Char) (st : ScanState)
    (h : ∀ c ∈ xs, c ≠ '\x00') :
    ∀ e ∈ scanEmissions ys (scanLoop xs st), e ∈ scanEmissions (xs ++ ys) st := by
  induction xs generalizing st with
  | nil =>
    intro e he
    exact he
  | cons c xs ih =>
    intro e he
    have hc : c ≠ '\x00' := h c (by simp)
    simp only [scanLoop, hc, if_false] at he
    simp only [List.cons_append, scanEmissions, hc, if_false]
    exact List.mem_append_right _ (ih _ (fun x hx => h x (by simp [hx])) e he)

/-- A pending span `p` that starts with `a` and whose three counters are 0: on `"/b/"` the span
`p "/b"` is handed over as a `Directory`. -/
theorem directory_after_zero (p : List Char) :
    (⟨.Directory, ('a' :: p) ++ ['/', 'b']⟩ : Emission)
      ∈ scanEmissions ['/', 'b', '/', 'c'] ⟨'a' :: p, 0, 0, 0, false, []⟩ := by
  have h1 : scanStep '/' ⟨'a' :: p, 0, 0, 0, false, []⟩
      = ⟨('a' :: p) ++ ['/'], 1, 0, 0, false, []⟩ := rfl
  have h2 : scanStep 'b' ⟨('a' :: p) ++ ['/'], 1, 0, 0, false, []⟩
      = ⟨('a' :: p) ++ ['/', 'b'], 1, 0, 1, false, []⟩ := by
    have hfirst : ScanState.first ⟨('a' :: p) ++ ['/'], 1, 0, 0, false, []⟩ 'b' = 'a' := rfl
    have hcl : FSPathFoundComponentTypeFromInputs 'b' 'a' 1 0 0 = none := by decide
    have hw : wrapInt32 (0 + 1) = 1 := by decide
    unfold scanStep
    rw [hfirst]
    simp only [hcl, hw]
    simp
  have h3 : stepEmission '/' ⟨('a' :: p) ++ ['/', 'b'], 1, 0, 1, false, []⟩
      = some ⟨.Directory, ('a' :: p) ++ ['/', 'b']⟩ := by
    have hfirst : ScanState.first ⟨('a' :: p) ++ ['/', 'b'], 1, 0, 1, false, []⟩ '/' = 'a' :=
      rfl
    have hcl : FSPathFoundComponentTypeFromInputs '/' 'a' 1 0 1 = some .Directory := by decide
    unfold stepEmission
    rw [hfirst]
    simp only [hcl]
    rfl
  have hs : ('/' : Char) ≠ '\x00' := by decide
  have hb : ('b' : Char) ≠ '\x00' := by decide
  simp only [scanEmissions, hs, hb, if_false, h1, h2, h3]
  simp

/-- The calls made on `f "/b/c"` for a name `f` of `n + 1` copies of `a` whose `int` count is
0. -/
theorem directory_run (n : Nat) (h0 : wrapInt32 (1 + n) = 0) :
    (⟨.Directory, ('a' :: List.replicate n 'a') ++ ['/', 'b']⟩ : Emission)
        ∈ scanEmissions (('a' :: List.replicate n 'a') ++ ['/', 'b', '/', 'c']) scanInit
    ∧ (('a' :: List.replicate n 'a') ++ ['/', 'b']).getLast? = some 'b'
    ∧ (('a' :: List.replicate n 'a') ++ ['/', 'b']).getLast? ≠ some '/' := by
  have hlast : ∀ p : List Char, (p ++ ['/', 'b']).getLast? = some 'b' := by
    intro p
    simp
  have hlast2 : ∀ p : List Char, (p ++ ['/', 'b']).getLast? ≠ some '/' := by
    intro p
    rw [hlast p]
    decide
  have hnul : ∀ c ∈ 'a' :: List.replicate n 'a', c ≠ '\x00' :=
    fun c hc => ((isName_run n).2 c hc).2.2
  have hloop : scanLoop ('a' :: List.replicate n 'a') scanInit
      = ⟨'a' :: List.replicate n 'a', 0, 0, 0, false, []⟩ := by
    have hstep : scanStep 'a' scanInit = ⟨['a'], 0, 0, 1, false, []⟩ := by decide
    have ha : ('a' : Char) ≠ '\x00' := by decide
    simp only [scanLoop, ha, if_false, hstep]
    rw [scanLoop_run 'a' (by decide) n ⟨['a'], 0, 0, 1, false, []⟩ 'a' [] rfl
      (staysPending_name 'a' (by decide)) (by decide)]
    simp only [h0, List.singleton_append]
  refine ⟨?_, hlast _, hlast2 _⟩
  apply scanEmissions_suffix _ _ _ hnul
  rw [hloop]
  exact directory_after_zero _

/-- C23, as stated, fails: on the input `f "/b/c"`, with `f` of 4294967296 copies of `a`, the
`int` count of ordinary characters is 0 when the first separator is read, so the span is not
closed behind it: the span `f "/b"` is handed to `FSPathCreateComponent` as a `Directory`, and
it ends with `'b'`, not with `'/'`. -/
theorem C23_counterexample :
    (⟨.Directory, overlongName ++ ['/', 'b']⟩ : Emission)
        ∈ scanEmissions (overlongName ++ ['/', 'b', '/', 'c']) scanInit
    ∧ (overlongName ++ ['/', 'b']).getLast? = some 'b'
    ∧ (overlongName ++ ['/', 'b']).getLast? ≠ some '/' :=
  directory_run 4294967295 wrapInt32_overlong

/-- C23, amended: for every input string of at most 2147483647 (`INT_MAX`) characters and both
values of `CompletePath`, the components `FSPathConvertPathToComponents` returns are the results
of the calls of `FSPathCreateComponent` listed by `scanEmissions` (with a `RelativeRoot`, made
without that call, put in front for a complete path), and every span handed over is non-empty
and fits its type: a `Volume` span has at least 3 characters and starts with `"//"`, a
`Directory` span has at least 2 and ends with `'/'`, an `Extension` span has at least 2 and
starts with `'.'`, a `File` span has at least 1.  So `Length - 2` and `Length - 1` do not
underflow, and every text produced is non-empty, a `Volume`, `Directory`, `File` or `Extension`
having one. -/
theorem C23_spans_fit (s : List Char) (CompletePath : Bool) (hlen : FitsInt s) :
    (FSPathConvertPathToComponents s CompletePath
        = (scanEmissions s scanInit).map Emission.component
      ∨ FSPathConvertPathToComponents s CompletePath
        = ⟨.RelativeRoot, none⟩ :: (scanEmissions s scanInit).map Emission.component)
    ∧ ∀ e ∈ scanEmissions s scanInit,
        e.span ≠ []
        ∧ (e.type = .Volume → 3 ≤ e.span.length ∧ e.span.take 2 = ['/', '/'])
        ∧ (e.type = .Directory → 2 ≤ e.span.length ∧ e.span.getLast? = some '/')
        ∧ (e.type = .Extension → 2 ≤ e.span.length ∧ e.span.head? = some '.')
        ∧ (e.type = .File → 1 ≤ e.span.length)
        ∧ (∀ t, (FSPathCreateComponent e.type e.span e.span.length).string = some t → t ≠ [])
        ∧ (e.type = .Volume ∨ e.type = .Directory ∨ e.type = .File ∨ e.type = .Extension →
            (FSPathCreateComponent e.type e.span e.span.length).string ≠ none) := by
  have h0 := convert_false_emissions s
  refine ⟨?_, fun e he => ?_⟩
  · cases CompletePath with
    | false => exact Or.inl h0
    | true =>
      rw [convert_true_eq, h0]
      cases (scanEmissions s scanInit).map Emission.component with
      | nil => exact Or.inl rfl
      | cons first tail =>
        simp only
        split_ifs
        · exact Or.inl rfl
        · exact Or.inr rfl
  · rw [emissions_eq_unbounded s hlen] at he
    have hfit := scanEmissions_fits s scanInit spanInv_init e he
    have htext := component_text e hfit
    exact ⟨hfit.1, hfit.2.1, hfit.2.2.1, hfit.2.2.2.1, hfit.2.2.2.2, htext.1, htext.2⟩

/-- C23 (amended) at `"//v/d/.e"`: the spans handed over are `"//v"`, `"/"`, `"d/"` and
`".e"`. -/
theorem C23_spans_fit_witness :
    FitsInt ['/', '/', 'v', '/', 'd', '/', '.', 'e']
    ∧ scanEmissions ['/', '/', 'v', '/', 'd', '/', '.', 'e'] scanInit
        = [⟨.Volume, ['/', '/', 'v']⟩, ⟨.Root, ['/']⟩, ⟨.Directory, ['d', '/']⟩,
            ⟨.Extension, ['.', 'e']⟩]
    ∧ ∀ e ∈ scanEmissions ['/', '/', 'v', '/', 'd', '/', '.', 'e'] scanInit,
        e.span ≠ []
        ∧ (e.type = .Volume → 3 ≤ e.span.length ∧ e.span.take 2 = ['/', '/'])
        ∧ (e.type = .Directory → 2 ≤ e.span.length ∧ e.span.getLast? = some '/')
        ∧ (e.type = .Extension → 2 ≤ e.span.length ∧ e.span.head? = some '.')
        ∧ (e.type = .File → 1 ≤ e.span.length)
        ∧ (∀ t, (FSPathCreateComponent e.type e.span e.span.length).string = some t → t ≠ [])
        ∧ (e.type = .Volume ∨ e.type = .Directory ∨ e.type = .File ∨ e.type = .Extension →
            (FSPathCreateComponent e.type e.span e.span.length).string ≠ none) :=
  ⟨by decide, by decide,
    (C23_spans_fit ['/', '/', 'v', '/', 'd', '/', '.', 'e'] true (by decide)).2⟩

end CommonC
